import Mathlib

/-! # MatrixMultiplication.c : a shallow embedding

The C program keeps every matrix in a heap buffer that it reaches through
pointers, so the embedding threads an explicit heap through every function.

Conventions (LP64: `int` and `unsigned int` are 32 bits wide, `size_t` is 64 bits):

* a heap is a family of blocks, each block a list of `int` cells; a pointer is a
  block number together with a cell offset; an access outside the block fails
  (`none`), which stands for the undefined behaviour of the C program;
* `unsigned int` arithmetic is taken modulo `2^32` (`wrapU`), `size_t`
  arithmetic modulo `2^64` (`wrapSz`);
* `int` arithmetic wraps around to the range `[-2^31, 2^31)` (`wrapI`);
* a block handed out by `malloc` holds indeterminate values, given by the
  `junk` component of the heap; `malloc` is assumed to succeed.
-/

namespace MatMul

/-! ## Machine arithmetic -/

/-- The value of an `unsigned int` expression whose exact value is `x`. -/
def wrapU (x : Nat) : Nat := x % 4294967296

/-- The value of a `size_t` expression whose exact value is `x`. -/
def wrapSz (x : Nat) : Nat := x % 18446744073709551616

/-- The value of an `int` expression whose exact value is `x` (two's complement wrap-around). -/
def wrapI (x : Int) : Int := (x + 2147483648) % 4294967296 - 2147483648

/-- The `int` whose 32-bit pattern is `i`: how an `int` counter that is compared
as `unsigned int` is read when it is used as a signed quantity. -/
def asInt (i : Nat) : Int := wrapI (i : Int)

/-- The values an `int` can hold. -/
def IsInt (x : Int) : Prop := -2147483648 ≤ x ∧ x < 2147483648

instance (x : Int) : Decidable (IsInt x) := by
  unfold IsInt
  exact inferInstance

/-! ## Heap, pointers, matrices -/

/-- A pointer to `int`: a block and a cell offset inside it. -/
structure Ptr where
  blk : Nat
  off : Int
deriving DecidableEq, Repr

/-- Pointer arithmetic `p + k`. -/
def Ptr.add (p : Ptr) (k : Int) : Ptr := { blk := p.blk, off := p.off + k }

/-- The C struct `Matrix`: a pointer to the buffer and the `unsigned int` size. -/
structure Matrix where
  matrix : Ptr
  size : Nat
deriving DecidableEq, Repr

/-- The heap: the cells of every block, the number of the next block `malloc`
hands out, and the indeterminate contents of blocks not yet allocated. -/
structure Heap where
  blocks : Nat → List Int
  next : Nat
  junk : Nat → Nat → Int

/-- Reading cell `k` of a block. -/
def readAt (L : List Int) (k : Int) : Option Int :=
  if 0 ≤ k then L[k.toNat]? else none

/-- Writing cell `k` of a block. -/
def writeAt (L : List Int) (k : Int) (v : Int) : Option (List Int) :=
  if 0 ≤ k ∧ k.toNat < L.length then some (L.set k.toNat v) else none

/-- The heap with block `b` replaced. -/
def Heap.setBlock (h : Heap) (b : Nat) (L : List Int) : Heap :=
  { h with blocks := Function.update h.blocks b L }

/-- The C expression `*p` as an rvalue. -/
def load (h : Heap) (p : Ptr) : Option Int := readAt (h.blocks p.blk) p.off

/-- The C statement `*p = v`. -/
def store (h : Heap) (p : Ptr) (v : Int) : Option Heap :=
  (writeAt (h.blocks p.blk) p.off v).map (h.setBlock p.blk)

/-- The call `malloc(bytes)` for an `int` buffer: a fresh block of `bytes / 4`
cells with indeterminate contents. -/
def malloc (h : Heap) (bytes : Nat) : Ptr × Heap :=
  ({ blk := h.next, off := 0 },
   { blocks := Function.update h.blocks h.next ((List.range (bytes / 4)).map (h.junk h.next)),
     next := h.next + 1,
     junk := h.junk })

/-- The call `calloc(count, sizeof(int))`: a fresh block of `count` zero cells. -/
def calloc (h : Heap) (count : Nat) : Ptr × Heap :=
  ({ blk := h.next, off := 0 },
   { blocks := Function.update h.blocks h.next (List.replicate count 0),
     next := h.next + 1,
     junk := h.junk })

/-- The call `free(p)`: the block has no accessible cell afterwards. -/
def free (h : Heap) (p : Ptr) : Heap := h.setBlock p.blk []

/-- The loop `for (i = i0; i < i0 + k; i++) body`: the body runs for the counter
values `i0, i0 + 1, ..., i0 + k - 1` in this order and the loop fails as soon as
one run of the body fails. -/
def forLoop {σ : Type} (body : Nat → σ → Option σ) : Nat → Nat → σ → Option σ
  | 0, _, s => some s
  | k + 1, i, s => (body i s).bind (forLoop body k (i + 1))

/-! ## The functions of the program -/

/-- Function `createRandMatrix`; `rand i` is the value the `i`-th call of `rand()` returns. -/
def createRandMatrix (rand : Nat → Int) (h : Heap) (SIZE : Nat) : Option (Matrix × Heap) :=
  let a := malloc h (wrapSz (wrapU (SIZE * SIZE) * 4))
  (forLoop (fun i hi => store hi (a.1.add (asInt i)) (Int.tmod (rand i) 10))
      (wrapU (SIZE * SIZE)) 0 a.2).map
    (fun h2 => ({ matrix := a.1, size := SIZE }, h2))

/-- Function `createIdentityMatrix`. -/
def createIdentityMatrix (h : Heap) (SIZE : Nat) : Option (Matrix × Heap) :=
  let a := calloc h (wrapU (SIZE * SIZE))
  (forLoop (fun i hi => store hi ((a.1.add (wrapU (i * SIZE))).add (asInt i)) 1) SIZE 0 a.2).map
    (fun h2 => ({ matrix := a.1, size := SIZE }, h2))

/-- Function `copyArray`; `size` is an `int`. -/
def copyArray (h : Heap) (src dst : Ptr) (size : Int) : Option Heap :=
  forLoop (fun i hi => (load hi (src.add (asInt i))).bind (fun v => store hi (dst.add (asInt i)) v))
    size.toNat 0 h

/-- Function `dotProduct`: the accumulator `dot` is updated by `dot += x * y` in `int`. -/
def dotProduct (h : Heap) (arr_One arr_Two : Ptr) (n : Nat) : Option Int :=
  forLoop (fun i dot =>
      (load h (arr_One.add (asInt i))).bind (fun x =>
        (load h (arr_Two.add (asInt i))).bind (fun y =>
          some (wrapI (dot + wrapI (x * y))))))
    n 0 0

/-- The three statements that swap `*p` and `*q` through `temp`. -/
def swapCells (h : Heap) (p q : Ptr) : Option Heap :=
  (load h p).bind (fun temp =>
    (load h q).bind (fun v =>
      (store h p v).bind (fun h1 => store h1 q temp)))

/-- Function `transpose`: only the buffer is touched, the struct keeps its fields. -/
def transpose (h : Heap) (m : Matrix) : Option Heap :=
  forLoop (fun i hi =>
      forLoop (fun j hj =>
          swapCells hj ((m.matrix.add (wrapU (i * m.size))).add j)
            ((m.matrix.add (wrapU (j * m.size))).add i))
        (m.size - i) i hi)
    m.size 0 h

/-- Function `MatrixVectorMulti`: returns the pointer to the freshly allocated vector. -/
def MatrixVectorMulti (h : Heap) (matrix : Matrix) (arr : Ptr) : Option (Ptr × Heap) :=
  let a := malloc h (wrapSz (matrix.size * 4))
  (forLoop (fun i hi =>
      (dotProduct hi (matrix.matrix.add (wrapU (i * matrix.size))) arr matrix.size).bind
        (fun d => store hi (a.1.add i) d))
    matrix.size 0 a.2).map (fun h2 => (a.1, h2))

/-- One run of the outer loop body of `matrixMultiplyNaive`, for column `i`,
writing into the result buffer `rp`. -/
def naiveColumn (A B : Matrix) (rp : Ptr) (i : Nat) (hi : Heap) : Option Heap :=
  let a := malloc hi (wrapSz (4 * B.size))
  (forLoop (fun j hj =>
      (load hj ((B.matrix.add (wrapU (j * B.size))).add i)).bind (fun v => store hj (a.1.add j) v))
    B.size 0 a.2).bind (fun h3 =>
  (MatrixVectorMulti h3 A a.1).bind (fun mv =>
  (forLoop (fun j hj =>
      (load hj (mv.1.add j)).bind (fun v => store hj ((rp.add (wrapU (j * B.size))).add i) v))
    B.size 0 mv.2).bind (fun h5 =>
  some (free (free h5 a.1) mv.1))))

/-- Function `matrixMultiplyNaive`. -/
def matrixMultiplyNaive (h : Heap) (A B : Matrix) : Option (Matrix × Heap) :=
  let a := malloc h (wrapSz (4 * A.size * A.size))
  (forLoop (naiveColumn A B a.1) B.size 0 a.2).map
    (fun h2 => ({ matrix := a.1, size := A.size }, h2))

/-- One run of the loop body of `matrixMultiplyCacheFriendly`, for row `i` of the
transposed `B`, writing into the result buffer `rp`. -/
def cacheRow (A B : Matrix) (rp : Ptr) (i : Nat) (hi : Heap) : Option Heap :=
  (MatrixVectorMulti hi A (B.matrix.add (wrapU (i * B.size)))).bind (fun mv =>
  (copyArray mv.2 mv.1 (rp.add (wrapU (i * B.size))) (asInt B.size)).bind (fun hb =>
  some (free hb mv.1)))

/-- Function `matrixMultiplyCacheFriendly`. -/
def matrixMultiplyCacheFriendly (h : Heap) (A B : Matrix) : Option (Matrix × Heap) :=
  let a := malloc h (wrapSz (4 * A.size * A.size))
  (transpose a.2 B).bind (fun h2 =>
  (forLoop (cacheRow A B a.1) B.size 0 h2).bind (fun h3 =>
  (transpose h3 { matrix := a.1, size := A.size }).bind (fun h4 =>
  (transpose h4 B).bind (fun h5 =>
  some ({ matrix := a.1, size := A.size }, h5)))))

/-- Function `freeMatrix`. -/
def freeMatrix (h : Heap) (M : Matrix) : Matrix × Heap :=
  ({ matrix := M.matrix, size := 0 }, free h M.matrix)

/-! ## Vocabulary of the specification -/

/-- Element `(r, c)` of a matrix: the cell at offset `r * size + c` of its buffer. -/
def entry (h : Heap) (M : Matrix) (r c : Nat) : Option Int :=
  readAt (h.blocks M.matrix.blk) (M.matrix.off + ((r * M.size + c : Nat) : Int))

/-- Element `(r, c)` as a number (`0` when the buffer has no such cell). -/
def cell (h : Heap) (M : Matrix) (r c : Nat) : Int := (entry h M r c).getD 0

/-- The cell `i` places after `p`, as a number (`0` when there is no such cell). -/
def valAt (h : Heap) (p : Ptr) (i : Nat) : Int := (load h (p.add (i : Int))).getD 0

/-- The buffer of a matrix, as the list of its cells. -/
def buffer (h : Heap) (M : Matrix) : List Int := h.blocks M.matrix.blk

/-- A square matrix of size `n` that lives in heap `h`: the buffer is an
allocated block of exactly `n * n` cells and the pointer is its start. -/
def IsMatrix (h : Heap) (M : Matrix) (n : Nat) : Prop :=
  M.size = n ∧ M.matrix.off = 0 ∧ M.matrix.blk < h.next ∧ (h.blocks M.matrix.blk).length = n * n

/-- A heap made of the given blocks, with zeros as indeterminate values. -/
def heapOf (bs : List (List Int)) : Heap :=
  { blocks := fun b => bs.getD b [], next := bs.length, junk := fun _ _ => 0 }

/-- The matrix of size `n` whose buffer is block `b`. -/
def matrixAt (b n : Nat) : Matrix := { matrix := { blk := b, off := 0 }, size := n }

/-! ## List-level descriptions used in the proofs

The loops of the program, when no access leaves its block, act on the cells of
a block as the total functions below act on a list. -/

/-- The counterpart of `forLoop` for a body that cannot fail. -/
def iter {σ : Type} (body : Nat → σ → σ) : Nat → Nat → σ → σ
  | 0, _, s => s
  | k + 1, i, s => iter body k (i + 1) (body i s)

/-- The heap after a fresh block with contents `L` has been allocated. -/
def Heap.alloc (h : Heap) (L : List Int) : Heap :=
  { blocks := Function.update h.blocks h.next L, next := h.next + 1, junk := h.junk }

/-- The indeterminate contents of the next block `malloc` hands out, `count` cells long. -/
def Heap.fresh (h : Heap) (count : Nat) : List Int := (List.range count).map (h.junk h.next)

/-- Swapping cells `p` and `q` of a list. -/
def swapT (L : List Int) (p q : Nat) : List Int := (L.set p (L.getD q 0)).set q (L.getD p 0)

/-- One run of the inner loop body of `transpose`: cells `(i, j)` and `(j, i)` are swapped. -/
def swapStep (n i j : Nat) (L : List Int) : List Int :=
  swapT L (wrapU (i * n) + j) (wrapU (j * n) + i)

/-- One run of the outer loop body of `transpose`. -/
def transposePass (n i : Nat) (L : List Int) : List Int := iter (swapStep n i) (n - i) i L

/-- What `transpose` does to the buffer of a matrix of size `n`. -/
def transposeT (n : Nat) (L : List Int) : List Int := iter (transposePass n) n 0 L

/-- Every cell that the loops over a matrix of size `n` reach through the index
expression `i * size + j` lies inside a block of `N` cells. -/
def InB (n N : Nat) : Prop := ∀ i j, i < n → j < n → wrapU (i * n) + j < N

/-- The value `dotProduct` returns for the `n` cells of `LA` from offset `ra` and
the `n` cells of `Lv` from offset `rv`. -/
def rowDot (LA : List Int) (ra : Nat) (Lv : List Int) (rv : Nat) (n : Nat) : Int :=
  wrapI (∑ k ∈ Finset.range n, LA.getD (ra + k) 0 * Lv.getD (rv + k) 0)

/-- The vector `MatrixVectorMulti` builds from the matrix buffer `LA` of size `n`
and the vector that starts at offset `rv` of `Lv`. -/
def mvT (n : Nat) (LA Lv : List Int) (rv : Nat) : List Int :=
  (List.range n).map (fun i => rowDot LA (wrapU (i * n)) Lv rv n)

/-- The buffer `createIdentityMatrix` builds for size `n`. -/
def identityT (n : Nat) : List Int :=
  iter (fun i L => L.set (wrapU (i * n) + i) 1) n 0 (List.replicate (wrapU (n * n)) 0)

/-- The heap reached from `h1` after `c` temporary blocks have been allocated
and freed again, with block `rb` holding `R`. -/
def tempHeap (h1 : Heap) (rb c : Nat) (R : List Int) : Heap :=
  { blocks := fun b =>
      if b = rb then R else if h1.next ≤ b ∧ b < h1.next + c then [] else h1.blocks b,
    next := h1.next + c,
    junk := h1.junk }

/-- Column `i` of the buffer `LB`, as `matrixMultiplyNaive` copies it into `BCol`. -/
def colT (n : Nat) (LB : List Int) (i : Nat) : List Int :=
  (List.range n).map (fun j => LB.getD (wrapU (j * n) + i) 0)

/-- The last inner loop of `matrixMultiplyNaive`: the vector `mv` is written to column `i`. -/
def scatterT (n i : Nat) (mv : List Int) (R : List Int) : List Int :=
  iter (fun j K => K.set (wrapU (j * n) + i) (mv.getD j 0)) n 0 R

/-- What one run of the outer loop body of `matrixMultiplyNaive` does to the result buffer. -/
def naiveColT (n : Nat) (LA LB : List Int) (i : Nat) (R : List Int) : List Int :=
  scatterT n i (mvT n LA (colT n LB i) 0) R

/-- What `matrixMultiplyNaive` makes of the fresh result buffer `R`. -/
def naiveT (n : Nat) (LA LB R : List Int) : List Int := iter (naiveColT n LA LB) n 0 R

/-- What `copyArray` does to the destination block, for `n` cells from offset `dst`. -/
def copyT (n dst : Nat) (mv : List Int) (R : List Int) : List Int :=
  iter (fun r K => K.set (dst + r) (mv.getD r 0)) n 0 R

/-- What one run of the loop body of `matrixMultiplyCacheFriendly` does to the
result buffer; `LBt` is the buffer of `B` after the first `transpose`. -/
def cacheRowT (n : Nat) (LA LBt : List Int) (i : Nat) (R : List Int) : List Int :=
  copyT n (wrapU (i * n)) (mvT n LA LBt (wrapU (i * n))) R

/-- What `matrixMultiplyCacheFriendly` makes of the fresh result buffer `R`;
`LA` and `LBt` are the buffers of `A` and `B` after the first `transpose`. -/
def cacheT (n : Nat) (LA LBt R : List Int) : List Int :=
  transposeT n (iter (cacheRowT n LA LBt) n 0 R)

/-- Heap `g` has the blocks of heap `h`, cell for cell in number: the same next
block and the same length for every block. -/
def Shape (g h : Heap) : Prop := g.next = h.next ∧ ∀ b, (g.blocks b).length = (h.blocks b).length

/-! ## Inputs of size 65537

`65537` is the least size for which the index expression `i * size + j`
overflows `unsigned int` inside a buffer of `size * size` cells
(`65536 * 65537 = 2^32 + 65536`). -/

/-- A buffer of `65537 * 65537` zeros. -/
def bigZeros : List Int := List.replicate 4295098369 0

/-- A heap whose block 0 is a `65537 * 65537` buffer, zero except for a one at
offset `65536 * 65537`, the place of element `(65536, 0)`. -/
def heapLastRow : Heap := heapOf [bigZeros.set 4295032832 1]

/-- A heap whose block 0 is a `65537 * 65537` buffer, zero except for a one at
offset `131073`, the place of element `(1, 65536)`. -/
def heapThirdCell : Heap := heapOf [bigZeros.set 131073 1]

/-- A heap with two blocks of `2^31 + 1` zeros. -/
def heapLongVectors : Heap :=
  heapOf [List.replicate 2147483649 0, List.replicate 2147483649 0]

/-- A vector of 65537 ones. -/
def onesVec : List Int := List.replicate 65537 1

/-- A heap with the matrix buffer of `heapLastRow` as block 0 and a vector of
65537 ones as block 1. -/
def heapLastRowVec : Heap := heapOf [bigZeros.set 4295032832 1, onesVec]

/-- A heap with a `65537 * 65537` buffer of zeros as block 0 and the buffer of
`heapThirdCell` as block 1. -/
def heapZeroThird : Heap := heapOf [bigZeros, bigZeros.set 131073 1]

/-- A heap whose block 0 is a `65536 * 65536` buffer of zeros. -/
def heapZeros65536 : Heap := heapOf [List.replicate 4294967296 0]

/-- A heap with two `65537 * 65537` buffers: block 0 is zero except for a one at
offset `65536`, the place of element `(0, 65536)`; block 1 is zero except for a
one at offset `131072`, the place of element `(1, 65535)`. Fresh blocks hold zeros. -/
def heapUnits : Heap := heapOf [bigZeros.set 65536 1, bigZeros.set 131072 1]

/-! ## The random fill and the rows of the cache-friendly product -/

/-- What `createRandMatrix` writes into a fresh buffer of `count` cells: cell `i`
holds `rand() % 10` for the value that call `i` of the pseudo-random source returns. -/
def randT (rand : Nat → Int) (count : Nat) : List Int :=
  (List.range count).map (fun i => Int.tmod (rand i) 10)

/-- The statements of `matrixMultiplyCacheFriendly` before `transpose(&result)`:
the allocation of the result, `transpose(&B)` and the loop over the rows of the
transposed `B`. The state returned is the one in which `transpose(&result)` starts. -/
def cacheFriendlyRows (h : Heap) (A B : Matrix) : Option (Matrix × Heap) :=
  let a := malloc h (wrapSz (4 * A.size * A.size))
  (transpose a.2 B).bind (fun h2 =>
  (forLoop (cacheRow A B a.1) B.size 0 h2).bind (fun h3 =>
  some ({ matrix := a.1, size := A.size }, h3)))

/-- A heap with two `65537 * 65537` buffers: block 0 is zero except for a one at
offset `0`, the place of element `(0, 0)`; block 1 is zero except for a one at
offset `65536`, the place of element `(0, 65536)`. Fresh blocks hold zeros. -/
def heapCorner : Heap := heapOf [bigZeros.set 0 1, bigZeros.set 65536 1]

/-! ## Arithmetic facts -/

theorem wrapI_add_wrapI (a b : Int) : wrapI (wrapI a + wrapI b) = wrapI (a + b) := by
  unfold wrapI
  omega

theorem wrapI_zero : wrapI 0 = 0 := by decide

theorem wrapI_of_isInt {x : Int} (hx : IsInt x) : wrapI x = x := by
  unfold IsInt at hx
  unfold wrapI
  omega

theorem isInt_wrapI (x : Int) : IsInt (wrapI x) := by
  unfold IsInt wrapI
  omega

theorem asInt_of_lt {i : Nat} (hi : i < 2147483648) : asInt i = (i : Int) := by
  unfold asInt wrapI
  omega

theorem wrapU_of_lt {x : Nat} (hx : x < 4294967296) : wrapU x = x := by
  unfold wrapU
  omega

theorem wrapU_lt (x : Nat) : wrapU x < 4294967296 := by
  unfold wrapU
  omega

/-! ## Cells of a block -/

theorem readAt_natCast (L : List Int) (k : Nat) : readAt L (k : Int) = L[k]? := by
  simp [readAt]

theorem readAt_neg (L : List Int) {k : Int} (hk : k < 0) : readAt L k = none := by
  simp [readAt, not_le.mpr hk]

theorem writeAt_natCast (L : List Int) {k : Nat} (v : Int) (hk : k < L.length) :
    writeAt L (k : Int) v = some (L.set k v) := by
  simp [writeAt, hk]

/-! ## Loops -/

theorem forLoop_succ {σ : Type} (body : Nat → σ → Option σ) (k i : Nat) (s : σ) :
    forLoop body (k + 1) i s = (body i s).bind (forLoop body k (i + 1)) := rfl

theorem forLoop_add {σ : Type} (body : Nat → σ → Option σ) (k1 k2 : Nat) :
    ∀ (i : Nat) (s : σ),
      forLoop body (k1 + k2) i s = (forLoop body k1 i s).bind (forLoop body k2 (i + k1)) := by
  induction k1 with
  | zero => intro i s; simp [forLoop]
  | succ k ih =>
    intro i s
    have e : k + 1 + k2 = (k + k2) + 1 := by omega
    rw [e, forLoop_succ, forLoop_succ]
    cases hb : body i s with
    | none => simp
    | some t =>
      simp only [Option.some_bind]
      rw [ih (i + 1) t]
      have e2 : i + 1 + k = i + (k + 1) := by omega
      rw [e2]

/-- Invariant rule: a loop whose body keeps an invariant runs to completion. -/
theorem forLoop_inv {σ : Type} (body : Nat → σ → Option σ) (Inv : Nat → σ → Prop) (k : Nat) :
    ∀ (i : Nat) (s : σ), Inv i s →
      (∀ j t, i ≤ j → j < i + k → Inv j t → ∃ t', body j t = some t' ∧ Inv (j + 1) t') →
      ∃ t, forLoop body k i s = some t ∧ Inv (i + k) t := by
  induction k with
  | zero => intro i s h0 _; exact ⟨s, rfl, h0⟩
  | succ k ih =>
    intro i s h0 step
    obtain ⟨t, ht, hinv⟩ := step i s (le_refl i) (by omega) h0
    obtain ⟨u, hu, hinvu⟩ := ih (i + 1) t hinv (fun j t' h1 h2 h3 => step j t' (by omega) (by omega) h3)
    refine ⟨u, ?_, ?_⟩
    · rw [forLoop_succ, ht]; exact hu
    · have e : i + (k + 1) = i + 1 + k := by omega
      rw [e]; exact hinvu

/-- A loop fails when one of its iterations fails in every state. -/
theorem forLoop_eq_none {σ : Type} (body : Nat → σ → Option σ) (k : Nat) :
    ∀ (i : Nat) (s : σ) (j : Nat), i ≤ j → j < i + k → (∀ t, body j t = none) →
      forLoop body k i s = none := by
  induction k with
  | zero => intro i s j h1 h2 _; omega
  | succ k ih =>
    intro i s j h1 h2 hf
    rw [forLoop_succ]
    by_cases hij : i = j
    · subst hij; rw [hf s]; rfl
    · cases hb : body i s with
      | none => rfl
      | some t => exact ih (i + 1) t j (by omega) (by omega) hf

/-! ## dotProduct -/

/-- When every cell it is asked to read exists, `dotProduct` returns the wrapped
sum of the products. -/
theorem dotProduct_eq (h : Heap) (a b : Ptr) (n : Nat) (x y : Nat → Int)
    (hn : n ≤ 2147483648)
    (ha : ∀ i, i < n → load h (a.add (i : Int)) = some (x i))
    (hb : ∀ i, i < n → load h (b.add (i : Int)) = some (y i)) :
    dotProduct h a b n = some (wrapI (∑ i ∈ Finset.range n, x i * y i)) := by
  unfold dotProduct
  obtain ⟨t, ht, hinv⟩ := forLoop_inv
    (fun i dot =>
      (load h (a.add (asInt i))).bind (fun x =>
        (load h (b.add (asInt i))).bind (fun y =>
          some (wrapI (dot + wrapI (x * y))))))
    (fun i dot => dot = wrapI (∑ k ∈ Finset.range i, x k * y k)) n 0 0
    (by simp [wrapI_zero])
    (by
      intro j t _ hj hinv
      have hj2 : j < n := by omega
      dsimp only
      rw [asInt_of_lt (by omega), ha j hj2, hb j hj2]
      refine ⟨_, rfl, ?_⟩
      rw [hinv, wrapI_add_wrapI, Finset.sum_range_succ])
  rw [ht]
  simp only [Nat.zero_add] at hinv
  rw [hinv]

theorem forLoop_sim {σ τ : Type} (bodyO : Nat → σ → Option σ) (bodyT : Nat → τ → τ)
    (f : Nat → τ → σ) (G : Nat → τ → Prop) (k : Nat) :
    ∀ (i : Nat) (t : τ), G i t →
      (∀ j u, i ≤ j → j < i + k → G j u →
        bodyO j (f j u) = some (f (j + 1) (bodyT j u)) ∧ G (j + 1) (bodyT j u)) →
      forLoop bodyO k i (f i t) = some (f (i + k) (iter bodyT k i t)) ∧
        G (i + k) (iter bodyT k i t) := by
  induction k with
  | zero => intro i t h0 _; exact ⟨rfl, h0⟩
  | succ k ih =>
    intro i t h0 step
    obtain ⟨hb, hg⟩ := step i t (le_refl i) (by omega) h0
    obtain ⟨h1, h2⟩ := ih (i + 1) (bodyT i t) hg
      (fun j u a b c => step j u (by omega) (by omega) c)
    have e : i + (k + 1) = i + 1 + k := by omega
    rw [forLoop_succ, hb, e]
    exact ⟨h1, h2⟩

theorem iter_succ {σ : Type} (body : Nat → σ → σ) (k i : Nat) (s : σ) :
    iter body (k + 1) i s = iter body k (i + 1) (body i s) := rfl

theorem iter_add {σ : Type} (body : Nat → σ → σ) (k1 k2 : Nat) :
    ∀ (i : Nat) (s : σ), iter body (k1 + k2) i s = iter body k2 (i + k1) (iter body k1 i s) := by
  induction k1 with
  | zero => intro i s; simp [iter]
  | succ k ih =>
    intro i s
    have e : k + 1 + k2 = (k + k2) + 1 := by omega
    have e2 : i + 1 + k = i + (k + 1) := by omega
    rw [e, iter_succ, iter_succ, ih (i + 1) (body i s), e2]

theorem iter_inv {σ : Type} (body : Nat → σ → σ) (Inv : Nat → σ → Prop) (k : Nat) :
    ∀ (i : Nat) (s : σ), Inv i s →
      (∀ j t, i ≤ j → j < i + k → Inv j t → Inv (j + 1) (body j t)) →
      Inv (i + k) (iter body k i s) := by
  induction k with
  | zero => intro i s h0 _; exact h0
  | succ k ih =>
    intro i s h0 step
    have e : i + (k + 1) = i + 1 + k := by omega
    rw [iter_succ, e]
    exact ih (i + 1) (body i s) (step i s (le_refl i) (by omega) h0)
      (fun j t a b c => step j t (by omega) (by omega) c)

/-! ## Heap facts -/

theorem Heap.ext_iff3 (g h : Heap) (hb : g.blocks = h.blocks) (hn : g.next = h.next)
    (hj : g.junk = h.junk) : g = h := by
  cases g; cases h; simp_all

@[simp] theorem setBlock_blocks_same (h : Heap) (b : Nat) (L : List Int) :
    (h.setBlock b L).blocks b = L := by
  simp [Heap.setBlock]

@[simp] theorem setBlock_blocks_ne (h : Heap) {b c : Nat} (L : List Int) (hc : c ≠ b) :
    (h.setBlock b L).blocks c = h.blocks c := by
  simp [Heap.setBlock, Function.update_noteq hc]

@[simp] theorem setBlock_next (h : Heap) (b : Nat) (L : List Int) :
    (h.setBlock b L).next = h.next := rfl

@[simp] theorem setBlock_junk (h : Heap) (b : Nat) (L : List Int) :
    (h.setBlock b L).junk = h.junk := rfl

@[simp] theorem setBlock_setBlock (h : Heap) (b : Nat) (L M : List Int) :
    (h.setBlock b L).setBlock b M = h.setBlock b M := by
  simp [Heap.setBlock]

theorem setBlock_self (h : Heap) (b : Nat) : h.setBlock b (h.blocks b) = h := by
  cases h
  simp [Heap.setBlock]

@[simp] theorem alloc_blocks_same (h : Heap) (L : List Int) : (h.alloc L).blocks h.next = L := by
  simp [Heap.alloc]

theorem alloc_blocks_ne (h : Heap) {c : Nat} (L : List Int) (hc : c ≠ h.next) :
    (h.alloc L).blocks c = h.blocks c := by
  simp [Heap.alloc, Function.update_noteq hc]

theorem alloc_blocks_lt (h : Heap) {c : Nat} (L : List Int) (hc : c < h.next) :
    (h.alloc L).blocks c = h.blocks c :=
  alloc_blocks_ne h L (by omega)

@[simp] theorem alloc_next (h : Heap) (L : List Int) : (h.alloc L).next = h.next + 1 := rfl

@[simp] theorem alloc_junk (h : Heap) (L : List Int) : (h.alloc L).junk = h.junk := rfl

@[simp] theorem alloc_setBlock (h : Heap) (L M : List Int) :
    (h.alloc L).setBlock h.next M = h.alloc M := by
  simp [Heap.alloc, Heap.setBlock]

theorem malloc_eq (h : Heap) (bytes : Nat) :
    malloc h bytes = ({ blk := h.next, off := 0 }, h.alloc (h.fresh (bytes / 4))) := rfl

theorem calloc_eq (h : Heap) (count : Nat) :
    calloc h count = ({ blk := h.next, off := 0 }, h.alloc (List.replicate count 0)) := rfl

@[simp] theorem fresh_length (h : Heap) (count : Nat) : (h.fresh count).length = count := by
  simp [Heap.fresh]

theorem load_setBlock_same (h : Heap) (b : Nat) (L : List Int) (k : Int) :
    load (h.setBlock b L) { blk := b, off := k } = readAt L k := by
  simp [load]

theorem store_setBlock_same (h : Heap) (b : Nat) (L : List Int) (k : Int) (v : Int) :
    store (h.setBlock b L) { blk := b, off := k } v = (writeAt L k v).map (h.setBlock b) := by
  unfold store
  simp only [setBlock_blocks_same]
  cases writeAt L k v <;> simp

/-! ## Cells of a list -/

theorem getD_set (L : List Int) (i j : Nat) (a : Int) :
    (L.set i a).getD j 0 = if i = j ∧ i < L.length then a else L.getD j 0 := by
  simp only [List.getD_eq_getElem?_getD, List.getElem?_set]
  by_cases hij : i = j
  · subst hij
    by_cases hl : i < L.length
    · simp [hl]
    · have : L[i]? = none := List.getElem?_eq_none (by omega)
      simp [hl, this]
  · simp [hij]

theorem getElem?_eq_some_getD (L : List Int) {p : Nat} (hp : p < L.length) :
    L[p]? = some (L.getD p 0) := by
  simp [List.getD_eq_getElem?_getD, List.getElem?_eq_getElem hp]

theorem swapT_length (L : List Int) (p q : Nat) : (swapT L p q).length = L.length := by
  simp [swapT]

theorem getD_swapT (L : List Int) {p q : Nat} (hp : p < L.length) (hq : q < L.length) (k : Nat) :
    (swapT L p q).getD k 0 =
      if k = q then L.getD p 0 else if k = p then L.getD q 0 else L.getD k 0 := by
  unfold swapT
  rw [getD_set, getD_set]
  simp only [List.length_set]
  by_cases h1 : q = k
  · subst h1; simp [hq]
  · have h1b : ¬ k = q := fun e => h1 e.symm
    simp only [h1, h1b, false_and, if_false]
    by_cases h2 : p = k
    · subst h2; simp [hp]
    · have h2b : ¬ k = p := fun e => h2 e.symm
      simp [h2, h2b]

theorem getD_swapT_other (L : List Int) (p q k : Nat) (hp : k ≠ p) (hq : k ≠ q) :
    (swapT L p q).getD k 0 = L.getD k 0 := by
  unfold swapT
  rw [getD_set, getD_set]
  have h1 : ¬ q = k := fun e => hq e.symm
  have h2 : ¬ p = k := fun e => hp e.symm
  simp [h1, h2]

theorem list_ext_getD (L M : List Int) (hl : L.length = M.length)
    (h : ∀ p, p < L.length → L.getD p 0 = M.getD p 0) : L = M := by
  apply List.ext_getElem hl
  intro p h1 h2
  have := h p h1
  simpa [List.getD_eq_getElem?_getD, List.getElem?_eq_getElem h1, List.getElem?_eq_getElem h2]
    using this

/-! ## transpose -/

/-- Swapping two existing cells of one block. -/
theorem swapCells_eq (h : Heap) (b : Nat) (L : List Int) {p q : Nat}
    (hp : p < L.length) (hq : q < L.length) :
    swapCells (h.setBlock b L) { blk := b, off := (p : Int) } { blk := b, off := (q : Int) } =
      some (h.setBlock b (swapT L p q)) := by
  unfold swapCells
  rw [load_setBlock_same, load_setBlock_same, readAt_natCast, readAt_natCast,
    getElem?_eq_some_getD L hp, getElem?_eq_some_getD L hq]
  simp only [Option.some_bind]
  rw [store_setBlock_same, writeAt_natCast _ _ hp]
  simp only [Option.map_some', Option.some_bind]
  rw [store_setBlock_same, writeAt_natCast _ _ (by simpa using hq)]
  simp [swapT]
theorem ptr_add_add (b x y : Nat) :
    (Ptr.add (Ptr.add { blk := b, off := 0 } (x : Int)) (y : Int)) =
      { blk := b, off := ((x + y : Nat) : Int) } := by
  simp [Ptr.add]

theorem transposeT_length (n : Nat) (L : List Int) : (transposeT n L).length = L.length := by
  unfold transposeT
  have := iter_inv
    (fun i Li => iter (fun j Lj => swapT Lj (wrapU (i * n) + j) (wrapU (j * n) + i)) (n - i) i Li)
    (fun _ M => M.length = L.length) n 0 L rfl
    (by
      intro i M _ _ hM
      have := iter_inv (fun j Lj => swapT Lj (wrapU (i * n) + j) (wrapU (j * n) + i))
        (fun _ M => M.length = L.length) (n - i) i M hM
        (by intro j M2 _ _ hM2; dsimp only; rw [swapT_length]; exact hM2)
      exact this)
  exact this

/-- When no access leaves the buffer, `transpose` succeeds and changes the
buffer as `transposeT` says; nothing else in the heap changes. -/
theorem transpose_eq (h : Heap) (m : Matrix) (hoff : m.matrix.off = 0)
    (hin : InB m.size (h.blocks m.matrix.blk).length) :
    transpose h m =
      some (h.setBlock m.matrix.blk (transposeT m.size (h.blocks m.matrix.blk))) := by
  obtain ⟨⟨b, o⟩, n⟩ := m
  simp only at hoff hin ⊢
  subst hoff
  unfold transpose transposeT
  simp only
  have key := forLoop_sim
    (fun i hi =>
      forLoop (fun j hj =>
          swapCells hj ((Ptr.add { blk := b, off := 0 } (wrapU (i * n))).add j)
            ((Ptr.add { blk := b, off := 0 } (wrapU (j * n))).add i))
        (n - i) i hi)
    (fun i Li => iter (fun j Lj => swapT Lj (wrapU (i * n) + j) (wrapU (j * n) + i)) (n - i) i Li)
    (fun _ L => h.setBlock b L) (fun _ L => L.length = (h.blocks b).length) n 0 (h.blocks b) rfl
    (by
      intro i L _ hi hL
      have hi2 : i < n := by omega
      have inner := forLoop_sim
        (fun j hj =>
          swapCells hj ((Ptr.add { blk := b, off := 0 } (wrapU (i * n))).add j)
            ((Ptr.add { blk := b, off := 0 } (wrapU (j * n))).add i))
        (fun j Lj => swapT Lj (wrapU (i * n) + j) (wrapU (j * n) + i))
        (fun _ L => h.setBlock b L) (fun _ L => L.length = (h.blocks b).length) (n - i) i L hL
        (by
          intro j M hij hj hM
          have hj2 : j < n := by omega
          dsimp only
          rw [ptr_add_add, ptr_add_add, swapCells_eq h b M (by rw [hM]; exact hin i j hi2 hj2)
            (by rw [hM]; exact hin j i hj2 hi2)]
          exact ⟨rfl, by rw [swapT_length]; exact hM⟩)
      exact inner)
  dsimp only at key
  rw [setBlock_self] at key
  exact key.1
theorem idx_small {n i : Nat} (hn : n ≤ 65536) (hi : i < n) : wrapU (i * n) = i * n := by
  apply wrapU_of_lt
  have h1 : i * n ≤ 65535 * 65536 := Nat.mul_le_mul (by omega) hn
  omega

theorem idx_lt {n i j : Nat} (hi : i < n) (hj : j < n) : i * n + j < n * n := by
  have h1 : (i + 1) * n ≤ n * n := Nat.mul_le_mul_right n (by omega)
  rw [Nat.add_mul] at h1
  omega

theorem InB_small {n : Nat} (hn : n ≤ 65536) : InB n (n * n) := by
  intro i j hi hj
  rw [idx_small hn hi]
  exact idx_lt hi hj

theorem idx_eq_iff {n r c r2 c2 : Nat} (hc : c < n) (hc2 : c2 < n) :
    r * n + c = r2 * n + c2 ↔ r = r2 ∧ c = c2 := by
  constructor
  · intro e
    have hn : 0 < n := by omega
    have h1 : (r * n + c) / n = r := by
      rw [Nat.mul_comm, Nat.mul_add_div hn, Nat.div_eq_of_lt hc, Nat.add_zero]
    have h2 : (r2 * n + c2) / n = r2 := by
      rw [Nat.mul_comm, Nat.mul_add_div hn, Nat.div_eq_of_lt hc2, Nat.add_zero]
    have hr : r = r2 := by rw [← h1, ← h2, e]
    subst hr
    exact ⟨rfl, by omega⟩
  · rintro ⟨rfl, rfl⟩; rfl

theorem transposeT_frame (n : Nat) (L : List Int) (p : Nat)
    (hp : ∀ i j, i < n → j < n → p ≠ wrapU (i * n) + j) :
    (transposeT n L).getD p 0 = L.getD p 0 := by
  unfold transposeT
  exact iter_inv
    (fun i Li => iter (fun j Lj => swapT Lj (wrapU (i * n) + j) (wrapU (j * n) + i)) (n - i) i Li)
    (fun _ M => M.getD p 0 = L.getD p 0) n 0 L rfl
    (by
      intro i M _ hi hM
      exact iter_inv (fun j Lj => swapT Lj (wrapU (i * n) + j) (wrapU (j * n) + i))
        (fun _ M => M.getD p 0 = L.getD p 0) (n - i) i M hM
        (by
          intro j M2 _ hj hM2
          dsimp only
          rw [getD_swapT_other _ _ _ _ (hp i j (by omega) (by omega))
            (hp j i (by omega) (by omega))]
          exact hM2))

/-- One pass of the inner loop of `transpose`, for a size whose index arithmetic is exact. -/
theorem transposeT_pass {n : Nat} (hn : n ≤ 65536) (L M : List Int) (i : Nat) (hi : i < n)
    (hlen : M.length = n * n)
    (hM : ∀ r c, r < n → c < n →
      M.getD (r * n + c) 0 = if r < i ∨ c < i then L.getD (c * n + r) 0 else L.getD (r * n + c) 0) :
    (iter (fun j Lj => swapT Lj (wrapU (i * n) + j) (wrapU (j * n) + i)) (n - i) i M).length
        = n * n ∧
    ∀ r c, r < n → c < n →
      (iter (fun j Lj => swapT Lj (wrapU (i * n) + j) (wrapU (j * n) + i)) (n - i) i M).getD
          (r * n + c) 0 =
        if r < i + 1 ∨ c < i + 1 then L.getD (c * n + r) 0 else L.getD (r * n + c) 0 := by
  have key := iter_inv (fun j Lj => swapT Lj (wrapU (i * n) + j) (wrapU (j * n) + i))
    (fun j K => K.length = n * n ∧ ∀ r c, r < n → c < n →
      K.getD (r * n + c) 0 =
        if (r < i ∨ c < i) ∨ (r = i ∧ c < j) ∨ (c = i ∧ r < j) then L.getD (c * n + r) 0
        else L.getD (r * n + c) 0)
    (n - i) i M
    (by
      refine ⟨hlen, ?_⟩
      intro r c hr hc
      rw [hM r c hr hc]
      by_cases h1 : r < i ∨ c < i
      · rw [if_pos h1, if_pos (Or.inl h1)]
      · have h2 : ¬ ((r < i ∨ c < i) ∨ (r = i ∧ c < i) ∨ (c = i ∧ r < i)) := by omega
        rw [if_neg h1, if_neg h2])
    (by
      intro j K hij hj ⟨hK, hval⟩
      have hj2 : j < n := by omega
      dsimp only
      rw [idx_small hn hi, idx_small hn hj2]
      refine ⟨by rw [swapT_length]; exact hK, ?_⟩
      intro r c hr hc
      rw [getD_swapT K (by rw [hK]; exact idx_lt hi hj2) (by rw [hK]; exact idx_lt hj2 hi)]
      simp only [idx_eq_iff hc hi, idx_eq_iff hc hj2]
      by_cases h1 : r = j ∧ c = i
      · obtain ⟨rfl, rfl⟩ := h1
        rw [if_pos ⟨rfl, rfl⟩, hval c r hi hj2]
        have a1 : ¬ ((c < c ∨ r < c) ∨ (c = c ∧ r < r) ∨ (r = c ∧ c < r)) := by omega
        have a2 : (r < c ∨ c < c) ∨ (r = c ∧ c < r + 1) ∨ (c = c ∧ r < r + 1) := by omega
        rw [if_neg a1, if_pos a2]
      · rw [if_neg h1]
        by_cases h2 : r = i ∧ c = j
        · obtain ⟨rfl, rfl⟩ := h2
          rw [if_pos ⟨rfl, rfl⟩, hval c r hj2 hi]
          have a1 : ¬ ((c < r ∨ r < r) ∨ (c = r ∧ r < c) ∨ (r = r ∧ c < c)) := by omega
          have a2 : (r < r ∨ c < r) ∨ (r = r ∧ c < c + 1) ∨ (c = r ∧ r < c + 1) := by omega
          rw [if_neg a1, if_pos a2]
        · rw [if_neg h2, hval r c hr hc]
          by_cases a : (r < i ∨ c < i) ∨ (r = i ∧ c < j) ∨ (c = i ∧ r < j)
          · have a2 : (r < i ∨ c < i) ∨ (r = i ∧ c < j + 1) ∨ (c = i ∧ r < j + 1) := by omega
            rw [if_pos a, if_pos a2]
          · have a2 : ¬ ((r < i ∨ c < i) ∨ (r = i ∧ c < j + 1) ∨ (c = i ∧ r < j + 1)) := by
              omega
            rw [if_neg a, if_neg a2])
  have e : i + (n - i) = n := by omega
  rw [e] at key
  refine ⟨key.1, ?_⟩
  intro r c hr hc
  rw [key.2 r c hr hc]
  by_cases a : (r < i ∨ c < i) ∨ (r = i ∧ c < n) ∨ (c = i ∧ r < n)
  · have a2 : r < i + 1 ∨ c < i + 1 := by omega
    rw [if_pos a, if_pos a2]
  · have a2 : ¬ (r < i + 1 ∨ c < i + 1) := by omega
    rw [if_neg a, if_neg a2]

/-- For a size whose index arithmetic is exact, `transposeT` moves cell `(c, r)` to `(r, c)`. -/
theorem transposeT_exact {n : Nat} (hn : n ≤ 65536) (L : List Int) (hlen : L.length = n * n)
    (r c : Nat) (hr : r < n) (hc : c < n) :
    (transposeT n L).getD (r * n + c) 0 = L.getD (c * n + r) 0 := by
  have key := iter_inv
    (fun i Li => iter (fun j Lj => swapT Lj (wrapU (i * n) + j) (wrapU (j * n) + i)) (n - i) i Li)
    (fun i K => K.length = n * n ∧ ∀ r c, r < n → c < n →
      K.getD (r * n + c) 0 = if r < i ∨ c < i then L.getD (c * n + r) 0 else L.getD (r * n + c) 0)
    n 0 L ⟨hlen, by intro r c _ _; simp⟩
    (by
      intro i K _ hi ⟨hK, hval⟩
      exact transposeT_pass hn L K i (by omega) hK hval)
  have := key.2 r c hr hc
  rw [Nat.zero_add, if_pos (Or.inl hr)] at this
  exact this

theorem transposeT_involutive {n : Nat} (hn : n ≤ 65536) (L : List Int) (hlen : L.length = n * n) :
    transposeT n (transposeT n L) = L := by
  apply list_ext_getD
  · rw [transposeT_length, transposeT_length]
  · intro p hp
    rw [transposeT_length, transposeT_length, hlen] at hp
    have hn0 : 0 < n := by
      rcases Nat.eq_zero_or_pos n with h0 | h0
      · subst h0; simp at hp
      · exact h0
    have hr : p / n < n := Nat.div_lt_of_lt_mul hp
    have hc : p % n < n := Nat.mod_lt _ hn0
    have e : p = p / n * n + p % n := by
      rw [Nat.mul_comm]; exact (Nat.div_add_mod p n).symm
    rw [e, transposeT_exact hn _ (by rw [transposeT_length]; exact hlen) _ _ hr hc,
      transposeT_exact hn L hlen _ _ hc hr]
theorem swapStep_length (n i j : Nat) (L : List Int) : (swapStep n i j L).length = L.length :=
  swapT_length _ _ _

theorem iter_swapStep_length (n i k : Nat) :
    ∀ (j0 : Nat) (L : List Int), (iter (swapStep n i) k j0 L).length = L.length := by
  induction k with
  | zero => intro j0 L; rfl
  | succ k ih => intro j0 L; rw [iter_succ, ih, swapStep_length]

theorem transposePass_length (n i : Nat) (L : List Int) :
    (transposePass n i L).length = L.length :=
  iter_swapStep_length n i _ _ _

theorem iter_transposePass_length (n k : Nat) :
    ∀ (i0 : Nat) (L : List Int), (iter (transposePass n) k i0 L).length = L.length := by
  induction k with
  | zero => intro i0 L; rfl
  | succ k ih => intro i0 L; rw [iter_succ, ih, transposePass_length]

/-- A stretch of the inner loop of `transpose` leaves alone every cell it does not swap. -/
theorem iter_swapStep_frame (n i k : Nat) (p : Nat) :
    ∀ (j0 : Nat) (L : List Int),
      (∀ j, j0 ≤ j → j < j0 + k → p ≠ wrapU (i * n) + j ∧ p ≠ wrapU (j * n) + i) →
      (iter (swapStep n i) k j0 L).getD p 0 = L.getD p 0 := by
  induction k with
  | zero => intro j0 L _; rfl
  | succ k ih =>
    intro j0 L hp
    rw [iter_succ, ih (j0 + 1) _ (fun j a b => hp j (by omega) (by omega))]
    obtain ⟨h1, h2⟩ := hp j0 (le_refl _) (by omega)
    exact getD_swapT_other _ _ _ _ h1 h2

/-- A stretch of the outer loop of `transpose` leaves alone every cell it does not swap. -/
theorem iter_transposePass_frame (n k : Nat) (p : Nat) :
    ∀ (i0 : Nat) (L : List Int),
      (∀ i j, i0 ≤ i → i < i0 + k → i ≤ j → j < n →
        p ≠ wrapU (i * n) + j ∧ p ≠ wrapU (j * n) + i) →
      (iter (transposePass n) k i0 L).getD p 0 = L.getD p 0 := by
  induction k with
  | zero => intro i0 L _; rfl
  | succ k ih =>
    intro i0 L hp
    rw [iter_succ, ih (i0 + 1) _ (fun i j a b c d => hp i j (by omega) (by omega) c d)]
    exact iter_swapStep_frame n i0 (n - i0) p i0 L
      (fun j a b => hp i0 j (le_refl _) (by omega) a (by omega))

theorem iter_first {σ : Type} (body : Nat → σ → σ) {n k : Nat} (hn : n = k + 1) (i : Nat) (s : σ) :
    iter body n i s = iter body k (i + 1) (body i s) := by
  subst hn; rfl

theorem iter_last {σ : Type} (body : Nat → σ → σ) {n k : Nat} (hn : n = k + 1) (i : Nat) (s : σ) :
    iter body n i s = body (i + k) (iter body k i s) := by
  subst hn
  exact iter_add body k 1 i s

theorem wrapU_65537 {i : Nat} (hi : i < 65537) :
    wrapU (i * 65537) = if i = 65536 then 65536 else i * 65537 := by
  by_cases h : i = 65536
  · subst h; decide
  · rw [if_neg h]
    apply wrapU_of_lt
    omega

/-- Size 65537, where `65536 * 65537` no longer fits in an `unsigned int`: the
cell at offset 1 receives what was at offset 65537. -/
theorem transposeT_65537_cell1 (L : List Int) (hL : 131073 < L.length) :
    (transposeT 65537 L).getD 1 0 = L.getD 65537 0 := by
  have e1 : transposeT 65537 L = iter (transposePass 65537) 65536 1 (transposePass 65537 0 L) :=
    iter_first (transposePass 65537) (by decide) 0 L
  have e2 : transposePass 65537 0 L
      = iter (swapStep 65537 0) 65535 2 (swapStep 65537 0 1 (swapStep 65537 0 0 L)) := by
    unfold transposePass
    rw [iter_first (swapStep 65537 0) (show 65537 - 0 = 65536 + 1 by decide) 0 L,
      iter_first (swapStep 65537 0) (show 65536 = 65535 + 1 by decide) (0 + 1) _]
  rw [e1, iter_transposePass_frame 65537 65536 1 1 _
    (by
      intro i j a b c d
      rw [wrapU_65537 (show i < 65537 by omega), wrapU_65537 (show j < 65537 by omega)]
      split_ifs <;> omega), e2,
    iter_swapStep_frame 65537 0 65535 1 2 _ (by
      intro j a b
      rw [wrapU_65537 (show j < 65537 by omega)]
      split_ifs <;> simp [wrapU] <;> omega)]
  have e3 : swapStep 65537 0 1 (swapStep 65537 0 0 L) = swapT (swapStep 65537 0 0 L) 1 65537 := rfl
  rw [e3, getD_swapT _ (by rw [swapStep_length]; omega) (by rw [swapStep_length]; omega)]
  have e4 : swapStep 65537 0 0 L = swapT L 0 0 := rfl
  rw [e4, if_neg (by decide), if_pos rfl, getD_swapT_other _ _ _ _ (by decide) (by decide)]

/-- Size 65537: the cell at offset 65537 receives what was at offset 131073. -/
theorem transposeT_65537_cell65537 (L : List Int) (hL : 131073 < L.length) :
    (transposeT 65537 L).getD 65537 0 = L.getD 131073 0 := by
  have e1 : transposeT 65537 L
      = iter (transposePass 65537) 65535 2 (transposePass 65537 1 (transposePass 65537 0 L)) := by
    unfold transposeT
    rw [iter_first (transposePass 65537) (show 65537 = 65536 + 1 by decide) 0 L,
      iter_first (transposePass 65537) (show 65536 = 65535 + 1 by decide) (0 + 1) _]
  have e2 : ∀ M, transposePass 65537 1 M
      = swapStep 65537 1 65536 (iter (swapStep 65537 1) 65535 1 M) := by
    intro M
    unfold transposePass
    exact iter_last (swapStep 65537 1) (show 65537 - 1 = 65535 + 1 by decide) 1 M
  have e3 : ∀ M, swapStep 65537 1 65536 M = swapT M 131073 65537 := fun _ => rfl
  rw [e1, iter_transposePass_frame 65537 65535 65537 2 _
    (by
      intro i j a b c d
      rw [wrapU_65537 (show i < 65537 by omega), wrapU_65537 (show j < 65537 by omega)]
      split_ifs <;> omega), e2, e3,
    getD_swapT _ (by rw [iter_swapStep_length, transposePass_length]; omega)
      (by rw [iter_swapStep_length, transposePass_length]; omega),
    if_pos rfl,
    iter_swapStep_frame 65537 1 65535 131073 1 _ (by
      intro j a b
      rw [wrapU_65537 (show j < 65537 by omega)]
      split_ifs <;> simp [wrapU] <;> omega)]
  exact iter_swapStep_frame 65537 0 65537 131073 0 L (by
      intro j a b
      rw [wrapU_65537 (show j < 65537 by omega)]
      split_ifs <;> simp [wrapU] <;> omega)
theorem heapOf_blocks_zero (A : List Int) (bs : List (List Int)) :
    (heapOf (A :: bs)).blocks 0 = A := rfl

theorem heapOf_blocks_one (A B : List Int) (bs : List (List Int)) :
    (heapOf (A :: B :: bs)).blocks 1 = B := rfl

theorem bigZeros_length : bigZeros.length = 4295098369 := by
  unfold bigZeros
  exact List.length_replicate _ _

theorem bigZeros_getD (p : Nat) : bigZeros.getD p 0 = 0 := by
  unfold bigZeros
  rw [List.getD_eq_getElem?_getD, List.getElem?_replicate]
  split_ifs <;> rfl

theorem InB_65537 {N : Nat} (hN : 4295032832 ≤ N) : InB 65537 N := by
  intro i j hi hj
  rw [wrapU_65537 hi]
  split_ifs <;> omega

theorem entry_eq (h : Heap) (M : Matrix) (n : Nat) (hM : IsMatrix h M n) (r c : Nat)
    (hr : r < n) (hc : c < n) :
    entry h M r c = some ((h.blocks M.matrix.blk).getD (r * n + c) 0) := by
  obtain ⟨hs, ho, _, hl⟩ := hM
  unfold entry
  rw [ho, hs, Int.zero_add, readAt_natCast]
  exact getElem?_eq_some_getD _ (by rw [hl]; exact idx_lt hr hc)

theorem entry_of_length (h : Heap) (M : Matrix) (ho : M.matrix.off = 0) (r c : Nat)
    (hl : r * M.size + c < (h.blocks M.matrix.blk).length) :
    entry h M r c = some ((h.blocks M.matrix.blk).getD (r * M.size + c) 0) := by
  unfold entry
  rw [ho, Int.zero_add, readAt_natCast]
  exact getElem?_eq_some_getD _ hl

/-- C8, amended: for sequences `a` and `b` with at least `n` cells each and
`n ≤ 2^31`, `dotProduct(a, b, n)` returns the sum of `a[i] * b[i]` over `i < n`
in wrap-around `int` arithmetic; it returns `0` for `n = 0`, and it depends on
no cell at an index `≥ n`. -/
theorem dotProduct_spec (h : Heap) (a b : Ptr) (n : Nat) (hn : n ≤ 2147483648)
    (ha0 : 0 ≤ a.off) (ha : a.off + (n : Int) ≤ ((h.blocks a.blk).length : Int))
    (hb0 : 0 ≤ b.off) (hb : b.off + (n : Int) ≤ ((h.blocks b.blk).length : Int)) :
    dotProduct h a b n = some (wrapI (∑ i ∈ Finset.range n, valAt h a i * valAt h b i)) ∧
    (n = 0 → dotProduct h a b n = some 0) ∧
    ∀ g : Heap, (∀ i, i < n → load g (a.add (i : Int)) = load h (a.add (i : Int))) →
      (∀ i, i < n → load g (b.add (i : Int)) = load h (b.add (i : Int))) →
      dotProduct g a b n = dotProduct h a b n := by
  have rd : ∀ (p : Ptr), 0 ≤ p.off → p.off + (n : Int) ≤ ((h.blocks p.blk).length : Int) →
      ∀ i, i < n → load h (p.add (i : Int)) = some (valAt h p i) := by
    intro p hp0 hp i hi
    unfold valAt
    have : (load h (p.add (i : Int))).isSome := by
      unfold load readAt Ptr.add
      have h1 : 0 ≤ p.off + (i : Int) := by omega
      have h2 : (p.off + (i : Int)).toNat < (h.blocks p.blk).length := by omega
      simp [h1, List.getElem?_eq_getElem h2]
    obtain ⟨v, hv⟩ := Option.isSome_iff_exists.mp this
    rw [hv]; rfl
  have main := dotProduct_eq h a b n (valAt h a) (valAt h b) hn (rd a ha0 ha) (rd b hb0 hb)
  refine ⟨main, ?_, ?_⟩
  · intro h0; subst h0; rfl
  · intro g ga gb
    rw [main]
    exact dotProduct_eq g a b n (valAt h a) (valAt h b) hn
      (fun i hi => by rw [ga i hi]; exact rd a ha0 ha i hi)
      (fun i hi => by rw [gb i hi]; exact rd b hb0 hb i hi)

theorem dotProduct_spec_witness :
    dotProduct (heapOf [[1, 2, 3], [4, 5, 6]]) ⟨0, 0⟩ ⟨1, 0⟩ 2 =
      some (wrapI (∑ i ∈ Finset.range 2,
        valAt (heapOf [[1, 2, 3], [4, 5, 6]]) ⟨0, 0⟩ i * valAt (heapOf [[1, 2, 3], [4, 5, 6]]) ⟨1, 0⟩ i)) :=
  (dotProduct_spec (heapOf [[1, 2, 3], [4, 5, 6]]) ⟨0, 0⟩ ⟨1, 0⟩ 2 (by decide) (by decide)
    (by decide) (by decide) (by decide)).1

/-- C8 as stated fails: with `n = 2^31 + 1` and two sequences of `n` cells the
`int` counter wraps to `-2^31` and the read at that offset leaves the sequence,
so no sum is returned. -/
theorem dotProduct_counterexample :
    (heapLongVectors.blocks 0).length = 2147483649 ∧
    (heapLongVectors.blocks 1).length = 2147483649 ∧
    dotProduct heapLongVectors ⟨0, 0⟩ ⟨1, 0⟩ 2147483649 = none := by
  refine ⟨?_, ?_, ?_⟩
  · unfold heapLongVectors
    rw [heapOf_blocks_zero]
    exact List.length_replicate _ _
  · unfold heapLongVectors
    rw [heapOf_blocks_one]
    exact List.length_replicate _ _
  · unfold dotProduct
    apply forLoop_eq_none _ _ 0 0 2147483648 (by omega) (by omega)
    intro t
    have e : asInt 2147483648 = -2147483648 := by decide
    have r : load heapLongVectors (Ptr.add ⟨0, 0⟩ (asInt 2147483648)) = none := by
      rw [e]
      exact readAt_neg _ (by decide)
    simp only [r, Option.none_bind]
theorem isMatrix_setBlock (h : Heap) (M : Matrix) (n : Nat) (hM : IsMatrix h M n) (L : List Int)
    (hL : L.length = n * n) : IsMatrix (h.setBlock M.matrix.blk L) M n := by
  obtain ⟨hs, ho, hb, _⟩ := hM
  exact ⟨hs, ho, hb, by rw [setBlock_blocks_same]; exact hL⟩

/-- Below the wrap-around threshold `transpose` exchanges elements `(i, j)` and `(j, i)`. -/
theorem transpose_entries (h : Heap) (M : Matrix) (n : Nat) (hn : n ≤ 65536)
    (hM : IsMatrix h M n) :
    ∃ h', transpose h M = some h' ∧ IsMatrix h' M n ∧
      ∀ i j, i < n → j < n → ∃ v, entry h M j i = some v ∧ entry h' M i j = some v := by
  have hM2 := hM
  obtain ⟨hs, ho, hb, hl⟩ := hM
  have hin : InB M.size (h.blocks M.matrix.blk).length := by
    rw [hs, hl]; exact InB_small hn
  refine ⟨_, transpose_eq h M ho hin, ?_, ?_⟩
  · exact isMatrix_setBlock h M n hM2 _ (by rw [hs, transposeT_length, hl])
  · intro i j hi hj
    have hM3 : IsMatrix (h.setBlock M.matrix.blk (transposeT M.size (h.blocks M.matrix.blk))) M n :=
      isMatrix_setBlock h M n hM2 _ (by rw [hs, transposeT_length, hl])
    refine ⟨_, entry_eq h M n hM2 j i hj hi, ?_⟩
    rw [entry_eq _ M n hM3 i j hi hj, setBlock_blocks_same, hs,
      transposeT_exact hn _ hl i j hi hj]

/-- C4, amended: for a square matrix of size `n ≤ 65536` whose buffer has
`n * n` cells, `transpose` succeeds, the size and the buffer length are
unchanged, and element `(i, j)` afterwards is the element that was at `(j, i)`. -/
theorem transpose_spec (h : Heap) (M : Matrix) (n : Nat) (hn : n ≤ 65536)
    (hM : IsMatrix h M n) :
    ∃ h', transpose h M = some h' ∧ IsMatrix h' M n ∧
      ∀ i j, i < n → j < n → ∃ v, entry h M j i = some v ∧ entry h' M i j = some v := by
  obtain ⟨h1, e, hM1, hv⟩ := transpose_entries h M n hn hM
  exact ⟨h1, e, hM1, hv⟩

theorem transpose_spec_witness :
    IsMatrix (heapOf [[1, 2, 3, 4]]) (matrixAt 0 2) 2 ∧
    ∃ h', transpose (heapOf [[1, 2, 3, 4]]) (matrixAt 0 2) = some h' ∧
      IsMatrix h' (matrixAt 0 2) 2 ∧
      ∀ i j, i < 2 → j < 2 →
        ∃ v, entry (heapOf [[1, 2, 3, 4]]) (matrixAt 0 2) j i = some v ∧
          entry h' (matrixAt 0 2) i j = some v :=
  ⟨⟨rfl, rfl, by decide, rfl⟩,
    transpose_spec (heapOf [[1, 2, 3, 4]]) (matrixAt 0 2) 2 (by decide) ⟨rfl, rfl, by decide, rfl⟩⟩

theorem buffer_setBlock_at (h : Heap) (L : List Int) (b n : Nat) :
    buffer (h.setBlock b L) (matrixAt b n) = L := by
  unfold buffer
  exact setBlock_blocks_same h b L

theorem buffer_heapOf_zero (L : List Int) (bs : List (List Int)) (n : Nat) :
    buffer (heapOf (L :: bs)) (matrixAt 0 n) = L := rfl

theorem transpose_eq_at (h : Heap) (b n : Nat) (hin : InB n (h.blocks b).length) :
    transpose h (matrixAt b n) = some (h.setBlock b (transposeT n (h.blocks b))) :=
  transpose_eq h (matrixAt b n) rfl hin

theorem entry_at (h : Heap) (b n r c : Nat) (hl : r * n + c < (h.blocks b).length) :
    entry h (matrixAt b n) r c = some ((h.blocks b).getD (r * n + c) 0) :=
  entry_of_length h (matrixAt b n) rfl r c hl

theorem isMatrix_at (h : Heap) (b n : Nat) (hb : b < h.next) (hl : (h.blocks b).length = n * n) :
    IsMatrix h (matrixAt b n) n :=
  ⟨rfl, rfl, hb, hl⟩

theorem isMatrix_big (L : List Int) (hL : L.length = 4295098369) :
    IsMatrix (heapOf [L]) (matrixAt 0 65537) 65537 :=
  isMatrix_at (heapOf [L]) 0 65537 Nat.zero_lt_one (by rw [heapOf_blocks_zero, hL])

theorem transpose_big (h : Heap) (L : List Int) (hL : L.length = 4295098369) :
    transpose (h.setBlock 0 L) (matrixAt 0 65537) =
      some (h.setBlock 0 (transposeT 65537 L)) := by
  have := transpose_eq_at (h.setBlock 0 L) 0 65537
    (by rw [setBlock_blocks_same, hL]; exact InB_65537 (by omega))
  rw [setBlock_blocks_same, setBlock_setBlock] at this
  exact this

theorem heapOf_setBlock_zero (L : List Int) : (heapOf [L]).setBlock 0 L = heapOf [L] := by
  have := setBlock_self (heapOf [L]) 0
  rw [heapOf_blocks_zero] at this
  exact this

/-- C4 as stated fails at size 65537: the offset of element `(65536, 0)` is
`65536 * 65537`, which the `unsigned int` index arithmetic never produces, so
that element keeps its value instead of receiving element `(0, 65536)`. -/
theorem transpose_counterexample :
    IsMatrix heapLastRow (matrixAt 0 65537) 65537 ∧
    ∃ h', transpose heapLastRow (matrixAt 0 65537) = some h' ∧
      entry heapLastRow (matrixAt 0 65537) 0 65536 = some 0 ∧
      entry h' (matrixAt 0 65537) 65536 0 = some 1 := by
  have hL : (bigZeros.set 4295032832 1).length = 4295098369 := by
    rw [List.length_set, bigZeros_length]
  have hT : (transposeT 65537 (bigZeros.set 4295032832 1)).length = 4295098369 := by
    rw [transposeT_length, hL]
  have e1 := transpose_big (heapOf [bigZeros.set 4295032832 1]) _ hL
  rw [heapOf_setBlock_zero] at e1
  unfold heapLastRow
  refine ⟨isMatrix_big _ hL, _, e1, ?_, ?_⟩
  · rw [entry_at _ 0 65537 0 65536 (by rw [heapOf_blocks_zero, hL]; decide), heapOf_blocks_zero,
      getD_set, if_neg (fun c => absurd c.1 (by decide)), bigZeros_getD]
  · rw [entry_at _ 0 65537 65536 0 (by rw [setBlock_blocks_same, hT]; decide),
      setBlock_blocks_same,
      transposeT_frame 65537 _ (65536 * 65537 + 0)
        (by
          intro i j hi hj
          rw [wrapU_65537 hi]
          split_ifs <;> omega),
      getD_set, if_pos ⟨by decide, by rw [bigZeros_length]; decide⟩]

/-- C5, amended: for a square matrix of size `n ≤ 65536` whose buffer has
`n * n` cells, two calls of `transpose` succeed and restore the heap, hence the
buffer, exactly. -/
theorem transpose_twice (h : Heap) (M : Matrix) (n : Nat) (hn : n ≤ 65536)
    (hM : IsMatrix h M n) :
    ∃ h1 h2, transpose h M = some h1 ∧ transpose h1 M = some h2 ∧
      IsMatrix h2 M n ∧ buffer h2 M = buffer h M ∧ h2 = h := by
  have hM2 := hM
  obtain ⟨hs, ho, hb, hl⟩ := hM
  have hin : InB M.size (h.blocks M.matrix.blk).length := by
    rw [hs, hl]; exact InB_small hn
  have e1 := transpose_eq h M ho hin
  have e2 := transpose_eq (h.setBlock M.matrix.blk (transposeT M.size (h.blocks M.matrix.blk))) M ho
    (by rw [setBlock_blocks_same, transposeT_length]; exact hin)
  rw [setBlock_blocks_same, setBlock_setBlock, hs, transposeT_involutive hn _ hl,
    setBlock_self] at e2
  rw [hs] at e1
  exact ⟨_, _, e1, e2, hM2, rfl, rfl⟩

theorem transpose_twice_witness :
    IsMatrix (heapOf [[1, 2, 3, 4]]) (matrixAt 0 2) 2 ∧
    ∃ h1 h2, transpose (heapOf [[1, 2, 3, 4]]) (matrixAt 0 2) = some h1 ∧
      transpose h1 (matrixAt 0 2) = some h2 ∧ IsMatrix h2 (matrixAt 0 2) 2 ∧
      buffer h2 (matrixAt 0 2) = buffer (heapOf [[1, 2, 3, 4]]) (matrixAt 0 2) ∧
      h2 = heapOf [[1, 2, 3, 4]] :=
  ⟨⟨rfl, rfl, by decide, rfl⟩,
    transpose_twice (heapOf [[1, 2, 3, 4]]) (matrixAt 0 2) 2 (by decide) ⟨rfl, rfl, by decide, rfl⟩⟩

/-- At size 65537 two runs of `transposeT` do not restore a buffer that is zero
except for a one at offset 131073. -/
theorem transposeT_twice_ne :
    transposeT 65537 (transposeT 65537 (bigZeros.set 131073 1)) ≠ bigZeros.set 131073 1 := by
  have hL : (bigZeros.set 131073 1).length = 4295098369 := by
    rw [List.length_set, bigZeros_length]
  have hT : (transposeT 65537 (bigZeros.set 131073 1)).length = 4295098369 := by
    rw [transposeT_length, hL]
  intro e
  have e3 : (transposeT 65537 (transposeT 65537 (bigZeros.set 131073 1))).getD 1 0
      = (bigZeros.set 131073 1).getD 1 0 := by
    rw [e]
  rw [transposeT_65537_cell1 _ (by rw [hT]; omega),
    transposeT_65537_cell65537 _ (by rw [hL]; omega), getD_set, getD_set,
    if_pos ⟨rfl, by rw [bigZeros_length]; decide⟩, if_neg (fun c => absurd c.1 (by decide)),
    bigZeros_getD] at e3
  exact absurd e3 (by decide)

/-- C5 as stated fails at size 65537: two calls of `transpose` leave at offset 1
what the buffer held at offset 131073. -/
theorem transpose_twice_counterexample :
    IsMatrix heapThirdCell (matrixAt 0 65537) 65537 ∧
    ∃ h1 h2, transpose heapThirdCell (matrixAt 0 65537) = some h1 ∧
      transpose h1 (matrixAt 0 65537) = some h2 ∧
      buffer h2 (matrixAt 0 65537) ≠ buffer heapThirdCell (matrixAt 0 65537) := by
  have hL : (bigZeros.set 131073 1).length = 4295098369 := by
    rw [List.length_set, bigZeros_length]
  have hT : (transposeT 65537 (bigZeros.set 131073 1)).length = 4295098369 := by
    rw [transposeT_length, hL]
  have e1 := transpose_big (heapOf [bigZeros.set 131073 1]) _ hL
  rw [heapOf_setBlock_zero] at e1
  have e2 := transpose_big (heapOf [bigZeros.set 131073 1]) _ hT
  unfold heapThirdCell
  refine ⟨isMatrix_big _ hL, _, _, e1, e2, ?_⟩
  rw [buffer_setBlock_at, buffer_heapOf_zero]
  exact transposeT_twice_ne
theorem load_alloc_lt (h : Heap) (L : List Int) (p : Ptr) (hp : p.blk < h.next) :
    load (h.alloc L) p = load h p := by
  unfold load
  rw [alloc_blocks_lt h L hp]

theorem store_alloc (h : Heap) (L : List Int) {k : Nat} (v : Int) (hk : k < L.length) :
    store (h.alloc L) { blk := h.next, off := (k : Int) } v = some (h.alloc (L.set k v)) := by
  unfold store
  simp only [alloc_blocks_same]
  rw [writeAt_natCast L v hk]
  simp only [Option.map_some', alloc_setBlock]

theorem load_nat (h : Heap) (b : Nat) (k : Nat) (hk : k < (h.blocks b).length) :
    load h { blk := b, off := (k : Int) } = some ((h.blocks b).getD k 0) := by
  unfold load
  rw [readAt_natCast]
  exact getElem?_eq_some_getD _ hk

/-- Filling the cells `0, ..., n - 1` of a list of `n` cells in order. -/
theorem iter_set_eq_map (d : Nat → Int) (n : Nat) (L : List Int) (hL : L.length = n) :
    iter (fun i K => K.set i (d i)) n 0 L = (List.range n).map d := by
  have key := iter_inv (fun i K => K.set i (d i))
    (fun k K => K.length = n ∧ ∀ p, p < k → K.getD p 0 = d p) n 0 L
    ⟨hL, by intro p hp; omega⟩
    (by
      intro j K _ hj ⟨hK, hv⟩
      refine ⟨by rw [List.length_set]; exact hK, ?_⟩
      intro p hp
      rw [getD_set]
      by_cases e : j = p
      · subst e; rw [if_pos ⟨rfl, by omega⟩]
      · rw [if_neg (fun c => e c.1)]; exact hv p (by omega))
  rw [Nat.zero_add] at key
  apply list_ext_getD
  · rw [key.1]; simp
  · intro p hp
    rw [key.1] at hp
    rw [key.2 p hp]
    simp [List.getD_eq_getElem?_getD, List.getElem?_map, List.getElem?_range hp]

theorem mvT_length (n : Nat) (LA Lv : List Int) (rv : Nat) : (mvT n LA Lv rv).length = n := by
  simp [mvT]

theorem getD_mvT (n : Nat) (LA Lv : List Int) (rv : Nat) {i : Nat} (hi : i < n) :
    (mvT n LA Lv rv).getD i 0 = rowDot LA (wrapU (i * n)) Lv rv n := by
  simp [mvT, List.getD_eq_getElem?_getD, List.getElem?_map, List.getElem?_range hi]

theorem wrapSz_mul4 {n : Nat} (hn : n ≤ 4294967296) : wrapSz (n * 4) / 4 = n := by
  unfold wrapSz
  omega

/-- The value of `dotProduct` on two stretches of cells that lie inside their blocks. -/
theorem dotProduct_rowDot (h : Heap) (ba bv ra rv n : Nat) (hn : n ≤ 2147483648)
    (ha : ∀ k, k < n → ra + k < (h.blocks ba).length)
    (hv : ∀ k, k < n → rv + k < (h.blocks bv).length) :
    dotProduct h { blk := ba, off := (ra : Int) } { blk := bv, off := (rv : Int) } n =
      some (rowDot (h.blocks ba) ra (h.blocks bv) rv n) := by
  unfold rowDot
  apply dotProduct_eq h _ _ n _ _ hn
  · intro k hk
    have := load_nat h ba (ra + k) (ha k hk)
    rw [← this]
    simp [Ptr.add]
  · intro k hk
    have := load_nat h bv (rv + k) (hv k hk)
    rw [← this]
    simp [Ptr.add]

theorem dotProduct_congr (g h : Heap) (a b : Ptr) (n : Nat)
    (ha : g.blocks a.blk = h.blocks a.blk) (hb : g.blocks b.blk = h.blocks b.blk) :
    dotProduct g a b n = dotProduct h a b n := by
  unfold dotProduct load
  simp only [Ptr.add, ha, hb]

/-- When no access leaves its block, `MatrixVectorMulti` succeeds: it allocates
one block, fills it as `mvT` says and changes nothing else. -/
theorem MatrixVectorMulti_eq (h : Heap) (A : Matrix) (arr : Ptr) (rv : Nat)
    (hoA : A.matrix.off = 0) (hov : arr.off = (rv : Int)) (hn : A.size ≤ 2147483648)
    (hbA : A.matrix.blk < h.next) (hbv : arr.blk < h.next)
    (hinA : InB A.size (h.blocks A.matrix.blk).length)
    (hinv : ∀ k, k < A.size → rv + k < (h.blocks arr.blk).length) :
    MatrixVectorMulti h A arr =
      some ({ blk := h.next, off := 0 },
        h.alloc (mvT A.size (h.blocks A.matrix.blk) (h.blocks arr.blk) rv)) := by
  obtain ⟨⟨ba, oa⟩, n⟩ := A
  obtain ⟨bv, ov⟩ := arr
  simp only at hoA hov hn hbA hbv hinA hinv ⊢
  subst hoA hov
  unfold MatrixVectorMulti
  simp only [malloc_eq, wrapSz_mul4 (show n ≤ 4294967296 by omega)]
  have key := forLoop_sim
    (fun i hi =>
      (dotProduct hi (Ptr.add { blk := ba, off := 0 } (wrapU (i * n))) { blk := bv, off := rv } n).bind
        (fun d => store hi (Ptr.add { blk := h.next, off := 0 } i) d))
    (fun i K => K.set i (rowDot (h.blocks ba) (wrapU (i * n)) (h.blocks bv) rv n))
    (fun _ L => h.alloc L) (fun _ L => L.length = n) n 0 (h.fresh n) (fresh_length h n)
    (by
      intro i K _ hi hK
      have hi2 : i < n := by omega
      dsimp only
      rw [dotProduct_congr (h.alloc K) h _ _ n (alloc_blocks_lt h K hbA) (alloc_blocks_lt h K hbv)]
      have e1 : Ptr.add { blk := ba, off := 0 } (wrapU (i * n) : Int)
          = { blk := ba, off := ((wrapU (i * n) : Nat) : Int) } := by simp [Ptr.add]
      have e2 : Ptr.add { blk := h.next, off := 0 } (i : Int)
          = { blk := h.next, off := (i : Int) } := by simp [Ptr.add]
      rw [e1, e2, dotProduct_rowDot h ba bv _ rv n hn (fun k hk => hinA i k hi2 hk) hinv]
      simp only [Option.some_bind]
      rw [store_alloc h K _ (by omega)]
      exact ⟨rfl, by rw [List.length_set]; exact hK⟩)
  dsimp only at key
  rw [key.1, iter_set_eq_map _ n _ (fresh_length h n)]
  rfl
/-- C9, amended: for a square matrix `m` of size `n ≤ 65536` and a vector `v` of
`n` cells, `MatrixVectorMulti(m, v)` returns a fresh vector of exactly `n`
cells whose cell `i` is `dotProduct(row i of m, v, n)`, and no block that
existed before the call, in particular neither `m` nor `v`, is changed. -/
theorem MatrixVectorMulti_spec (h : Heap) (m : Matrix) (v : Ptr) (n vo : Nat) (hn : n ≤ 65536)
    (hm : IsMatrix h m n) (hv : v.off = (vo : Int)) (hvb : v.blk < h.next)
    (hvl : vo + n ≤ (h.blocks v.blk).length) :
    ∃ p h', MatrixVectorMulti h m v = some (p, h') ∧ p.off = 0 ∧
      (h'.blocks p.blk).length = n ∧
      (∀ i, i < n → ∃ d, dotProduct h (m.matrix.add ((i * n : Nat) : Int)) v n = some d ∧
        load h' (p.add (i : Int)) = some d) ∧
      (∀ b, b < h.next → h'.blocks b = h.blocks b) := by
  obtain ⟨hs, ho, hb, hl⟩ := hm
  have hin : InB m.size (h.blocks m.matrix.blk).length := by
    rw [hs, hl]; exact InB_small hn
  have e := MatrixVectorMulti_eq h m v vo ho hv (by omega) hb hvb hin
    (by intro k hk; omega)
  refine ⟨_, _, e, rfl, ?_, ?_, ?_⟩
  · simp only [alloc_blocks_same, mvT_length, hs]
  · intro i hi
    refine ⟨rowDot (h.blocks m.matrix.blk) (i * n) (h.blocks v.blk) vo n, ?_, ?_⟩
    · have e1 : m.matrix.add ((i * n : Nat) : Int)
          = { blk := m.matrix.blk, off := ((i * n : Nat) : Int) } := by
        simp [Ptr.add, ho]
      have e2 : v = { blk := v.blk, off := (vo : Int) } := by
        cases v; simp_all
      rw [e1, e2]
      exact dotProduct_rowDot h _ _ _ _ n (by omega)
        (fun k hk => by rw [hl]; exact idx_lt hi hk) (fun k hk => by omega)
    · have e1 : Ptr.add { blk := h.next, off := 0 } (i : Int)
          = { blk := h.next, off := (i : Int) } := by simp [Ptr.add]
      rw [e1, load_nat _ _ _ (by rw [alloc_blocks_same, mvT_length, hs]; exact hi),
        alloc_blocks_same, hs, getD_mvT _ _ _ _ hi, idx_small hn hi]
  · intro b hb2
    exact alloc_blocks_lt h _ hb2

theorem MatrixVectorMulti_spec_witness :
    IsMatrix (heapOf [[1, 2, 3, 4], [5, 6]]) (matrixAt 0 2) 2 ∧
    ∃ p h', MatrixVectorMulti (heapOf [[1, 2, 3, 4], [5, 6]]) (matrixAt 0 2) ⟨1, 0⟩ = some (p, h') ∧
      p.off = 0 ∧ (h'.blocks p.blk).length = 2 ∧
      (∀ i, i < 2 → ∃ d,
        dotProduct (heapOf [[1, 2, 3, 4], [5, 6]]) ((matrixAt 0 2).matrix.add ((i * 2 : Nat) : Int))
          ⟨1, 0⟩ 2 = some d ∧
        load h' (p.add (i : Int)) = some d) ∧
      (∀ b, b < (heapOf [[1, 2, 3, 4], [5, 6]]).next →
        h'.blocks b = (heapOf [[1, 2, 3, 4], [5, 6]]).blocks b) :=
  ⟨⟨rfl, rfl, by decide, rfl⟩,
    MatrixVectorMulti_spec (heapOf [[1, 2, 3, 4], [5, 6]]) (matrixAt 0 2) ⟨1, 0⟩ 2 0 (by decide)
      ⟨rfl, rfl, by decide, rfl⟩ rfl (by decide) (by decide)⟩

theorem onesVec_length : onesVec.length = 65537 := by
  unfold onesVec
  exact List.length_replicate _ _

theorem onesVec_getD {k : Nat} (hk : k < 65537) : onesVec.getD k 0 = 1 := by
  unfold onesVec
  rw [List.getD_eq_getElem?_getD, List.getElem?_replicate, if_pos hk]
  rfl

/-- C9 as stated fails at size 65537: the vector cell 65536 is computed from the
cells at offset `65536` of the matrix buffer (the wrapped value of
`65536 * 65537`), not from row 65536. -/
theorem MatrixVectorMulti_counterexample :
    IsMatrix heapLastRowVec (matrixAt 0 65537) 65537 ∧
    (heapLastRowVec.blocks 1).length = 65537 ∧
    ∃ p h', MatrixVectorMulti heapLastRowVec (matrixAt 0 65537) ⟨1, 0⟩ = some (p, h') ∧
      dotProduct heapLastRowVec ((matrixAt 0 65537).matrix.add ((65536 * 65537 : Nat) : Int))
        ⟨1, 0⟩ 65537 = some 1 ∧
      load h' (p.add ((65536 : Nat) : Int)) = some 0 := by
  have hL : (bigZeros.set 4295032832 1).length = 4295098369 := by
    rw [List.length_set, bigZeros_length]
  have b0 : heapLastRowVec.blocks 0 = bigZeros.set 4295032832 1 := by
    unfold heapLastRowVec; exact heapOf_blocks_zero _ _
  have b1 : heapLastRowVec.blocks 1 = onesVec := by
    unfold heapLastRowVec; exact heapOf_blocks_one _ _ _
  have hnext : heapLastRowVec.next = 2 := rfl
  have e := MatrixVectorMulti_eq heapLastRowVec (matrixAt 0 65537) ⟨1, 0⟩ 0 rfl rfl (by decide)
    (by rw [hnext]; decide) (by rw [hnext]; decide)
    (by
      show InB 65537 (heapLastRowVec.blocks 0).length
      rw [b0, hL]; exact InB_65537 (by omega))
    (by
      intro k hk
      show 0 + k < (heapLastRowVec.blocks 1).length
      rw [b1, onesVec_length]
      have : k < 65537 := hk
      omega)
  refine ⟨isMatrix_at _ 0 65537 (by rw [hnext]; decide) (by rw [b0, hL]),
    by rw [b1, onesVec_length], _, _, e, ?_, ?_⟩
  · have e1 : (matrixAt 0 65537).matrix.add ((65536 * 65537 : Nat) : Int)
        = { blk := 0, off := ((4295032832 : Nat) : Int) } := by
      simp [Ptr.add, matrixAt]
    rw [e1]
    have := dotProduct_rowDot heapLastRowVec 0 1 4295032832 0 65537 (by decide)
      (by intro k hk; rw [b0, hL]; omega) (by intro k hk; rw [b1, onesVec_length]; omega)
    rw [show ((0 : Nat) : Int) = 0 from rfl] at this
    rw [this, b0, b1]
    unfold rowDot
    have s : ∑ k ∈ Finset.range 65537,
        (bigZeros.set 4295032832 1).getD (4295032832 + k) 0 * onesVec.getD (0 + k) 0
        = ∑ k ∈ Finset.range 65537, if k = 0 then (1 : Int) else 0 := by
      apply Finset.sum_congr rfl
      intro k hk
      have hk2 : k < 65537 := Finset.mem_range.mp hk
      rw [getD_set, bigZeros_getD, Nat.zero_add, onesVec_getD hk2, mul_one]
      by_cases c : k = 0
      · subst c
        rw [if_pos rfl, if_pos ⟨rfl, by rw [bigZeros_length]; decide⟩]
      · rw [if_neg c, if_neg (fun d => c (by omega))]
    rw [s, Finset.sum_ite_eq' (Finset.range 65537) 0 (fun _ => (1 : Int)),
      if_pos (Finset.mem_range.mpr (by decide))]
    rfl
  · have e1 : Ptr.add { blk := heapLastRowVec.next, off := 0 } ((65536 : Nat) : Int)
        = { blk := heapLastRowVec.next, off := ((65536 : Nat) : Int) } := by simp [Ptr.add]
    rw [e1, load_nat _ _ _ (by
        rw [alloc_blocks_same, mvT_length]
        show 65536 < 65537
        decide),
      alloc_blocks_same]
    rw [show (matrixAt 0 65537).size = 65537 from rfl, getD_mvT _ _ _ _ (by decide),
      wrapU_65537 (by decide), if_pos rfl]
    unfold rowDot
    rw [Finset.sum_eq_zero, wrapI_zero]
    intro k hk
    have hk2 : k < 65537 := Finset.mem_range.mp hk
    rw [show (matrixAt 0 65537).matrix.blk = 0 from rfl, b0, getD_set,
      if_neg (fun d => by omega), bigZeros_getD, zero_mul]
theorem forLoop_first {σ : Type} (body : Nat → σ → Option σ) {n k : Nat} (hn : n = k + 1)
    (i : Nat) (s : σ) : forLoop body n i s = (body i s).bind (forLoop body k (i + 1)) := by
  subst hn; rfl

theorem sq_small {n : Nat} (hn : n ≤ 65535) : wrapU (n * n) = n * n := by
  apply wrapU_of_lt
  have : n * n ≤ 65535 * 65535 := Nat.mul_le_mul hn hn
  omega

/-- When every write stays inside the allocated block, `createIdentityMatrix`
succeeds and builds the buffer `identityT`. -/
theorem createIdentityMatrix_eq (h : Heap) (n : Nat) (hn : n ≤ 2147483648)
    (hin : ∀ i, i < n → wrapU (i * n) + i < wrapU (n * n)) :
    createIdentityMatrix h n = some (matrixAt h.next n, h.alloc (identityT n)) := by
  unfold createIdentityMatrix identityT
  simp only [calloc_eq]
  have key := forLoop_sim
    (fun i hi => store hi ((Ptr.add { blk := h.next, off := 0 } (wrapU (i * n))).add (asInt i)) 1)
    (fun i L => L.set (wrapU (i * n) + i) 1)
    (fun _ L => h.alloc L) (fun _ L => L.length = wrapU (n * n)) n 0
    (List.replicate (wrapU (n * n)) 0) (List.length_replicate _ _)
    (by
      intro i K _ hi hK
      have hi2 : i < n := by omega
      dsimp only
      rw [asInt_of_lt (by omega), ptr_add_add, store_alloc h K _ (by rw [hK]; exact hin i hi2)]
      exact ⟨rfl, by rw [List.length_set]; exact hK⟩)
  dsimp only at key
  rw [key.1]
  rfl

theorem identityT_spec {n : Nat} (hn : n ≤ 65535) :
    (identityT n).length = n * n ∧
    ∀ r c, r < n → c < n → (identityT n).getD (r * n + c) 0 = if r = c then 1 else 0 := by
  unfold identityT
  have key := iter_inv (fun i (L : List Int) => L.set (wrapU (i * n) + i) 1)
    (fun k K => K.length = n * n ∧
      ∀ r c, r < n → c < n → K.getD (r * n + c) 0 = if r = c ∧ r < k then 1 else 0)
    n 0 (List.replicate (wrapU (n * n)) 0)
    (by
      refine ⟨by rw [List.length_replicate, sq_small hn], ?_⟩
      intro r c hr hc
      rw [if_neg (fun d => by omega), List.getD_eq_getElem?_getD, List.getElem?_replicate]
      split_ifs <;> rfl)
    (by
      intro j K _ hj ⟨hK, hv⟩
      have hj2 : j < n := by omega
      dsimp only
      refine ⟨by rw [List.length_set]; exact hK, ?_⟩
      intro r c hr hc
      rw [getD_set, idx_small (by omega) hj2, hv r c hr hc]
      simp only [idx_eq_iff hj2 hc, hK]
      by_cases c1 : j = r ∧ j = c
      · obtain ⟨rfl, rfl⟩ := c1
        rw [if_pos ⟨⟨rfl, rfl⟩, idx_lt hj2 hj2⟩, if_pos ⟨rfl, by omega⟩]
      · rw [if_neg (fun d => c1 d.1)]
        by_cases c2 : r = c ∧ r < j
        · rw [if_pos c2, if_pos ⟨c2.1, by omega⟩]
        · rw [if_neg c2, if_neg (fun d => by omega)])
  rw [Nat.zero_add] at key
  refine ⟨key.1, ?_⟩
  intro r c hr hc
  rw [key.2 r c hr hc]
  by_cases c1 : r = c
  · rw [if_pos ⟨c1, hr⟩, if_pos c1]
  · rw [if_neg (fun d => c1 d.1), if_neg c1]

theorem identity_inB {n : Nat} (hn : n ≤ 65535) :
    ∀ i, i < n → wrapU (i * n) + i < wrapU (n * n) := by
  intro i hi
  rw [sq_small hn, idx_small (by omega) hi]
  exact idx_lt hi hi

/-- Below the wrap-around threshold `createIdentityMatrix` builds the identity matrix. -/
theorem identity_entries (h : Heap) (n : Nat) (hn : n ≤ 65535) :
    ∃ I h', createIdentityMatrix h n = some (I, h') ∧ I.size = n ∧ IsMatrix h' I n ∧
      (∀ i j, i < n → j < n → entry h' I i j = some (if i = j then 1 else 0)) ∧
      (∀ b, b < h.next → h'.blocks b = h.blocks b) := by
  have e := createIdentityMatrix_eq h n (by omega) (identity_inB hn)
  have hM : IsMatrix (h.alloc (identityT n)) (matrixAt h.next n) n :=
    isMatrix_at _ _ _ (by rw [alloc_next]; omega) (by rw [alloc_blocks_same]; exact (identityT_spec hn).1)
  refine ⟨_, _, e, rfl, hM, ?_, ?_⟩
  · intro i j hi hj
    rw [entry_eq _ _ n hM i j hi hj]
    show some (((h.alloc (identityT n)).blocks h.next).getD (i * n + j) 0) = _
    rw [alloc_blocks_same, (identityT_spec hn).2 i j hi hj]
  · intro b hb
    exact alloc_blocks_lt h _ hb

/-- C10, amended: for every size `n ≤ 65535`, `createIdentityMatrix(n)` returns a
matrix of size `n` over a fresh buffer of `n * n` cells whose element `(i, j)`
is `1` when `i = j` and `0` otherwise; no earlier block is changed. -/
theorem createIdentityMatrix_spec (h : Heap) (n : Nat) (hn : n ≤ 65535) :
    ∃ I h', createIdentityMatrix h n = some (I, h') ∧ I.size = n ∧ IsMatrix h' I n ∧
      (∀ i j, i < n → j < n → entry h' I i j = some (if i = j then 1 else 0)) ∧
      (∀ b, b < h.next → h'.blocks b = h.blocks b) := by
  obtain ⟨I, h1, e, hs, hI, hv, hold⟩ := identity_entries h n hn
  exact ⟨I, h1, e, hs, hI, hv, hold⟩

theorem createIdentityMatrix_spec_witness :
    ∃ I h', createIdentityMatrix (heapOf []) 3 = some (I, h') ∧ I.size = 3 ∧ IsMatrix h' I 3 ∧
      (∀ i j, i < 3 → j < 3 → entry h' I i j = some (if i = j then 1 else 0)) ∧
      (∀ b, b < (heapOf []).next → h'.blocks b = (heapOf []).blocks b) :=
  createIdentityMatrix_spec (heapOf []) 3 (by decide)

/-- At size 65536 the allocation size `SIZE * SIZE` wraps to `0` and the first
write of `createIdentityMatrix` leaves the (empty) block. -/
theorem createIdentityMatrix_65536 (h : Heap) : createIdentityMatrix h 65536 = none := by
  unfold createIdentityMatrix
  simp only [calloc_eq]
  rw [forLoop_first _ (show 65536 = 65535 + 1 by decide)]
  have e0 : wrapU (65536 * 65536) = 0 := by decide
  have e1 : wrapU (0 * 65536) = 0 := by decide
  have e2 : asInt 0 = 0 := by decide
  have e3 : store (h.alloc (List.replicate (wrapU (65536 * 65536)) 0))
      ((Ptr.add { blk := h.next, off := 0 } (wrapU (0 * 65536))).add (asInt 0)) 1 = none := by
    rw [e0, e1, e2]
    unfold store
    simp [Ptr.add, writeAt]
  rw [e3]
  rfl

/-- C10 as stated fails at size 65536: no matrix is returned. -/
theorem createIdentityMatrix_counterexample :
    createIdentityMatrix (heapOf []) 65536 = none :=
  createIdentityMatrix_65536 (heapOf [])
/-! ## Temporary blocks -/

theorem tempHeap_blocks_rb (h1 : Heap) (rb c : Nat) (R : List Int) :
    (tempHeap h1 rb c R).blocks rb = R := by
  simp [tempHeap]

theorem tempHeap_blocks_old (h1 : Heap) (rb c : Nat) (R : List Int) {b : Nat}
    (hb : b < h1.next) (hne : b ≠ rb) : (tempHeap h1 rb c R).blocks b = h1.blocks b := by
  simp only [tempHeap]
  rw [if_neg hne, if_neg (fun d => by omega)]

theorem tempHeap_next (h1 : Heap) (rb c : Nat) (R : List Int) :
    (tempHeap h1 rb c R).next = h1.next + c := rfl

theorem tempHeap_zero (h1 : Heap) (rb : Nat) : tempHeap h1 rb 0 (h1.blocks rb) = h1 := by
  apply Heap.ext_iff3
  · funext b
    simp only [tempHeap]
    by_cases e : b = rb
    · rw [if_pos e, e]
    · rw [if_neg e, if_neg (fun d => by omega)]
  · rfl
  · rfl

theorem tempHeap_setBlock (h1 : Heap) (rb c : Nat) (R R2 : List Int) :
    (tempHeap h1 rb c R).setBlock rb R2 = tempHeap h1 rb c R2 := by
  apply Heap.ext_iff3
  · funext b
    by_cases e : b = rb
    · subst e
      rw [setBlock_blocks_same, tempHeap_blocks_rb]
    · rw [setBlock_blocks_ne _ _ e]
      simp only [tempHeap]
      rw [if_neg e, if_neg e]
  · rfl
  · rfl

theorem tempHeap_blocks_temp (h1 : Heap) (rb c : Nat) (R : List Int) {b : Nat}
    (hrb : rb < h1.next) (h1b : h1.next ≤ b) (h2b : b < h1.next + c) :
    (tempHeap h1 rb c R).blocks b = [] := by
  simp only [tempHeap]
  rw [if_neg (by omega), if_pos ⟨h1b, h2b⟩]

theorem tempHeap_blocks_other (h1 : Heap) (rb c d : Nat) (R R2 : List Int) {b : Nat}
    (hne : b ≠ rb) (hb : b < h1.next + c ∨ h1.next + d ≤ b) (hcd : c ≤ d) :
    (tempHeap h1 rb c R).blocks b = (tempHeap h1 rb d R2).blocks b := by
  simp only [tempHeap]
  rw [if_neg hne, if_neg hne]
  by_cases e3 : h1.next ≤ b ∧ b < h1.next + c
  · rw [if_pos e3, if_pos (by omega)]
  · rw [if_neg e3, if_neg (by omega)]

/-- One temporary block is allocated, the result block is rewritten, the
temporary block is freed. -/
theorem tempHeap_step1 (h1 : Heap) (rb c : Nat) (R X R2 : List Int) (hrb : rb < h1.next) :
    free ((((tempHeap h1 rb c R).alloc X)).setBlock rb R2) { blk := h1.next + c, off := 0 }
      = tempHeap h1 rb (c + 1) R2 := by
  apply Heap.ext_iff3
  · funext b
    unfold free
    show ((((tempHeap h1 rb c R).alloc X).setBlock rb R2).setBlock (h1.next + c) []).blocks b = _
    by_cases e1 : b = h1.next + c
    · subst e1
      rw [setBlock_blocks_same, tempHeap_blocks_temp h1 rb (c + 1) R2 hrb (by omega) (by omega)]
    · rw [setBlock_blocks_ne _ _ e1]
      by_cases e2 : b = rb
      · subst e2
        rw [setBlock_blocks_same, tempHeap_blocks_rb]
      · rw [setBlock_blocks_ne _ _ e2, alloc_blocks_ne _ _ (by rw [tempHeap_next]; exact e1)]
        exact tempHeap_blocks_other h1 rb c (c + 1) R R2 e2 (by omega) (by omega)
  · rfl
  · rfl

/-- Two temporary blocks are allocated, the result block is rewritten, both
temporary blocks are freed. -/
theorem tempHeap_step2 (h1 : Heap) (rb c : Nat) (R X Y R2 : List Int) (hrb : rb < h1.next) :
    free (free (((((tempHeap h1 rb c R).alloc X).alloc Y)).setBlock rb R2)
        { blk := h1.next + c, off := 0 }) { blk := h1.next + c + 1, off := 0 }
      = tempHeap h1 rb (c + 2) R2 := by
  apply Heap.ext_iff3
  · funext b
    unfold free
    show ((((((tempHeap h1 rb c R).alloc X).alloc Y).setBlock rb R2).setBlock
      (h1.next + c) []).setBlock (h1.next + c + 1) []).blocks b = _
    by_cases e0 : b = h1.next + c + 1
    · subst e0
      rw [setBlock_blocks_same, tempHeap_blocks_temp h1 rb (c + 2) R2 hrb (by omega) (by omega)]
    · rw [setBlock_blocks_ne _ _ e0]
      by_cases e1 : b = h1.next + c
      · subst e1
        rw [setBlock_blocks_same,
          tempHeap_blocks_temp h1 rb (c + 2) R2 hrb (by omega) (by omega)]
      · rw [setBlock_blocks_ne _ _ e1]
        by_cases e2 : b = rb
        · subst e2
          rw [setBlock_blocks_same, tempHeap_blocks_rb]
        · rw [setBlock_blocks_ne _ _ e2,
            alloc_blocks_ne _ _ (by rw [alloc_next, tempHeap_next]; exact e0),
            alloc_blocks_ne _ _ (by rw [tempHeap_next]; exact e1)]
          exact tempHeap_blocks_other h1 rb c (c + 2) R R2 e2 (by omega) (by omega)
  · rfl
  · rfl
theorem wrapSz_4mul {n : Nat} (hn : n ≤ 4294967296) : wrapSz (4 * n) / 4 = n := by
  unfold wrapSz
  omega

theorem colT_length (n : Nat) (LB : List Int) (i : Nat) : (colT n LB i).length = n := by
  simp [colT]

theorem getD_colT (n : Nat) (LB : List Int) (i : Nat) {j : Nat} (hj : j < n) :
    (colT n LB i).getD j 0 = LB.getD (wrapU (j * n) + i) 0 := by
  simp [colT, List.getD_eq_getElem?_getD, List.getElem?_map, List.getElem?_range hj]

theorem ptr_add_nat (b x : Nat) :
    Ptr.add { blk := b, off := 0 } (x : Int) = { blk := b, off := (x : Int) } := by
  simp [Ptr.add]

/-- The first inner loop of `matrixMultiplyNaive`: column `i` of `B` is copied
into the fresh block `BCol`. -/
theorem fill_eq (H : Heap) (bb n i : Nat) (hbb : bb < H.next)
    (hin : ∀ j, j < n → wrapU (j * n) + i < (H.blocks bb).length) :
    forLoop (fun j hj =>
        (load hj ((Ptr.add { blk := bb, off := 0 } (wrapU (j * n))).add i)).bind
          (fun v => store hj (Ptr.add { blk := H.next, off := 0 } j) v))
      n 0 (H.alloc (H.fresh n)) = some (H.alloc (colT n (H.blocks bb) i)) := by
  have key := forLoop_sim
    (fun j hj =>
        (load hj ((Ptr.add { blk := bb, off := 0 } (wrapU (j * n))).add i)).bind
          (fun v => store hj (Ptr.add { blk := H.next, off := 0 } j) v))
    (fun j K => K.set j ((H.blocks bb).getD (wrapU (j * n) + i) 0))
    (fun _ L => H.alloc L) (fun _ L => L.length = n) n 0 (H.fresh n) (fresh_length H n)
    (by
      intro j K _ hj hK
      have hj2 : j < n := by omega
      dsimp only
      rw [ptr_add_add, load_alloc_lt H K _ hbb, load_nat H bb _ (hin j hj2)]
      simp only [Option.some_bind]
      rw [ptr_add_nat, store_alloc H K _ (by omega)]
      exact ⟨rfl, by rw [List.length_set]; exact hK⟩)
  dsimp only at key
  rw [key.1, iter_set_eq_map _ n _ (fresh_length H n)]
  rfl

theorem load_setBlock_ne (h : Heap) (b : Nat) (L : List Int) (p : Ptr) (hp : p.blk ≠ b) :
    load (h.setBlock b L) p = load h p := by
  unfold load
  rw [setBlock_blocks_ne h L hp]

theorem store_setBlock_nat (h : Heap) (b : Nat) (L : List Int) {k : Nat} (v : Int)
    (hk : k < L.length) :
    store (h.setBlock b L) { blk := b, off := (k : Int) } v = some (h.setBlock b (L.set k v)) := by
  rw [store_setBlock_same, writeAt_natCast L v hk]
  rfl

/-- The last inner loop of `matrixMultiplyNaive`: the vector in block `mb` is
written to column `i` of the buffer in block `rb`. -/
theorem scatter_eq (h4 : Heap) (rb mb n i : Nat) (hne : mb ≠ rb)
    (hmv : n ≤ (h4.blocks mb).length)
    (hin : ∀ j, j < n → wrapU (j * n) + i < (h4.blocks rb).length) :
    forLoop (fun j hj =>
        (load hj (Ptr.add { blk := mb, off := 0 } j)).bind
          (fun v => store hj ((Ptr.add { blk := rb, off := 0 } (wrapU (j * n))).add i) v))
      n 0 h4 = some (h4.setBlock rb (scatterT n i (h4.blocks mb) (h4.blocks rb))) := by
  have key := forLoop_sim
    (fun j hj =>
        (load hj (Ptr.add { blk := mb, off := 0 } j)).bind
          (fun v => store hj ((Ptr.add { blk := rb, off := 0 } (wrapU (j * n))).add i) v))
    (fun j K => K.set (wrapU (j * n) + i) ((h4.blocks mb).getD j 0))
    (fun _ L => h4.setBlock rb L) (fun _ L => L.length = (h4.blocks rb).length) n 0
    (h4.blocks rb) rfl
    (by
      intro j K _ hj hK
      have hj2 : j < n := by omega
      dsimp only
      rw [ptr_add_nat, load_setBlock_ne h4 rb K _ hne, load_nat h4 mb j (by omega)]
      simp only [Option.some_bind]
      rw [ptr_add_add, store_setBlock_nat h4 rb K _ (by rw [hK]; exact hin j hj2)]
      exact ⟨rfl, by rw [List.length_set]; exact hK⟩)
  dsimp only at key
  rw [setBlock_self] at key
  exact key.1

/-- One run of the outer loop body of `matrixMultiplyNaive` for two matrices of
size `n`, when no access leaves its block. -/
theorem naiveColumn_eq (h1 : Heap) (ba bb rb n i c : Nat) (R : List Int)
    (hn : n ≤ 2147483648) (hi : i < n)
    (hba : ba < h1.next) (hbb : bb < h1.next) (hrb : rb < h1.next)
    (hra : ba ≠ rb) (hrbb : bb ≠ rb)
    (hinA : InB n (h1.blocks ba).length) (hinB : InB n (h1.blocks bb).length)
    (hinR : InB n R.length) :
    naiveColumn (matrixAt ba n) (matrixAt bb n) { blk := rb, off := 0 } i (tempHeap h1 rb c R) =
      some (tempHeap h1 rb (c + 2) (naiveColT n (h1.blocks ba) (h1.blocks bb) i R)) := by
  have HA : (tempHeap h1 rb c R).blocks ba = h1.blocks ba := tempHeap_blocks_old h1 rb c R hba hra
  have HB : (tempHeap h1 rb c R).blocks bb = h1.blocks bb := tempHeap_blocks_old h1 rb c R hbb hrbb
  have HN : (tempHeap h1 rb c R).next = h1.next + c := rfl
  unfold naiveColumn
  simp only [malloc_eq, matrixAt]
  rw [wrapSz_4mul (show n ≤ 4294967296 by omega),
    fill_eq (tempHeap h1 rb c R) bb n i (by rw [HN]; omega)
      (by intro j hj; rw [HB]; exact hinB j i hj hi)]
  simp only [Option.some_bind]
  have e3 := MatrixVectorMulti_eq ((tempHeap h1 rb c R).alloc (colT n ((tempHeap h1 rb c R).blocks bb) i))
    (matrixAt ba n) { blk := (tempHeap h1 rb c R).next, off := 0 } 0 rfl rfl hn
    (by rw [alloc_next, HN]; show ba < _; omega)
    (by
      rw [alloc_next]
      show (tempHeap h1 rb c R).next < (tempHeap h1 rb c R).next + 1
      omega)
    (by
      show InB n (((tempHeap h1 rb c R).alloc _).blocks ba).length
      rw [alloc_blocks_lt _ _ (by rw [HN]; omega), HA]; exact hinA)
    (by
      intro k hk
      show 0 + k < (((tempHeap h1 rb c R).alloc _).blocks (tempHeap h1 rb c R).next).length
      rw [alloc_blocks_same, colT_length]
      have : k < n := hk
      omega)
  rw [show (matrixAt ba n) = { matrix := { blk := ba, off := 0 }, size := n } from rfl] at e3
  rw [e3]
  simp only [Option.some_bind]
  rw [scatter_eq _ rb _ n i (by rw [alloc_next, HN]; omega)
    (by rw [alloc_blocks_same, mvT_length])
    (by
      intro j hj
      rw [alloc_blocks_ne _ _ (by rw [alloc_next, HN]; omega),
        alloc_blocks_ne _ _ (by rw [HN]; omega), tempHeap_blocks_rb]
      exact hinR j i hj hi)]
  simp only [Option.some_bind]
  rw [alloc_blocks_same, alloc_blocks_ne _ _ (show rb ≠ _ by rw [alloc_next, HN]; omega),
    alloc_blocks_ne _ _ (show rb ≠ _ by rw [HN]; omega), tempHeap_blocks_rb,
    alloc_blocks_lt _ _ (show ba < _ by rw [HN]; omega), alloc_blocks_same, HA, HB]
  have := tempHeap_step2 h1 rb c R (colT n (h1.blocks bb) i)
    (mvT n (h1.blocks ba) (colT n (h1.blocks bb) i) 0)
    (scatterT n i (mvT n (h1.blocks ba) (colT n (h1.blocks bb) i) 0) R) hrb
  exact congrArg some this
theorem iter_length (body : Nat → List Int → List Int)
    (hbody : ∀ j K, (body j K).length = K.length) (k : Nat) :
    ∀ (i : Nat) (L : List Int), (iter body k i L).length = L.length := by
  induction k with
  | zero => intro i L; rfl
  | succ k ih => intro i L; rw [iter_succ, ih, hbody]

/-- A loop that only writes cells leaves alone every cell it does not write. -/
theorem iter_set_frame (a : Nat → Nat) (v : Nat → List Int → Int) (p : Nat) (k : Nat) :
    ∀ (i : Nat) (L : List Int), (∀ j, i ≤ j → j < i + k → p ≠ a j) →
      (iter (fun j K => K.set (a j) (v j K)) k i L).getD p 0 = L.getD p 0 := by
  induction k with
  | zero => intro i L _; rfl
  | succ k ih =>
    intro i L hp
    rw [iter_succ, ih (i + 1) _ (fun j h1 h2 => hp j (by omega) (by omega)), getD_set,
      if_neg (fun d => hp i (le_refl _) (by omega) d.1.symm)]

theorem scatterT_length (n i : Nat) (mv R : List Int) : (scatterT n i mv R).length = R.length :=
  iter_length _ (fun _ _ => List.length_set _ _ _) n 0 R

theorem naiveColT_length (n : Nat) (LA LB : List Int) (i : Nat) (R : List Int) :
    (naiveColT n LA LB i R).length = R.length :=
  scatterT_length _ _ _ _

theorem naiveT_length (n : Nat) (LA LB R : List Int) : (naiveT n LA LB R).length = R.length :=
  iter_length _ (fun _ _ => naiveColT_length _ _ _ _ _) n 0 R

theorem copyT_length (n dst : Nat) (mv R : List Int) : (copyT n dst mv R).length = R.length :=
  iter_length _ (fun _ _ => List.length_set _ _ _) n 0 R

theorem cacheRowT_length (n : Nat) (LA LBt : List Int) (i : Nat) (R : List Int) :
    (cacheRowT n LA LBt i R).length = R.length :=
  copyT_length _ _ _ _

theorem cacheT_length (n : Nat) (LA LBt R : List Int) : (cacheT n LA LBt R).length = R.length := by
  unfold cacheT
  rw [transposeT_length]
  exact iter_length _ (fun _ _ => cacheRowT_length _ _ _ _ _) n 0 R

theorem sq_lt {n : Nat} (hn : n < 2147483648) : n * n < 4611686018427387904 := by
  have h1 : n * n ≤ 2147483647 * 2147483647 := Nat.mul_le_mul (by omega) (by omega)
  omega

theorem wrapSz_sq {n : Nat} (hn : n < 2147483648) : wrapSz (4 * n * n) / 4 = n * n := by
  have := sq_lt hn
  unfold wrapSz
  rw [Nat.mul_assoc]
  omega

/-- When no access leaves its block, `matrixMultiplyNaive` succeeds on two
matrices of size `n`: it allocates the result block, fills it as `naiveT` says,
and leaves behind `2 * n` freed temporary blocks. -/
theorem matrixMultiplyNaive_eq (h : Heap) (ba bb n : Nat) (hn : n < 2147483648)
    (hba : ba < h.next) (hbb : bb < h.next)
    (hinA : InB n (h.blocks ba).length) (hinB : InB n (h.blocks bb).length)
    (hinR : InB n (n * n)) :
    matrixMultiplyNaive h (matrixAt ba n) (matrixAt bb n) =
      some (matrixAt h.next n,
        tempHeap (h.alloc (h.fresh (n * n))) h.next (2 * n)
          (naiveT n (h.blocks ba) (h.blocks bb) (h.fresh (n * n)))) := by
  unfold matrixMultiplyNaive
  simp only [malloc_eq, matrixAt]
  rw [wrapSz_sq hn]
  have hA : (h.alloc (h.fresh (n * n))).blocks ba = h.blocks ba := alloc_blocks_lt _ _ hba
  have hB : (h.alloc (h.fresh (n * n))).blocks bb = h.blocks bb := alloc_blocks_lt _ _ hbb
  have key := forLoop_sim
    (naiveColumn { matrix := { blk := ba, off := 0 }, size := n }
      { matrix := { blk := bb, off := 0 }, size := n } { blk := h.next, off := 0 })
    (naiveColT n (h.blocks ba) (h.blocks bb))
    (fun j K => tempHeap (h.alloc (h.fresh (n * n))) h.next (2 * j) K)
    (fun _ K => K.length = n * n) n 0 (h.fresh (n * n)) (fresh_length h _)
    (by
      intro j K _ hj hK
      have hj2 : j < n := by omega
      have := naiveColumn_eq (h.alloc (h.fresh (n * n))) ba bb h.next n j (2 * j) K (by omega) hj2
        (by rw [alloc_next]; omega) (by rw [alloc_next]; omega) (by rw [alloc_next]; omega)
        (by omega) (by omega) (by rw [hA]; exact hinA) (by rw [hB]; exact hinB)
        (by rw [hK]; exact hinR)
      rw [hA, hB] at this
      exact ⟨this, by dsimp only; rw [naiveColT_length]; exact hK⟩)
  dsimp only at key
  have e0 : tempHeap (h.alloc (h.fresh (n * n))) h.next (2 * 0) (h.fresh (n * n))
      = h.alloc (h.fresh (n * n)) := by
    have := tempHeap_zero (h.alloc (h.fresh (n * n))) h.next
    rw [alloc_blocks_same] at this
    exact this
  rw [e0] at key
  rw [key.1, Nat.zero_add]
  rfl

/-- A cell of the result buffer that no index expression `j * size + i` reaches
is never written by `matrixMultiplyNaive`. -/
theorem naiveT_frame (n : Nat) (LA LB R : List Int) (p : Nat)
    (hp : ∀ i j, i < n → j < n → p ≠ wrapU (j * n) + i) :
    (naiveT n LA LB R).getD p 0 = R.getD p 0 := by
  unfold naiveT
  exact iter_inv (naiveColT n LA LB) (fun _ K => K.getD p 0 = R.getD p 0) n 0 R rfl
    (by
      intro i K _ hi hK
      unfold naiveColT scatterT
      rw [iter_set_frame (fun j => wrapU (j * n) + i) (fun j _ => _) p n 0 K
        (fun j _ hj => hp i j (by omega) (by omega))]
      exact hK)

/-- The product element `(r, c)` of two buffers of size `n`, in wrap-around `int` arithmetic. -/
theorem naiveT_exact {n : Nat} (hn : n ≤ 65536) (LA LB R : List Int) (hR : R.length = n * n)
    (r c : Nat) (hr : r < n) (hc : c < n) :
    (naiveT n LA LB R).getD (r * n + c) 0 =
      wrapI (∑ k ∈ Finset.range n, LA.getD (r * n + k) 0 * LB.getD (k * n + c) 0) := by
  have mvv : ∀ i, i < n → ∀ r, r < n →
      (mvT n LA (colT n LB i) 0).getD r 0 =
        wrapI (∑ k ∈ Finset.range n, LA.getD (r * n + k) 0 * LB.getD (k * n + i) 0) := by
    intro i _ r hr
    rw [getD_mvT _ _ _ _ hr, idx_small hn hr]
    unfold rowDot
    congr 1
    apply Finset.sum_congr rfl
    intro k hk
    have hk2 : k < n := Finset.mem_range.mp hk
    rw [Nat.zero_add, getD_colT _ _ _ hk2, idx_small hn hk2]
  have col : ∀ i, i < n → ∀ K : List Int, K.length = n * n → ∀ r c, r < n → c < n →
      (naiveColT n LA LB i K).getD (r * n + c) 0 =
        if c = i then (mvT n LA (colT n LB i) 0).getD r 0 else K.getD (r * n + c) 0 := by
    intro i hi K hK r c hr hc
    unfold naiveColT scatterT
    have key := iter_inv
      (fun j (M : List Int) =>
        M.set (wrapU (j * n) + i) ((mvT n LA (colT n LB i) 0).getD j 0))
      (fun j M => M.length = n * n ∧ ∀ r c, r < n → c < n →
        M.getD (r * n + c) 0 =
          if c = i ∧ r < j then (mvT n LA (colT n LB i) 0).getD r 0 else K.getD (r * n + c) 0)
      n 0 K
      ⟨hK, by intro r c _ _; rw [if_neg (fun d => by omega)]⟩
      (by
        intro j M _ hj ⟨hM, hv⟩
        have hj2 : j < n := by omega
        dsimp only
        refine ⟨by rw [List.length_set]; exact hM, ?_⟩
        intro r c hr hc
        rw [getD_set, idx_small hn hj2, hv r c hr hc]
        simp only [idx_eq_iff hi hc, hM]
        by_cases c1 : j = r ∧ i = c
        · obtain ⟨rfl, rfl⟩ := c1
          rw [if_pos ⟨⟨rfl, rfl⟩, idx_lt hj2 hi⟩, if_pos ⟨rfl, by omega⟩]
        · rw [if_neg (fun d => c1 d.1)]
          by_cases c2 : c = i ∧ r < j
          · rw [if_pos c2, if_pos ⟨c2.1, by omega⟩]
          · rw [if_neg c2, if_neg (fun d => by omega)])
    rw [Nat.zero_add] at key
    rw [key.2 r c hr hc]
    by_cases c1 : c = i
    · rw [if_pos ⟨c1, hr⟩, if_pos c1]
    · rw [if_neg (fun d => c1 d.1), if_neg c1]
  unfold naiveT
  have key := iter_inv (naiveColT n LA LB)
    (fun i K => K.length = n * n ∧ ∀ r c, r < n → c < n →
      K.getD (r * n + c) 0 =
        if c < i then wrapI (∑ k ∈ Finset.range n, LA.getD (r * n + k) 0 * LB.getD (k * n + c) 0)
        else R.getD (r * n + c) 0)
    n 0 R ⟨hR, by intro r c _ _; rw [if_neg (by omega)]⟩
    (by
      intro i K _ hi ⟨hK, hv⟩
      have hi2 : i < n := by omega
      refine ⟨by rw [naiveColT_length]; exact hK, ?_⟩
      intro r c hr hc
      rw [col i hi2 K hK r c hr hc]
      by_cases c1 : c = i
      · subst c1
        rw [if_pos rfl, if_pos (by omega), mvv c hi2 r hr]
      · rw [if_neg c1, hv r c hr hc]
        by_cases c2 : c < i
        · rw [if_pos c2, if_pos (by omega)]
        · rw [if_neg c2, if_neg (by omega)])
  rw [Nat.zero_add] at key
  rw [key.2 r c hr hc, if_pos hc]
theorem matrix_eq_matrixAt (M : Matrix) (n : Nat) (hs : M.size = n) (ho : M.matrix.off = 0) :
    M = matrixAt M.matrix.blk n := by
  obtain ⟨⟨b, o⟩, s⟩ := M
  simp only at hs ho
  subst hs ho
  rfl

theorem cell_eq (h : Heap) (M : Matrix) (n : Nat) (hM : IsMatrix h M n) (r c : Nat)
    (hr : r < n) (hc : c < n) :
    cell h M r c = (h.blocks M.matrix.blk).getD (r * n + c) 0 := by
  unfold cell
  rw [entry_eq h M n hM r c hr hc]
  rfl

theorem getD_fresh (h : Heap) (count : Nat) {p : Nat} (hp : p < count) :
    (h.fresh count).getD p 0 = h.junk h.next p := by
  simp [Heap.fresh, List.getD_eq_getElem?_getD, List.getElem?_map, List.getElem?_range hp]

/-- Below the wrap-around threshold `matrixMultiplyNaive` computes the wrap-around product. -/
theorem naive_entries (h : Heap) (A B : Matrix) (n : Nat) (hn : n ≤ 65536)
    (hA : IsMatrix h A n) (hB : IsMatrix h B n) :
    ∃ R h', matrixMultiplyNaive h A B = some (R, h') ∧ IsMatrix h' R n ∧
      (∀ r c, r < n → c < n →
        entry h' R r c = some (wrapI (∑ k ∈ Finset.range n, cell h A r k * cell h B k c))) ∧
      (∀ b, b < h.next → h'.blocks b = h.blocks b) := by
  have hA2 := hA
  have hB2 := hB
  obtain ⟨hAs, hAo, hAb, hAl⟩ := hA
  obtain ⟨hBs, hBo, hBb, hBl⟩ := hB
  have e := matrixMultiplyNaive_eq h A.matrix.blk B.matrix.blk n (by omega) hAb hBb
    (by rw [hAl]; exact InB_small hn) (by rw [hBl]; exact InB_small hn) (InB_small hn)
  rw [← matrix_eq_matrixAt A n hAs hAo, ← matrix_eq_matrixAt B n hBs hBo] at e
  have hR : IsMatrix (tempHeap (h.alloc (h.fresh (n * n))) h.next (2 * n)
      (naiveT n (h.blocks A.matrix.blk) (h.blocks B.matrix.blk) (h.fresh (n * n))))
      (matrixAt h.next n) n :=
    isMatrix_at _ _ _ (by rw [tempHeap_next, alloc_next]; omega)
      (by rw [tempHeap_blocks_rb, naiveT_length, fresh_length])
  refine ⟨_, _, e, hR, ?_, ?_⟩
  · intro r c hr hc
    rw [entry_eq _ _ n hR r c hr hc]
    show some ((tempHeap _ h.next _ _).blocks h.next |>.getD (r * n + c) 0) = _
    rw [tempHeap_blocks_rb, naiveT_exact hn _ _ _ (fresh_length _ _) r c hr hc]
    congr 2
    apply Finset.sum_congr rfl
    intro k hk
    have hk2 : k < n := Finset.mem_range.mp hk
    rw [cell_eq h A n hA2 r k hr hk2, cell_eq h B n hB2 k c hk2 hc]
  · intro b hb
    rw [tempHeap_blocks_old _ _ _ _ (by rw [alloc_next]; omega) (by omega)]
    exact alloc_blocks_lt _ _ hb

/-- C1, amended: for square matrices `A` and `B` of equal size `n ≤ 65536` with
buffers of `n * n` cells, `matrixMultiplyNaive(A, B)` returns a matrix of size
`n` over a fresh buffer of `n * n` cells whose element `(r, c)` is the sum over
`k < n` of `A[r][k] * B[k][c]` in wrap-around `int` arithmetic; no block that
existed before the call is changed. -/
theorem matrixMultiplyNaive_spec (h : Heap) (A B : Matrix) (n : Nat) (hn : n ≤ 65536)
    (hA : IsMatrix h A n) (hB : IsMatrix h B n) :
    ∃ R h', matrixMultiplyNaive h A B = some (R, h') ∧ IsMatrix h' R n ∧
      (∀ r c, r < n → c < n →
        entry h' R r c = some (wrapI (∑ k ∈ Finset.range n, cell h A r k * cell h B k c))) ∧
      (∀ b, b < h.next → h'.blocks b = h.blocks b) := by
  obtain ⟨R, h1, e, hR, hv, hold⟩ := naive_entries h A B n hn hA hB
  exact ⟨R, h1, e, hR, hv, hold⟩

theorem matrixMultiplyNaive_spec_witness :
    IsMatrix (heapOf [[1, 2, 3, 4], [5, 6, 7, 8]]) (matrixAt 0 2) 2 ∧
    IsMatrix (heapOf [[1, 2, 3, 4], [5, 6, 7, 8]]) (matrixAt 1 2) 2 ∧
    ∃ R h', matrixMultiplyNaive (heapOf [[1, 2, 3, 4], [5, 6, 7, 8]]) (matrixAt 0 2) (matrixAt 1 2)
        = some (R, h') ∧ IsMatrix h' R 2 ∧
      (∀ r c, r < 2 → c < 2 →
        entry h' R r c = some (wrapI (∑ k ∈ Finset.range 2,
          cell (heapOf [[1, 2, 3, 4], [5, 6, 7, 8]]) (matrixAt 0 2) r k *
            cell (heapOf [[1, 2, 3, 4], [5, 6, 7, 8]]) (matrixAt 1 2) k c))) ∧
      (∀ b, b < (heapOf [[1, 2, 3, 4], [5, 6, 7, 8]]).next →
        h'.blocks b = (heapOf [[1, 2, 3, 4], [5, 6, 7, 8]]).blocks b) :=
  ⟨⟨rfl, rfl, by decide, rfl⟩, ⟨rfl, rfl, by decide, rfl⟩,
    matrixMultiplyNaive_spec (heapOf [[1, 2, 3, 4], [5, 6, 7, 8]]) (matrixAt 0 2) (matrixAt 1 2) 2
      (by decide) ⟨rfl, rfl, by decide, rfl⟩ ⟨rfl, rfl, by decide, rfl⟩⟩

theorem naive_big (h : Heap) (ba bb : Nat) (hba : ba < h.next) (hbb : bb < h.next)
    (hA : (h.blocks ba).length = 4295098369) (hB : (h.blocks bb).length = 4295098369) :
    matrixMultiplyNaive h (matrixAt ba 65537) (matrixAt bb 65537) =
      some (matrixAt h.next 65537,
        tempHeap (h.alloc (h.fresh (65537 * 65537))) h.next (2 * 65537)
          (naiveT 65537 (h.blocks ba) (h.blocks bb) (h.fresh (65537 * 65537)))) :=
  matrixMultiplyNaive_eq h ba bb 65537 (by decide) hba hbb
    (by rw [hA]; exact InB_65537 (by omega)) (by rw [hB]; exact InB_65537 (by omega))
    (InB_65537 (by decide))

theorem asInt_toNat {n : Nat} (hn : n < 2147483648) : (asInt n).toNat = n := by
  rw [asInt_of_lt hn]
  exact Int.toNat_ofNat n

/-- The call of `copyArray` in `matrixMultiplyCacheFriendly`: the vector in
block `mb` is copied to the cells `dst, dst + 1, ...` of block `rb`. -/
theorem copy_eq (h4 : Heap) (rb mb n dst : Nat) (hn : n < 2147483648) (hne : mb ≠ rb)
    (hmv : n ≤ (h4.blocks mb).length)
    (hin : ∀ r, r < n → dst + r < (h4.blocks rb).length) :
    copyArray h4 { blk := mb, off := 0 } (Ptr.add { blk := rb, off := 0 } (dst : Int)) (n : Int) =
      some (h4.setBlock rb (copyT n dst (h4.blocks mb) (h4.blocks rb))) := by
  unfold copyArray
  rw [Int.toNat_ofNat]
  have key := forLoop_sim
    (fun i hi =>
      (load hi (Ptr.add { blk := mb, off := 0 } (asInt i))).bind
        (fun v => store hi ((Ptr.add { blk := rb, off := 0 } (dst : Int)).add (asInt i)) v))
    (fun r K => K.set (dst + r) ((h4.blocks mb).getD r 0))
    (fun _ L => h4.setBlock rb L) (fun _ L => L.length = (h4.blocks rb).length) n 0
    (h4.blocks rb) rfl
    (by
      intro j K _ hj hK
      have hj2 : j < n := by omega
      dsimp only
      rw [asInt_of_lt (by omega), ptr_add_nat, load_setBlock_ne h4 rb K _ hne,
        load_nat h4 mb j (by omega)]
      simp only [Option.some_bind]
      rw [ptr_add_add, store_setBlock_nat h4 rb K _ (by rw [hK]; exact hin j hj2)]
      exact ⟨rfl, by rw [List.length_set]; exact hK⟩)
  dsimp only at key
  rw [setBlock_self] at key
  exact key.1

/-- One run of the loop body of `matrixMultiplyCacheFriendly` for two matrices
of size `n`, when no access leaves its block. The buffers of `A` and `B` may be
the same block. -/
theorem cacheRow_eq (h2 : Heap) (ba bb rb n i c : Nat) (R : List Int)
    (hn : n < 2147483648) (hi : i < n)
    (hba : ba < h2.next) (hbb : bb < h2.next) (hrb : rb < h2.next)
    (hra : ba ≠ rb) (hrbb : bb ≠ rb)
    (hinA : InB n (h2.blocks ba).length) (hinB : InB n (h2.blocks bb).length)
    (hinR : InB n R.length) :
    cacheRow (matrixAt ba n) (matrixAt bb n) { blk := rb, off := 0 } i (tempHeap h2 rb c R) =
      some (tempHeap h2 rb (c + 1) (cacheRowT n (h2.blocks ba) (h2.blocks bb) i R)) := by
  have HA : (tempHeap h2 rb c R).blocks ba = h2.blocks ba := tempHeap_blocks_old h2 rb c R hba hra
  have HB : (tempHeap h2 rb c R).blocks bb = h2.blocks bb := tempHeap_blocks_old h2 rb c R hbb hrbb
  have HN : (tempHeap h2 rb c R).next = h2.next + c := rfl
  unfold cacheRow
  have e3 := MatrixVectorMulti_eq (tempHeap h2 rb c R) (matrixAt ba n)
    { blk := bb, off := ((wrapU (i * n) : Nat) : Int) } (wrapU (i * n))
    rfl rfl (by show n ≤ 2147483648; omega)
    (by rw [HN]; show ba < h2.next + c; omega) (by rw [HN]; show bb < h2.next + c; omega)
    (by
      show InB n ((tempHeap h2 rb c R).blocks ba).length
      rw [HA]; exact hinA)
    (by
      intro k hk
      show wrapU (i * n) + k < ((tempHeap h2 rb c R).blocks bb).length
      rw [HB]
      exact hinB i k hi hk)
  simp only [matrixAt] at e3 ⊢
  rw [asInt_of_lt hn, ptr_add_nat, e3]
  simp only [Option.some_bind]
  have e4 := copy_eq ((tempHeap h2 rb c R).alloc
      (mvT n ((tempHeap h2 rb c R).blocks ba) ((tempHeap h2 rb c R).blocks bb) (wrapU (i * n))))
    rb (tempHeap h2 rb c R).next n (wrapU (i * n)) hn (by rw [HN]; omega)
    (by rw [alloc_blocks_same, mvT_length])
    (by
      intro r hr
      rw [alloc_blocks_ne _ _ (by rw [HN]; omega), tempHeap_blocks_rb]
      exact hinR i r hi hr)
  rw [e4]
  simp only [Option.some_bind]
  rw [alloc_blocks_same, alloc_blocks_ne _ _ (show rb ≠ _ by rw [HN]; omega), tempHeap_blocks_rb,
    HA, HB]
  exact congrArg some (tempHeap_step1 h2 rb c R _ _ hrb)
/-- When no access leaves its block, `matrixMultiplyCacheFriendly` succeeds on
two matrices of size `n`. With `h2` the heap after the result block has been
allocated and `B` transposed, the result buffer is `cacheT` of the buffers that
`A` and `B` have in `h2`, and the buffer of `B` is transposed once more at the
end. The buffers of `A` and `B` may be the same block. -/
theorem matrixMultiplyCacheFriendly_eq (h : Heap) (ba bb n : Nat) (hn : n < 2147483648)
    (hba : ba < h.next) (hbb : bb < h.next)
    (hinA : InB n (h.blocks ba).length) (hinB : InB n (h.blocks bb).length)
    (hinR : InB n (n * n)) :
    matrixMultiplyCacheFriendly h (matrixAt ba n) (matrixAt bb n) =
      some (matrixAt h.next n,
        (tempHeap ((h.alloc (h.fresh (n * n))).setBlock bb (transposeT n (h.blocks bb))) h.next n
          (cacheT n
            (((h.alloc (h.fresh (n * n))).setBlock bb (transposeT n (h.blocks bb))).blocks ba)
            (transposeT n (h.blocks bb)) (h.fresh (n * n)))).setBlock bb
          (transposeT n (transposeT n (h.blocks bb)))) := by
  have hB1 : (h.alloc (h.fresh (n * n))).blocks bb = h.blocks bb := alloc_blocks_lt _ _ hbb
  have t1 := transpose_eq_at (h.alloc (h.fresh (n * n))) bb n (by rw [hB1]; exact hinB)
  rw [hB1] at t1
  have hA2 : InB n
      (((h.alloc (h.fresh (n * n))).setBlock bb (transposeT n (h.blocks bb))).blocks ba).length := by
    by_cases e : ba = bb
    · subst e
      rw [setBlock_blocks_same, transposeT_length]; exact hinB
    · rw [setBlock_blocks_ne _ _ e, alloc_blocks_lt _ _ hba]; exact hinA
  have hR2 : ((h.alloc (h.fresh (n * n))).setBlock bb (transposeT n (h.blocks bb))).blocks h.next
      = h.fresh (n * n) := by
    rw [setBlock_blocks_ne _ _ (show h.next ≠ bb by omega), alloc_blocks_same]
  have key := forLoop_sim
    (cacheRow (matrixAt ba n) (matrixAt bb n) { blk := h.next, off := 0 })
    (cacheRowT n
      (((h.alloc (h.fresh (n * n))).setBlock bb (transposeT n (h.blocks bb))).blocks ba)
      (transposeT n (h.blocks bb)))
    (fun j K => tempHeap ((h.alloc (h.fresh (n * n))).setBlock bb (transposeT n (h.blocks bb)))
      h.next j K)
    (fun _ K => K.length = n * n) n 0 (h.fresh (n * n)) (fresh_length h _)
    (by
      intro j K _ hj hK
      have hj2 : j < n := by omega
      have := cacheRow_eq ((h.alloc (h.fresh (n * n))).setBlock bb (transposeT n (h.blocks bb)))
        ba bb h.next n j j K hn hj2
        (by rw [setBlock_next, alloc_next]; omega) (by rw [setBlock_next, alloc_next]; omega)
        (by rw [setBlock_next, alloc_next]; omega)
        (by omega) (by omega) hA2
        (by rw [setBlock_blocks_same, transposeT_length]; exact hinB)
        (by rw [hK]; exact hinR)
      rw [setBlock_blocks_same] at this
      exact ⟨this, by dsimp only; rw [cacheRowT_length]; exact hK⟩)
  dsimp only at key
  have e0 : tempHeap ((h.alloc (h.fresh (n * n))).setBlock bb (transposeT n (h.blocks bb)))
      h.next 0 (h.fresh (n * n))
      = (h.alloc (h.fresh (n * n))).setBlock bb (transposeT n (h.blocks bb)) := by
    have := tempHeap_zero ((h.alloc (h.fresh (n * n))).setBlock bb (transposeT n (h.blocks bb)))
      h.next
    rw [hR2] at this
    exact this
  rw [e0, Nat.zero_add] at key
  have t3 := transpose_eq_at
    (tempHeap ((h.alloc (h.fresh (n * n))).setBlock bb (transposeT n (h.blocks bb))) h.next n
      (iter (cacheRowT n
        (((h.alloc (h.fresh (n * n))).setBlock bb (transposeT n (h.blocks bb))).blocks ba)
        (transposeT n (h.blocks bb))) n 0 (h.fresh (n * n))))
    h.next n (by rw [tempHeap_blocks_rb, key.2]; exact hinR)
  rw [tempHeap_blocks_rb, tempHeap_setBlock] at t3
  have t4 := transpose_eq_at
    (tempHeap ((h.alloc (h.fresh (n * n))).setBlock bb (transposeT n (h.blocks bb))) h.next n
      (transposeT n (iter (cacheRowT n
        (((h.alloc (h.fresh (n * n))).setBlock bb (transposeT n (h.blocks bb))).blocks ba)
        (transposeT n (h.blocks bb))) n 0 (h.fresh (n * n)))))
    bb n
    (by
      rw [tempHeap_blocks_old _ _ _ _ (by rw [setBlock_next, alloc_next]; omega) (by omega),
        setBlock_blocks_same, transposeT_length]
      exact hinB)
  rw [tempHeap_blocks_old _ _ _ _ (by rw [setBlock_next, alloc_next]; omega) (by omega),
    setBlock_blocks_same] at t4
  unfold matrixMultiplyCacheFriendly
  simp only [malloc_eq]
  rw [show (matrixAt ba n).size = n from rfl, wrapSz_sq hn, t1]
  simp only [Option.some_bind]
  rw [show (matrixAt bb n).size = n from rfl, key.1]
  simp only [Option.some_bind]
  rw [show ({ matrix := { blk := h.next, off := 0 }, size := n } : Matrix) = matrixAt h.next n
    from rfl, t3]
  simp only [Option.some_bind]
  rw [t4]
  rfl
/-- A cell of the result buffer that no index expression `i * size + j` reaches
is never written by `matrixMultiplyCacheFriendly`. -/
theorem cacheT_frame (n : Nat) (LA LBt R : List Int) (p : Nat)
    (hp : ∀ i j, i < n → j < n → p ≠ wrapU (i * n) + j) :
    (cacheT n LA LBt R).getD p 0 = R.getD p 0 := by
  unfold cacheT
  rw [transposeT_frame n _ p hp]
  exact iter_inv (cacheRowT n LA LBt) (fun _ K => K.getD p 0 = R.getD p 0) n 0 R rfl
    (by
      intro i K _ hi hK
      unfold cacheRowT copyT
      rw [iter_set_frame (fun r => wrapU (i * n) + r) (fun r _ => _) p n 0 K
        (fun r _ hr => hp i r (by omega) (by omega))]
      exact hK)

/-- For a size whose index arithmetic is exact, the loop of
`matrixMultiplyCacheFriendly` puts into row `a` the dot products of the rows of
`LA` with row `a` of `LBt`, and the final `transpose` moves them to column `a`. -/
theorem cacheT_exact {n : Nat} (hn : n ≤ 65536) (LA LBt R : List Int) (hR : R.length = n * n)
    (r c : Nat) (hr : r < n) (hc : c < n) :
    (cacheT n LA LBt R).getD (r * n + c) 0 =
      wrapI (∑ k ∈ Finset.range n, LA.getD (r * n + k) 0 * LBt.getD (c * n + k) 0) := by
  have mvv : ∀ i, i < n → ∀ b, b < n →
      (mvT n LA LBt (wrapU (i * n))).getD b 0 =
        wrapI (∑ k ∈ Finset.range n, LA.getD (b * n + k) 0 * LBt.getD (i * n + k) 0) := by
    intro i hi b hb
    rw [getD_mvT _ _ _ _ hb, idx_small hn hb, idx_small hn hi]
    rfl
  have row : ∀ i, i < n → ∀ K : List Int, K.length = n * n → ∀ a b, a < n → b < n →
      (cacheRowT n LA LBt i K).getD (a * n + b) 0 =
        if a = i then (mvT n LA LBt (wrapU (i * n))).getD b 0 else K.getD (a * n + b) 0 := by
    intro i hi K hK a b ha hb
    unfold cacheRowT copyT
    have key := iter_inv
      (fun j (M : List Int) =>
        M.set (wrapU (i * n) + j) ((mvT n LA LBt (wrapU (i * n))).getD j 0))
      (fun j M => M.length = n * n ∧ ∀ a b, a < n → b < n →
        M.getD (a * n + b) 0 =
          if a = i ∧ b < j then (mvT n LA LBt (wrapU (i * n))).getD b 0
          else K.getD (a * n + b) 0)
      n 0 K
      ⟨hK, by intro a b _ _; rw [if_neg (fun d => by omega)]⟩
      (by
        intro j M _ hj ⟨hM, hv⟩
        have hj2 : j < n := by omega
        dsimp only
        refine ⟨by rw [List.length_set]; exact hM, ?_⟩
        intro a b ha hb
        rw [getD_set, hv a b ha hb]
        simp only [idx_small hn hi, idx_eq_iff hj2 hb, hM]
        by_cases c1 : i = a ∧ j = b
        · obtain ⟨rfl, rfl⟩ := c1
          rw [if_pos ⟨⟨rfl, rfl⟩, idx_lt hi hj2⟩, if_pos ⟨rfl, by omega⟩]
        · rw [if_neg (fun d => c1 d.1)]
          by_cases c2 : a = i ∧ b < j
          · rw [if_pos c2, if_pos ⟨c2.1, by omega⟩]
          · rw [if_neg c2, if_neg (fun d => by omega)])
    rw [Nat.zero_add] at key
    rw [key.2 a b ha hb]
    by_cases c1 : a = i
    · rw [if_pos ⟨c1, hb⟩, if_pos c1]
    · rw [if_neg (fun d => c1 d.1), if_neg c1]
  have key := iter_inv (cacheRowT n LA LBt)
    (fun i K => K.length = n * n ∧ ∀ a b, a < n → b < n →
      K.getD (a * n + b) 0 =
        if a < i then wrapI (∑ k ∈ Finset.range n, LA.getD (b * n + k) 0 * LBt.getD (a * n + k) 0)
        else R.getD (a * n + b) 0)
    n 0 R ⟨hR, by intro a b _ _; rw [if_neg (by omega)]⟩
    (by
      intro i K _ hi ⟨hK, hv⟩
      have hi2 : i < n := by omega
      refine ⟨by rw [cacheRowT_length]; exact hK, ?_⟩
      intro a b ha hb
      rw [row i hi2 K hK a b ha hb]
      by_cases c1 : a = i
      · subst c1
        rw [if_pos rfl, if_pos (by omega), mvv a hi2 b hb]
      · rw [if_neg c1, hv a b ha hb]
        by_cases c2 : a < i
        · rw [if_pos c2, if_pos (by omega)]
        · rw [if_neg c2, if_neg (by omega)])
  rw [Nat.zero_add] at key
  unfold cacheT
  rw [transposeT_exact hn _ key.1 r c hr hc, key.2 c r hc hr, if_pos hc]

/-- For a size whose index arithmetic is exact, the buffers that
`matrixMultiplyNaive` and `matrixMultiplyCacheFriendly` build are the same list,
whatever the fresh blocks held. -/
theorem cacheT_eq_naiveT {n : Nat} (hn : n ≤ 65536) (LA LB R R2 : List Int)
    (hB : LB.length = n * n) (hR : R.length = n * n) (hR2 : R2.length = n * n) :
    cacheT n LA (transposeT n LB) R2 = naiveT n LA LB R := by
  apply list_ext_getD
  · rw [cacheT_length, naiveT_length, hR, hR2]
  · intro p hp
    rw [cacheT_length, hR2] at hp
    have hn0 : 0 < n := by
      rcases Nat.eq_zero_or_pos n with h0 | h0
      · subst h0; simp at hp
      · exact h0
    have hr : p / n < n := Nat.div_lt_of_lt_mul hp
    have hc : p % n < n := Nat.mod_lt _ hn0
    have e : p = p / n * n + p % n := by
      rw [Nat.mul_comm]; exact (Nat.div_add_mod p n).symm
    rw [e, cacheT_exact hn _ _ _ hR2 _ _ hr hc, naiveT_exact hn _ _ _ hR _ _ hr hc]
    congr 1
    apply Finset.sum_congr rfl
    intro k hk
    have hk2 : k < n := Finset.mem_range.mp hk
    rw [transposeT_exact hn LB hB _ _ hc hk2]
theorem buffer_matrixAt (h : Heap) (b n : Nat) : buffer h (matrixAt b n) = h.blocks b := rfl

/-- C2, amended: for square matrices `A` and `B` of equal size `n ≤ 65536` in
distinct buffers of `n * n` cells, `matrixMultiplyNaive(A, B)` and
`matrixMultiplyCacheFriendly(A, B)` both succeed and return matrices of size
`n` with the same buffer contents, wrap-around included, in whatever state the
rest of the memory is at the two calls. -/
theorem multiply_agree (h g : Heap) (A B : Matrix) (n : Nat) (hn : n ≤ 65536)
    (hA : IsMatrix h A n) (hB : IsMatrix h B n) (gA : IsMatrix g A n) (gB : IsMatrix g B n)
    (hd : A.matrix.blk ≠ B.matrix.blk)
    (eA : buffer g A = buffer h A) (eB : buffer g B = buffer h B) :
    ∃ R1 h1 R2 g2, matrixMultiplyNaive h A B = some (R1, h1) ∧
      matrixMultiplyCacheFriendly g A B = some (R2, g2) ∧
      R1.size = n ∧ R2.size = n ∧ buffer h1 R1 = buffer g2 R2 := by
  obtain ⟨hAs, hAo, hAb, hAl⟩ := hA
  obtain ⟨hBs, hBo, hBb, hBl⟩ := hB
  obtain ⟨_, _, gAb, gAl⟩ := gA
  obtain ⟨_, _, gBb, gBl⟩ := gB
  unfold buffer at eA eB
  have e1 := matrixMultiplyNaive_eq h A.matrix.blk B.matrix.blk n (by omega) hAb hBb
    (by rw [hAl]; exact InB_small hn) (by rw [hBl]; exact InB_small hn) (InB_small hn)
  have e2 := matrixMultiplyCacheFriendly_eq g A.matrix.blk B.matrix.blk n (by omega) gAb gBb
    (by rw [gAl]; exact InB_small hn) (by rw [gBl]; exact InB_small hn) (InB_small hn)
  rw [← matrix_eq_matrixAt A n hAs hAo, ← matrix_eq_matrixAt B n hBs hBo] at e1 e2
  refine ⟨_, _, _, _, e1, e2, rfl, rfl, ?_⟩
  rw [buffer_matrixAt, buffer_matrixAt, tempHeap_blocks_rb,
    setBlock_blocks_ne _ _ (show g.next ≠ B.matrix.blk by omega), tempHeap_blocks_rb,
    setBlock_blocks_ne _ _ hd, alloc_blocks_lt _ _ gAb, eA, eB]
  exact (cacheT_eq_naiveT hn _ _ _ _ hBl (fresh_length _ _) (fresh_length _ _)).symm

theorem multiply_agree_witness :
    IsMatrix (heapOf [[1, 2, 3, 4], [5, 6, 7, 8]]) (matrixAt 0 2) 2 ∧
    IsMatrix (heapOf [[1, 2, 3, 4], [5, 6, 7, 8]]) (matrixAt 1 2) 2 ∧
    ∃ R1 h1 R2 g2,
      matrixMultiplyNaive (heapOf [[1, 2, 3, 4], [5, 6, 7, 8]]) (matrixAt 0 2) (matrixAt 1 2)
        = some (R1, h1) ∧
      matrixMultiplyCacheFriendly (heapOf [[1, 2, 3, 4], [5, 6, 7, 8]]) (matrixAt 0 2) (matrixAt 1 2)
        = some (R2, g2) ∧
      R1.size = 2 ∧ R2.size = 2 ∧ buffer h1 R1 = buffer g2 R2 :=
  ⟨⟨rfl, rfl, by decide, rfl⟩, ⟨rfl, rfl, by decide, rfl⟩,
    multiply_agree (heapOf [[1, 2, 3, 4], [5, 6, 7, 8]]) (heapOf [[1, 2, 3, 4], [5, 6, 7, 8]])
      (matrixAt 0 2) (matrixAt 1 2) 2 (by decide) ⟨rfl, rfl, by decide, rfl⟩
      ⟨rfl, rfl, by decide, rfl⟩ ⟨rfl, rfl, by decide, rfl⟩ ⟨rfl, rfl, by decide, rfl⟩
      (by decide) rfl rfl⟩

theorem cache_big (h : Heap) (ba bb : Nat) (hba : ba < h.next) (hbb : bb < h.next)
    (hA : (h.blocks ba).length = 4295098369) (hB : (h.blocks bb).length = 4295098369) :
    matrixMultiplyCacheFriendly h (matrixAt ba 65537) (matrixAt bb 65537) =
      some (matrixAt h.next 65537,
        (tempHeap ((h.alloc (h.fresh (65537 * 65537))).setBlock bb (transposeT 65537 (h.blocks bb)))
          h.next 65537
          (cacheT 65537
            (((h.alloc (h.fresh (65537 * 65537))).setBlock bb
              (transposeT 65537 (h.blocks bb))).blocks ba)
            (transposeT 65537 (h.blocks bb)) (h.fresh (65537 * 65537)))).setBlock bb
          (transposeT 65537 (transposeT 65537 (h.blocks bb)))) :=
  matrixMultiplyCacheFriendly_eq h ba bb 65537 (by decide) hba hbb
    (by rw [hA]; exact InB_65537 (by omega)) (by rw [hB]; exact InB_65537 (by omega))
    (InB_65537 (by decide))

/-- C3, amended: for square matrices `A` and `B` of equal size `n ≤ 65536` with
buffers of `n * n` cells, `matrixMultiplyCacheFriendly(A, B)` succeeds and
afterwards the buffer of `B`, like every block that existed before the call,
is exactly what it was, and `B` is still a matrix of size `n`; yet the first
statement after the allocation of the result, `transpose(&B)`, does transpose
the buffer of `B` in place. -/
theorem matrixMultiplyCacheFriendly_frame (h : Heap) (A B : Matrix) (n : Nat) (hn : n ≤ 65536)
    (hA : IsMatrix h A n) (hB : IsMatrix h B n) :
    ∃ R h', matrixMultiplyCacheFriendly h A B = some (R, h') ∧
      buffer h' B = buffer h B ∧ IsMatrix h' B n ∧
      (∀ b, b < h.next → h'.blocks b = h.blocks b) ∧
      ∃ hmid, transpose (malloc h (wrapSz (4 * A.size * A.size))).2 B = some hmid ∧
        ∀ i j, i < n → j < n → ∃ v, entry h B j i = some v ∧ entry hmid B i j = some v := by
  have hB2 := hB
  obtain ⟨hAs, hAo, hAb, hAl⟩ := hA
  obtain ⟨hBs, hBo, hBb, hBl⟩ := hB
  have e2 := matrixMultiplyCacheFriendly_eq h A.matrix.blk B.matrix.blk n (by omega) hAb hBb
    (by rw [hAl]; exact InB_small hn) (by rw [hBl]; exact InB_small hn) (InB_small hn)
  rw [← matrix_eq_matrixAt A n hAs hAo, ← matrix_eq_matrixAt B n hBs hBo,
    transposeT_involutive hn _ hBl] at e2
  have old : ∀ b, b < h.next →
      ((tempHeap ((h.alloc (h.fresh (n * n))).setBlock B.matrix.blk
          (transposeT n (h.blocks B.matrix.blk))) h.next n
        (cacheT n
          (((h.alloc (h.fresh (n * n))).setBlock B.matrix.blk
            (transposeT n (h.blocks B.matrix.blk))).blocks A.matrix.blk)
          (transposeT n (h.blocks B.matrix.blk)) (h.fresh (n * n)))).setBlock B.matrix.blk
        (h.blocks B.matrix.blk)).blocks b = h.blocks b := by
    intro b hb
    by_cases e : b = B.matrix.blk
    · subst e
      rw [setBlock_blocks_same]
    · rw [setBlock_blocks_ne _ _ e,
        tempHeap_blocks_old _ _ _ _ (by rw [setBlock_next, alloc_next]; omega) (by omega),
        setBlock_blocks_ne _ _ e, alloc_blocks_lt _ _ hb]
  have hB1 : IsMatrix (malloc h (wrapSz (4 * A.size * A.size))).2 B n :=
    ⟨hBs, hBo, by rw [malloc_eq, alloc_next]; omega,
      by rw [malloc_eq, alloc_blocks_lt _ _ hBb]; exact hBl⟩
  obtain ⟨hmid, tm, _, tv⟩ := transpose_entries _ B n hn hB1
  refine ⟨_, _, e2, ?_, ?_, old, hmid, tm, ?_⟩
  · unfold buffer
    exact old _ hBb
  · exact ⟨hBs, hBo, by
      rw [setBlock_next, tempHeap_next, setBlock_next, alloc_next]; omega,
      by rw [old _ hBb]; exact hBl⟩
  · intro i j hi hj
    obtain ⟨v, v1, v2⟩ := tv i j hi hj
    refine ⟨v, ?_, v2⟩
    rw [← v1, entry_eq _ B n hB1 j i hj hi, entry_eq _ B n hB2 j i hj hi, malloc_eq,
      alloc_blocks_lt _ _ hBb]

theorem matrixMultiplyCacheFriendly_frame_witness :
    IsMatrix (heapOf [[1, 2, 3, 4], [5, 6, 7, 8]]) (matrixAt 0 2) 2 ∧
    IsMatrix (heapOf [[1, 2, 3, 4], [5, 6, 7, 8]]) (matrixAt 1 2) 2 ∧
    ∃ R h',
      matrixMultiplyCacheFriendly (heapOf [[1, 2, 3, 4], [5, 6, 7, 8]]) (matrixAt 0 2) (matrixAt 1 2)
        = some (R, h') ∧
      buffer h' (matrixAt 1 2) = buffer (heapOf [[1, 2, 3, 4], [5, 6, 7, 8]]) (matrixAt 1 2) ∧
      IsMatrix h' (matrixAt 1 2) 2 ∧
      (∀ b, b < (heapOf [[1, 2, 3, 4], [5, 6, 7, 8]]).next →
        h'.blocks b = (heapOf [[1, 2, 3, 4], [5, 6, 7, 8]]).blocks b) ∧
      ∃ hmid,
        transpose (malloc (heapOf [[1, 2, 3, 4], [5, 6, 7, 8]])
          (wrapSz (4 * (matrixAt 0 2).size * (matrixAt 0 2).size))).2 (matrixAt 1 2) = some hmid ∧
        ∀ i j, i < 2 → j < 2 →
          ∃ v, entry (heapOf [[1, 2, 3, 4], [5, 6, 7, 8]]) (matrixAt 1 2) j i = some v ∧
            entry hmid (matrixAt 1 2) i j = some v :=
  ⟨⟨rfl, rfl, by decide, rfl⟩, ⟨rfl, rfl, by decide, rfl⟩,
    matrixMultiplyCacheFriendly_frame (heapOf [[1, 2, 3, 4], [5, 6, 7, 8]]) (matrixAt 0 2)
      (matrixAt 1 2) 2 (by decide) ⟨rfl, rfl, by decide, rfl⟩ ⟨rfl, rfl, by decide, rfl⟩⟩

/-- C3 as stated fails at size 65537: the two calls of `transpose` on `B` do not
cancel, and `B` comes back with a different buffer. -/
theorem matrixMultiplyCacheFriendly_frame_counterexample :
    IsMatrix heapZeroThird (matrixAt 0 65537) 65537 ∧
    IsMatrix heapZeroThird (matrixAt 1 65537) 65537 ∧
    ∃ R h', matrixMultiplyCacheFriendly heapZeroThird (matrixAt 0 65537) (matrixAt 1 65537)
        = some (R, h') ∧
      buffer h' (matrixAt 1 65537) ≠ buffer heapZeroThird (matrixAt 1 65537) := by
  have b0 : heapZeroThird.blocks 0 = bigZeros := by
    unfold heapZeroThird; exact heapOf_blocks_zero _ _
  have b1 : heapZeroThird.blocks 1 = bigZeros.set 131073 1 := by
    unfold heapZeroThird; exact heapOf_blocks_one _ _ _
  have hnext : heapZeroThird.next = 2 := rfl
  have hL : (bigZeros.set 131073 1).length = 4295098369 := by
    rw [List.length_set, bigZeros_length]
  have e := cache_big heapZeroThird 0 1 (by rw [hnext]; decide) (by rw [hnext]; decide)
    (by rw [b0, bigZeros_length]) (by rw [b1, hL])
  refine ⟨isMatrix_at _ _ _ (by rw [hnext]; decide) (by rw [b0, bigZeros_length]),
    isMatrix_at _ _ _ (by rw [hnext]; decide) (by rw [b1, hL]), _, _, e, ?_⟩
  rw [buffer_matrixAt, buffer_matrixAt, setBlock_blocks_same, b1]
  exact transposeT_twice_ne

theorem isInt_of_mem (h : Heap) (M : Matrix) (n : Nat) (hM : IsMatrix h M n)
    (hint : ∀ x ∈ buffer h M, IsInt x) (r c : Nat) (hr : r < n) (hc : c < n) :
    IsInt (cell h M r c) := by
  rw [cell_eq h M n hM r c hr hc]
  have hl : r * n + c < (h.blocks M.matrix.blk).length := by
    rw [hM.2.2.2]; exact idx_lt hr hc
  rw [List.getD_eq_getElem _ _ hl]
  exact hint _ (List.getElem_mem hl)

theorem entry_eq_cell (h : Heap) (M : Matrix) (n : Nat) (hM : IsMatrix h M n) (r c : Nat)
    (hr : r < n) (hc : c < n) : entry h M r c = some (cell h M r c) := by
  rw [cell_eq h M n hM r c hr hc]
  exact entry_eq h M n hM r c hr hc

/-- C6, amended: for a square matrix `A` of size `n ≤ 65535` whose buffer holds
`n * n` values of type `int`, `createIdentityMatrix(n)` succeeds, and both
`matrixMultiplyNaive(A, I)` and `matrixMultiplyNaive(I, A)` return a matrix of
size `n` that equals `A` element for element. -/
theorem identity_product (h : Heap) (A : Matrix) (n : Nat) (hn : n ≤ 65535)
    (hA : IsMatrix h A n) (hint : ∀ x ∈ buffer h A, IsInt x) :
    ∃ I h1, createIdentityMatrix h n = some (I, h1) ∧
      (∃ R h2, matrixMultiplyNaive h1 A I = some (R, h2) ∧ R.size = n ∧
        ∀ r c, r < n → c < n → entry h2 R r c = entry h A r c) ∧
      (∃ R h2, matrixMultiplyNaive h1 I A = some (R, h2) ∧ R.size = n ∧
        ∀ r c, r < n → c < n → entry h2 R r c = entry h A r c) := by
  obtain ⟨I, h1, e1, _, hI, hIv, hold⟩ := identity_entries h n hn
  have hA1 : IsMatrix h1 A n := by
    obtain ⟨hs, ho, hb, hl⟩ := hA
    have hnext : h.next ≤ h1.next := by
      rw [createIdentityMatrix_eq h n (by omega) (identity_inB hn)] at e1
      injection e1 with e1
      injection e1 with _ e1
      rw [← e1, alloc_next]; omega
    exact ⟨hs, ho, by omega, by rw [hold _ hb]; exact hl⟩
  have cA : ∀ r c, r < n → c < n → cell h1 A r c = cell h A r c := by
    intro r c hr hc
    rw [cell_eq h1 A n hA1 r c hr hc, cell_eq h A n hA r c hr hc, hold _ hA.2.2.1]
  have cI : ∀ r c, r < n → c < n → cell h1 I r c = if r = c then 1 else 0 := by
    intro r c hr hc
    unfold cell
    rw [hIv r c hr hc]
    rfl
  refine ⟨I, h1, e1, ?_, ?_⟩
  · obtain ⟨R, h2, e2, hR, hv, _⟩ := naive_entries h1 A I n (by omega) hA1 hI
    refine ⟨R, h2, e2, hR.1, ?_⟩
    intro r c hr hc
    rw [hv r c hr hc, entry_eq_cell h A n hA r c hr hc]
    congr 1
    have s : ∑ k ∈ Finset.range n, cell h1 A r k * cell h1 I k c = cell h A r c := by
      rw [Finset.sum_eq_single c]
      · rw [cI c c hc hc, if_pos rfl, mul_one, cA r c hr hc]
      · intro k hk hkc
        rw [cI k c (Finset.mem_range.mp hk) hc, if_neg hkc, mul_zero]
      · intro hc2
        exact absurd (Finset.mem_range.mpr hc) hc2
    rw [s]
    exact wrapI_of_isInt (isInt_of_mem h A n hA hint r c hr hc)
  · obtain ⟨R, h2, e2, hR, hv, _⟩ := naive_entries h1 I A n (by omega) hI hA1
    refine ⟨R, h2, e2, hR.1, ?_⟩
    intro r c hr hc
    rw [hv r c hr hc, entry_eq_cell h A n hA r c hr hc]
    congr 1
    have s : ∑ k ∈ Finset.range n, cell h1 I r k * cell h1 A k c = cell h A r c := by
      rw [Finset.sum_eq_single r]
      · rw [cI r r hr hr, if_pos rfl, one_mul, cA r c hr hc]
      · intro k hk hkr
        rw [cI r k hr (Finset.mem_range.mp hk), if_neg (fun d => hkr d.symm), zero_mul]
      · intro hr2
        exact absurd (Finset.mem_range.mpr hr) hr2
    rw [s]
    exact wrapI_of_isInt (isInt_of_mem h A n hA hint r c hr hc)

theorem identity_product_witness :
    IsMatrix (heapOf [[1, 0, 0, 0, 1, 0, 0, 0, 1]]) (matrixAt 0 3) 3 ∧
    ∃ I h1, createIdentityMatrix (heapOf [[1, 0, 0, 0, 1, 0, 0, 0, 1]]) 3 = some (I, h1) ∧
      (∃ R h2, matrixMultiplyNaive h1 (matrixAt 0 3) I = some (R, h2) ∧ R.size = 3 ∧
        ∀ r c, r < 3 → c < 3 →
          entry h2 R r c = entry (heapOf [[1, 0, 0, 0, 1, 0, 0, 0, 1]]) (matrixAt 0 3) r c) ∧
      (∃ R h2, matrixMultiplyNaive h1 I (matrixAt 0 3) = some (R, h2) ∧ R.size = 3 ∧
        ∀ r c, r < 3 → c < 3 →
          entry h2 R r c = entry (heapOf [[1, 0, 0, 0, 1, 0, 0, 0, 1]]) (matrixAt 0 3) r c) :=
  ⟨⟨rfl, rfl, by decide, rfl⟩,
    identity_product (heapOf [[1, 0, 0, 0, 1, 0, 0, 0, 1]]) (matrixAt 0 3) 3 (by decide)
      ⟨rfl, rfl, by decide, rfl⟩ (by decide)⟩

/-- C6 as stated fails at size 65536: `createIdentityMatrix(65536)` returns no
matrix, so there is no product with the identity. -/
theorem identity_product_counterexample :
    IsMatrix heapZeros65536 (matrixAt 0 65536) 65536 ∧
    (∀ x ∈ buffer heapZeros65536 (matrixAt 0 65536), IsInt x) ∧
    createIdentityMatrix heapZeros65536 65536 = none := by
  have b0 : heapZeros65536.blocks 0 = List.replicate 4294967296 0 := by
    unfold heapZeros65536; exact heapOf_blocks_zero _ _
  refine ⟨isMatrix_at _ _ _ Nat.zero_lt_one (by rw [b0]; exact List.length_replicate _ _), ?_,
    createIdentityMatrix_65536 _⟩
  intro x hx
  rw [buffer_matrixAt, b0] at hx
  rw [List.eq_of_mem_replicate hx]
  decide
/-! ## What a successful run preserves, whatever the sizes -/

theorem Shape.refl (h : Heap) : Shape h h := ⟨rfl, fun _ => rfl⟩

theorem Shape.trans {f g h : Heap} (a : Shape f g) (b : Shape g h) : Shape f h :=
  ⟨a.1.trans b.1, fun c => (a.2 c).trans (b.2 c)⟩

theorem store_shape {h h' : Heap} {p : Ptr} {v : Int} (e : store h p v = some h') :
    Shape h' h := by
  unfold store writeAt at e
  split_ifs at e with c
  · simp only [Option.map_some', Option.some.injEq] at e
    subst e
    refine ⟨rfl, fun b => ?_⟩
    by_cases d : b = p.blk
    · subst d; rw [setBlock_blocks_same, List.length_set]
    · rw [setBlock_blocks_ne _ _ d]
  · simp at e

/-- A loop that succeeds keeps what each successful run of its body keeps. -/
theorem forLoop_some_inv {σ : Type} (body : Nat → σ → Option σ) (Inv : σ → Prop)
    (hbody : ∀ j t t', body j t = some t' → Inv t → Inv t') (k : Nat) :
    ∀ (i : Nat) (s t : σ), forLoop body k i s = some t → Inv s → Inv t := by
  induction k with
  | zero =>
    intro i s t e hs
    simp only [forLoop, Option.some.injEq] at e
    subst e; exact hs
  | succ k ih =>
    intro i s t e hs
    rw [forLoop_succ] at e
    cases hb : body i s with
    | none => rw [hb] at e; simp at e
    | some u =>
      rw [hb] at e
      exact ih (i + 1) u t e (hbody i s u hb hs)

theorem forLoop_shape (body : Nat → Heap → Option Heap)
    (hbody : ∀ j t t', body j t = some t' → Shape t' t) (k i : Nat) (s t : Heap)
    (e : forLoop body k i s = some t) : Shape t s :=
  forLoop_some_inv body (fun u => Shape u s)
    (fun j u u' hu hs => (hbody j u u' hu).trans hs) k i s t e (Shape.refl s)

/-- A loop fails when the state keeps an invariant up to an iteration that
fails under the invariant. -/
theorem forLoop_eq_none_inv {σ : Type} (body : Nat → σ → Option σ) (Inv : σ → Prop)
    (j0 : Nat) (hbody : ∀ j t t', j < j0 → body j t = some t' → Inv t → Inv t')
    (hfail : ∀ t, Inv t → body j0 t = none) (k : Nat) :
    ∀ (i : Nat) (s : σ), i ≤ j0 → j0 < i + k → Inv s → forLoop body k i s = none := by
  induction k with
  | zero => intro i s h1 h2 _; omega
  | succ k ih =>
    intro i s h1 h2 hs
    rw [forLoop_succ]
    by_cases hij : i = j0
    · subst hij; rw [hfail s hs]; rfl
    · cases hb : body i s with
      | none => rfl
      | some t =>
        exact ih (i + 1) t (by omega) (by omega) (hbody i s t (by omega) hb hs)

theorem bind_store_shape {h h' : Heap} {o : Option Int} {p : Ptr}
    (e : o.bind (fun v => store h p v) = some h') : Shape h' h := by
  cases o with
  | none => simp at e
  | some v => exact store_shape e

theorem swapCells_shape {h h' : Heap} {p q : Ptr} (e : swapCells h p q = some h') :
    Shape h' h := by
  unfold swapCells at e
  cases h1 : load h p with
  | none => rw [h1] at e; simp at e
  | some a =>
    cases h2 : load h q with
    | none => rw [h1, h2] at e; simp at e
    | some b =>
      rw [h1, h2] at e
      simp only [Option.some_bind] at e
      cases h3 : store h p b with
      | none => rw [h3] at e; simp at e
      | some g =>
        rw [h3] at e
        exact (store_shape e).trans (store_shape h3)

theorem transpose_shape {h h' : Heap} {m : Matrix} (e : transpose h m = some h') :
    Shape h' h := by
  unfold transpose at e
  exact forLoop_shape _
    (fun i t t' ht => forLoop_shape _ (fun j u u' hu => swapCells_shape hu) _ _ _ _ ht)
    _ _ _ _ e

theorem copyArray_shape {h h' : Heap} {src dst : Ptr} {size : Int}
    (e : copyArray h src dst size = some h') : Shape h' h := by
  unfold copyArray at e
  exact forLoop_shape _ (fun i t t' ht => bind_store_shape ht) _ _ _ _ e

/-- What a successful call of `MatrixVectorMulti` leaves behind: one more
block, of `size` cells, and every other block with its old length. -/
theorem MatrixVectorMulti_shape {h h' : Heap} {M : Matrix} {arr p : Ptr}
    (hs : M.size ≤ 4294967296) (e : MatrixVectorMulti h M arr = some (p, h')) :
    p = { blk := h.next, off := 0 } ∧ h'.next = h.next + 1 ∧
      (h'.blocks h.next).length = M.size ∧
      ∀ b, b ≠ h.next → (h'.blocks b).length = (h.blocks b).length := by
  unfold MatrixVectorMulti at e
  simp only [malloc_eq, wrapSz_mul4 hs] at e
  cases hl : forLoop (fun i hi =>
      (dotProduct hi (M.matrix.add (wrapU (i * M.size))) arr M.size).bind
        (fun d => store hi (Ptr.add { blk := h.next, off := 0 } i) d))
      M.size 0 (h.alloc (h.fresh M.size)) with
  | none => rw [hl] at e; simp at e
  | some g =>
    rw [hl] at e
    simp only [Option.map_some', Option.some.injEq, Prod.mk.injEq] at e
    obtain ⟨e1, e2⟩ := e
    subst e1 e2
    have sh := forLoop_shape _ (fun i t t' ht => bind_store_shape ht) _ _ _ _ hl
    refine ⟨rfl, sh.1, ?_, ?_⟩
    · rw [sh.2, alloc_blocks_same, fresh_length]
    · intro b hb
      rw [sh.2, alloc_blocks_ne _ _ hb]
theorem readAt_ge (L : List Int) {k : Nat} (hk : L.length ≤ k) : readAt L (k : Int) = none := by
  rw [readAt_natCast]
  exact List.getElem?_eq_none hk

/-- Function `dotProduct` fails when one of the cells it is asked to read does not exist. -/
theorem dotProduct_none (h : Heap) (a b : Ptr) (n k0 : Nat) (hk : k0 < n) (hk2 : k0 < 2147483648)
    (hfail : load h (b.add (k0 : Int)) = none) : dotProduct h a b n = none := by
  unfold dotProduct
  apply forLoop_eq_none _ _ 0 0 k0 (by omega) (by omega)
  intro t
  rw [asInt_of_lt hk2, hfail]
  cases load h (a.add (k0 : Int)) <;> rfl

/-- Function `MatrixVectorMulti` fails when the vector it is given is too short. -/
theorem MatrixVectorMulti_none (h : Heap) (M : Matrix) (arr : Ptr) (k0 : Nat)
    (hs : M.size ≤ 4294967296) (hk : k0 < M.size) (hk2 : k0 < 2147483648)
    (hb : arr.blk < h.next)
    (hfail : readAt (h.blocks arr.blk) (arr.off + (k0 : Int)) = none) :
    MatrixVectorMulti h M arr = none := by
  unfold MatrixVectorMulti
  simp only [malloc_eq, wrapSz_mul4 hs]
  rw [forLoop_first _ (show M.size = (M.size - 1) + 1 by omega)]
  have d : dotProduct (h.alloc (h.fresh M.size)) (M.matrix.add (wrapU (0 * M.size))) arr M.size
      = none := by
    apply dotProduct_none _ _ _ _ k0 hk hk2
    unfold load
    show readAt ((h.alloc (h.fresh M.size)).blocks arr.blk) (arr.off + (k0 : Int)) = none
    rw [alloc_blocks_lt _ _ hb]
    exact hfail
  rw [d]
  rfl

/-- Sizes that differ, `B` not empty: `matrixMultiplyNaive` reads past the end
of `BCol` (when `A` is larger) or of the vector that `MatrixVectorMulti`
returned (when `B` is larger). -/
theorem matrixMultiplyNaive_mismatch (h : Heap) (ba bb n m : Nat)
    (hn : n < 2147483648) (hm : m < 2147483648) (hm0 : m ≠ 0) (hne : n ≠ m) :
    matrixMultiplyNaive h (matrixAt ba n) (matrixAt bb m) = none := by
  unfold matrixMultiplyNaive
  simp only [malloc_eq]
  suffices hcol : naiveColumn (matrixAt ba n) (matrixAt bb m) { blk := h.next, off := 0 } 0
      (h.alloc (h.fresh (wrapSz (4 * (matrixAt ba n).size * (matrixAt ba n).size) / 4))) = none by
    rw [show (matrixAt bb m).size = (m - 1) + 1 by show m = _; omega, forLoop_succ, hcol]
    rfl
  generalize h.alloc (h.fresh (wrapSz (4 * (matrixAt ba n).size * (matrixAt ba n).size) / 4)) = h1
  unfold naiveColumn
  simp only [malloc_eq, matrixAt]
  rw [wrapSz_4mul (show m ≤ 4294967296 by omega)]
  cases hfill : forLoop (fun j hj =>
      (load hj ((Ptr.add { blk := bb, off := 0 } (wrapU (j * m))).add 0)).bind
        (fun v => store hj (Ptr.add { blk := h1.next, off := 0 } j) v))
      m 0 (h1.alloc (h1.fresh m)) with
  | none => rfl
  | some h3 =>
    have sh := forLoop_shape _ (fun i t t' ht => bind_store_shape ht) _ _ _ _ hfill
    have h3n : h3.next = h1.next + 1 := sh.1
    have h3l : (h3.blocks h1.next).length = m := by
      rw [sh.2, alloc_blocks_same, fresh_length]
    simp only [Option.some_bind]
    rcases Nat.lt_or_gt_of_ne hne with c | c
    · -- `B` is larger: the vector has `n` cells and cell `n` is read
      cases hmv : MatrixVectorMulti h3 { matrix := { blk := ba, off := 0 }, size := n }
          { blk := h1.next, off := 0 } with
      | none => rfl
      | some r =>
        obtain ⟨p, h4⟩ := r
        obtain ⟨e1, _, e3, _⟩ := MatrixVectorMulti_shape (show n ≤ 4294967296 by omega) hmv
        subst e1
        simp only [Option.some_bind]
        have sc : forLoop (fun j hj =>
            (load hj (Ptr.add { blk := h3.next, off := 0 } j)).bind
              (fun v => store hj
                ((Ptr.add { blk := h.next, off := 0 } (wrapU (j * m))).add ((0 : Nat) : Int)) v))
            m 0 h4 = none := by
          apply forLoop_eq_none_inv _ (fun t => (t.blocks h3.next).length = n) n
            (fun j t t' _ ht hl => by
              have := (bind_store_shape ht).2 h3.next
              rw [this]; exact hl)
            (fun t hl => by
              have : load t (Ptr.add { blk := h3.next, off := 0 } (n : Int)) = none := by
                rw [ptr_add_nat]
                exact readAt_ge _ (by rw [hl])
              rw [this]; rfl)
            m 0 h4 (by omega) (by omega) e3
        rw [sc]
        rfl
    · -- `A` is larger: `BCol` has `m` cells and cell `m` is read
      have := MatrixVectorMulti_none h3 { matrix := { blk := ba, off := 0 }, size := n }
        { blk := h1.next, off := 0 } m (by show n ≤ _; omega) c hm (by rw [h3n]; show h1.next < _; omega)
        (by
          show readAt (h3.blocks h1.next) (0 + (m : Int)) = none
          rw [Int.zero_add]
          exact readAt_ge _ (by rw [h3l]))
      rw [this]
      rfl
theorem pred_mul_add {m : Nat} (hm0 : m ≠ 0) : (m - 1) * m + m = m * m := by
  cases m with
  | zero => exact absurd rfl hm0
  | succ k => rw [Nat.add_sub_cancel, Nat.succ_mul]

/-- What a successful run of the loop body of `matrixMultiplyCacheFriendly`
leaves behind: one more block, and every older block with its old length. -/
theorem cacheRow_shape {A B : Matrix} {rp : Ptr} {i : Nat} {t t' : Heap}
    (hs : A.size ≤ 4294967296) (e : cacheRow A B rp i t = some t') :
    t'.next = t.next + 1 ∧ ∀ b, b ≠ t.next → (t'.blocks b).length = (t.blocks b).length := by
  unfold cacheRow at e
  generalize asInt B.size = sz at e
  cases hmv : MatrixVectorMulti t A (B.matrix.add (wrapU (i * B.size))) with
  | none => rw [hmv] at e; exact absurd e (by simp)
  | some r =>
    obtain ⟨p, ha⟩ := r
    rw [hmv, Option.some_bind] at e
    obtain ⟨e1, e2, _, e4⟩ := MatrixVectorMulti_shape hs hmv
    subst e1
    cases hc : copyArray ha { blk := t.next, off := 0 } (rp.add (wrapU (i * B.size))) sz with
    | none =>
      have e' : (copyArray ha { blk := t.next, off := 0 } (rp.add (wrapU (i * B.size))) sz).bind
          (fun hb => some (free hb { blk := t.next, off := 0 })) = some t' := e
      rw [hc] at e'
      exact absurd e' (by simp)
    | some hb =>
      have e' : (copyArray ha { blk := t.next, off := 0 } (rp.add (wrapU (i * B.size))) sz).bind
          (fun hb => some (free hb { blk := t.next, off := 0 })) = some t' := e
      rw [hc, Option.some_bind, Option.some.injEq] at e'
      subst e'
      have sh := copyArray_shape hc
      refine ⟨by show hb.next = _; rw [sh.1, e2], ?_⟩
      intro b hbn
      show ((hb.setBlock t.next []).blocks b).length = _
      rw [setBlock_blocks_ne _ _ hbn, sh.2, e4 b hbn]

/-- Sizes that differ, `B` not empty: `matrixMultiplyCacheFriendly` reads past
the end of the vector that `MatrixVectorMulti` returned (when `B` is larger) or
past the end of the buffer of `B` (when `A` is larger). -/
theorem matrixMultiplyCacheFriendly_mismatch (h : Heap) (ba bb n m : Nat)
    (hn : n < 2147483648) (hm : m ≤ 65536) (hm0 : m ≠ 0) (hne : n ≠ m)
    (hbb : bb < h.next) (hB : (h.blocks bb).length = m * m) :
    matrixMultiplyCacheFriendly h (matrixAt ba n) (matrixAt bb m) = none := by
  unfold matrixMultiplyCacheFriendly
  simp only [malloc_eq]
  have h1B : ((h.alloc (h.fresh (wrapSz (4 * (matrixAt ba n).size * (matrixAt ba n).size) / 4))).blocks
      bb).length = m * m := by
    rw [alloc_blocks_lt _ _ hbb]; exact hB
  have h1n : (h.alloc (h.fresh (wrapSz (4 * (matrixAt ba n).size * (matrixAt ba n).size) / 4))).next
      = h.next + 1 := rfl
  generalize h.alloc (h.fresh (wrapSz (4 * (matrixAt ba n).size * (matrixAt ba n).size) / 4)) = h1
    at h1B h1n ⊢
  cases ht : transpose h1 (matrixAt bb m) with
  | none => rfl
  | some h2 =>
    have sh := transpose_shape ht
    have h2n : h2.next = h.next + 1 := by rw [sh.1, h1n]
    have h2B : (h2.blocks bb).length = m * m := by rw [sh.2, h1B]
    simp only [Option.some_bind]
    suffices hl : forLoop (cacheRow (matrixAt ba n) (matrixAt bb m) { blk := h.next, off := 0 })
        (matrixAt bb m).size 0 h2 = none by
      rw [hl]; rfl
    rcases Nat.lt_or_gt_of_ne hne with c | c
    · -- `B` is larger: the vector has `n` cells and cell `n` is copied
      rw [show (matrixAt bb m).size = (m - 1) + 1 by show m = _; omega, forLoop_succ]
      suffices hr : cacheRow (matrixAt ba n) (matrixAt bb m) { blk := h.next, off := 0 } 0 h2
          = none by
        rw [hr]; rfl
      unfold cacheRow
      rw [show asInt (matrixAt bb m).size = (m : Int) from asInt_of_lt (by show m < _; omega)]
      cases hmv : MatrixVectorMulti h2 (matrixAt ba n)
          ((matrixAt bb m).matrix.add (wrapU (0 * (matrixAt bb m).size))) with
      | none => rfl
      | some r =>
        obtain ⟨p, ha⟩ := r
        obtain ⟨e1, _, e3, _⟩ := MatrixVectorMulti_shape (show (matrixAt ba n).size ≤ 4294967296 by
          show n ≤ _; omega) hmv
        subst e1
        simp only [Option.some_bind]
        have cp : copyArray ha { blk := h2.next, off := 0 }
            (Ptr.add { blk := h.next, off := 0 } (wrapU (0 * (matrixAt bb m).size)))
            (m : Int) = none := by
          unfold copyArray
          rw [Int.toNat_ofNat]
          apply forLoop_eq_none_inv _ (fun t => (t.blocks h2.next).length = n) n
            (fun j t t' _ ht hl => by
              have := (bind_store_shape ht).2 h2.next
              rw [this]; exact hl)
            (fun t hl => by
              have : load t (Ptr.add { blk := h2.next, off := 0 } (asInt n)) = none := by
                rw [asInt_of_lt hn, ptr_add_nat]
                exact readAt_ge _ (by rw [hl])
              rw [this]; rfl)
            m 0 ha (by omega) (by omega) e3
        rw [cp]
        rfl
    · -- `A` is larger: row `m - 1` of `B` ends before `n` cells have been read
      apply forLoop_eq_none_inv _ (fun t => (t.blocks bb).length = m * m ∧ bb < t.next) (m - 1)
        (fun j t t' _ ht hI => by
          obtain ⟨s1, s2⟩ := cacheRow_shape (show (matrixAt ba n).size ≤ 4294967296 by
            show n ≤ _; omega) ht
          exact ⟨by rw [s2 bb (by omega)]; exact hI.1, by omega⟩)
        (fun t hI => by
          unfold cacheRow
          have := MatrixVectorMulti_none t (matrixAt ba n)
            ((matrixAt bb m).matrix.add (wrapU ((m - 1) * (matrixAt bb m).size))) m
            (by show n ≤ _; omega) c (by omega) hI.2
            (by
              show readAt (t.blocks bb) (0 + ((wrapU ((m - 1) * m) : Nat) : Int) + (m : Int)) = none
              rw [idx_small hm (by omega), Int.zero_add, ← Int.ofNat_add, pred_mul_add hm0]
              exact readAt_ge _ (by rw [hI.1]))
          rw [this]
          rfl)
        _ 0 h2 (by omega) (by show m - 1 < 0 + m; omega) ⟨h2B, by omega⟩

/-- Function `matrixMultiplyNaive` with an empty `B`: the loops do not run and
the fresh, unwritten result block is returned as a matrix of size `A.size`. -/
theorem matrixMultiplyNaive_emptyB (h : Heap) (A : Matrix) (bb : Nat) :
    ∃ R h', matrixMultiplyNaive h A (matrixAt bb 0) = some (R, h') ∧ R.size = A.size :=
  ⟨_, _, rfl, rfl⟩

/-- Function `matrixMultiplyCacheFriendly` with an empty `B`: only the
`transpose` of the fresh result block does anything. -/
theorem matrixMultiplyCacheFriendly_emptyB (h : Heap) (ba bb n : Nat) (hn : n ≤ 65536) :
    ∃ R h', matrixMultiplyCacheFriendly h (matrixAt ba n) (matrixAt bb 0) = some (R, h') ∧
      R.size = n := by
  have t := transpose_eq_at (h.alloc (h.fresh (n * n))) h.next n
    (by rw [alloc_blocks_same, fresh_length]; exact InB_small hn)
  refine ⟨matrixAt h.next n,
    (h.alloc (h.fresh (n * n))).setBlock h.next
      (transposeT n ((h.alloc (h.fresh (n * n))).blocks h.next)), ?_, rfl⟩
  unfold matrixMultiplyCacheFriendly
  simp only [malloc_eq]
  rw [show (matrixAt ba n).size = n from rfl, wrapSz_sq (show n < 2147483648 by omega)]
  have t0 : ∀ g : Heap, transpose g (matrixAt bb 0) = some g := fun _ => rfl
  rw [t0]
  simp only [Option.some_bind]
  rw [show (matrixAt bb 0).size = 0 from rfl]
  simp only [forLoop, Option.some_bind]
  rw [show ({ matrix := { blk := h.next, off := 0 }, size := n } : Matrix) = matrixAt h.next n
    from rfl, t]
  simp only [Option.some_bind]
  rw [t0]
  rfl
/-- A buffer of `n * n` cells holds every wrapped index `i * n + j` with `i, j < n`. -/
theorem InB_sq (n : Nat) : InB n (n * n) := by
  intro i j hi hj
  by_cases hn : n ≤ 65536
  · exact InB_small hn i j hi hj
  · have h1 := wrapU_lt (i * n)
    have h2 : 65537 * n ≤ n * n := Nat.mul_le_mul_right n (by omega)
    omega

/-- The result of `matrixMultiplyNaive` is built in one way only: the block
allocated first, with the size of `A`. -/
theorem matrixMultiplyNaive_result (h : Heap) (A B R : Matrix) (h2 : Heap)
    (e : matrixMultiplyNaive h A B = some (R, h2)) :
    R = { matrix := { blk := h.next, off := 0 }, size := A.size } := by
  unfold matrixMultiplyNaive at e
  simp only [malloc_eq, Option.map_eq_some'] at e
  obtain ⟨_, _, e2⟩ := e
  injection e2 with e3 _
  exact e3.symm

/-- The result of `matrixMultiplyCacheFriendly` is built in one way only: the
block allocated first, with the size of `A`. -/
theorem matrixMultiplyCacheFriendly_result (h : Heap) (A B R : Matrix) (h2 : Heap)
    (e : matrixMultiplyCacheFriendly h A B = some (R, h2)) :
    R = { matrix := { blk := h.next, off := 0 }, size := A.size } := by
  unfold matrixMultiplyCacheFriendly at e
  simp only [malloc_eq, Option.bind_eq_some] at e
  obtain ⟨_, _, _, _, _, _, _, _, e2⟩ := e
  injection e2 with e3
  injection e3 with e4 _
  exact e4.symm

/-- Function `matrixMultiplyNaive` with an empty `B`: no loop body runs, and the
fresh result block is returned as `malloc` left it. -/
theorem matrixMultiplyNaive_emptyB_eq (h : Heap) (ba bb n : Nat) (hn : n < 2147483648) :
    matrixMultiplyNaive h (matrixAt ba n) (matrixAt bb 0) =
      some (matrixAt h.next n, h.alloc (h.fresh (n * n))) := by
  unfold matrixMultiplyNaive
  simp only [malloc_eq]
  rw [show (matrixAt ba n).size = n from rfl, wrapSz_sq hn]
  rfl

/-- Function `matrixMultiplyCacheFriendly` with an empty `B`: the only
statement that touches memory is `transpose(&result)`, which swaps the cells
of the fresh result block. -/
theorem matrixMultiplyCacheFriendly_emptyB_eq (h : Heap) (ba bb n : Nat) (hn : n < 2147483648) :
    matrixMultiplyCacheFriendly h (matrixAt ba n) (matrixAt bb 0) =
      some (matrixAt h.next n, h.alloc (transposeT n (h.fresh (n * n)))) := by
  have t := transpose_eq_at (h.alloc (h.fresh (n * n))) h.next n
    (by rw [alloc_blocks_same, fresh_length]; exact InB_sq n)
  rw [alloc_blocks_same, alloc_setBlock] at t
  unfold matrixMultiplyCacheFriendly
  simp only [malloc_eq]
  rw [show (matrixAt ba n).size = n from rfl, wrapSz_sq hn]
  have t0 : ∀ g : Heap, transpose g (matrixAt bb 0) = some g := fun _ => rfl
  rw [t0]
  simp only [Option.some_bind]
  rw [show (matrixAt bb 0).size = 0 from rfl]
  simp only [forLoop, Option.some_bind]
  rw [show ({ matrix := { blk := h.next, off := 0 }, size := n } : Matrix) = matrixAt h.next n
    from rfl, t]
  simp only [Option.some_bind]
  rw [t0]
  rfl

/-- C7, amended: the program has no dimension check and no `DimensionMismatch`
error. For matrices `A` and `B` of sizes `n ≠ m`, whatever
`matrixMultiplyNaive(A, B)` or `matrixMultiplyCacheFriendly(A, B)` returns is a
matrix of size `n` in the block the call allocated first. When `B` is empty
(`m = 0`, with `n < 2^31`) both do return and leave every block that existed
before the call unchanged: `matrixMultiplyNaive` returns the fresh block of
`n * n` cells as `malloc` left it, `matrixMultiplyCacheFriendly` returns it after
`transpose(&result)` has swapped its cells in place. -/
theorem size_mismatch (h : Heap) (A B : Matrix) (n m : Nat)
    (hA : IsMatrix h A n) (hB : IsMatrix h B m) (hne : n ≠ m) :
    (∀ R h', matrixMultiplyNaive h A B = some (R, h') → R = matrixAt h.next n) ∧
    (∀ R h', matrixMultiplyCacheFriendly h A B = some (R, h') → R = matrixAt h.next n) ∧
    (m = 0 → n < 2147483648 →
      (∃ h', matrixMultiplyNaive h A B = some (matrixAt h.next n, h') ∧
        buffer h' (matrixAt h.next n) = h.fresh (n * n) ∧
        ∀ b, b < h.next → h'.blocks b = h.blocks b) ∧
      (∃ h', matrixMultiplyCacheFriendly h A B = some (matrixAt h.next n, h') ∧
        buffer h' (matrixAt h.next n) = transposeT n (h.fresh (n * n)) ∧
        ∀ b, b < h.next → h'.blocks b = h.blocks b)) := by
  obtain ⟨hAs, hAo, hAb, hAl⟩ := hA
  obtain ⟨hBs, hBo, hBb, hBl⟩ := hB
  refine ⟨?_, ?_, ?_⟩
  · intro R h2 e
    rw [matrixMultiplyNaive_result h A B R h2 e, hAs]
    rfl
  · intro R h2 e
    rw [matrixMultiplyCacheFriendly_result h A B R h2 e, hAs]
    rfl
  · intro hm0 hn
    subst hm0
    rw [matrix_eq_matrixAt A n hAs hAo, matrix_eq_matrixAt B 0 hBs hBo]
    refine ⟨⟨_, matrixMultiplyNaive_emptyB_eq h _ _ n hn, ?_, ?_⟩,
      ⟨_, matrixMultiplyCacheFriendly_emptyB_eq h _ _ n hn, ?_, ?_⟩⟩
    · rw [buffer_matrixAt, alloc_blocks_same]
    · intro b hb
      exact alloc_blocks_lt _ _ hb
    · rw [buffer_matrixAt, alloc_blocks_same]
    · intro b hb
      exact alloc_blocks_lt _ _ hb

theorem size_mismatch_witness :
    IsMatrix (heapOf [[1, 2, 3, 4], []]) (matrixAt 0 2) 2 ∧
    IsMatrix (heapOf [[1, 2, 3, 4], []]) (matrixAt 1 0) 0 ∧
    (∀ R h', matrixMultiplyNaive (heapOf [[1, 2, 3, 4], []]) (matrixAt 0 2) (matrixAt 1 0)
        = some (R, h') → R = matrixAt (heapOf [[1, 2, 3, 4], []]).next 2) ∧
    (∀ R h', matrixMultiplyCacheFriendly (heapOf [[1, 2, 3, 4], []]) (matrixAt 0 2) (matrixAt 1 0)
        = some (R, h') → R = matrixAt (heapOf [[1, 2, 3, 4], []]).next 2) ∧
    (∃ h', matrixMultiplyNaive (heapOf [[1, 2, 3, 4], []]) (matrixAt 0 2) (matrixAt 1 0)
        = some (matrixAt (heapOf [[1, 2, 3, 4], []]).next 2, h') ∧
      buffer h' (matrixAt (heapOf [[1, 2, 3, 4], []]).next 2)
        = (heapOf [[1, 2, 3, 4], []]).fresh (2 * 2) ∧
      ∀ b, b < (heapOf [[1, 2, 3, 4], []]).next →
        h'.blocks b = (heapOf [[1, 2, 3, 4], []]).blocks b) ∧
    (∃ h', matrixMultiplyCacheFriendly (heapOf [[1, 2, 3, 4], []]) (matrixAt 0 2) (matrixAt 1 0)
        = some (matrixAt (heapOf [[1, 2, 3, 4], []]).next 2, h') ∧
      buffer h' (matrixAt (heapOf [[1, 2, 3, 4], []]).next 2)
        = transposeT 2 ((heapOf [[1, 2, 3, 4], []]).fresh (2 * 2)) ∧
      ∀ b, b < (heapOf [[1, 2, 3, 4], []]).next →
        h'.blocks b = (heapOf [[1, 2, 3, 4], []]).blocks b) :=
  ⟨⟨rfl, rfl, by decide, rfl⟩, ⟨rfl, rfl, by decide, rfl⟩,
    (size_mismatch (heapOf [[1, 2, 3, 4], []]) (matrixAt 0 2) (matrixAt 1 0) 2 0
      ⟨rfl, rfl, by decide, rfl⟩ ⟨rfl, rfl, by decide, rfl⟩ (by decide)).1,
    (size_mismatch (heapOf [[1, 2, 3, 4], []]) (matrixAt 0 2) (matrixAt 1 0) 2 0
      ⟨rfl, rfl, by decide, rfl⟩ ⟨rfl, rfl, by decide, rfl⟩ (by decide)).2.1,
    ((size_mismatch (heapOf [[1, 2, 3, 4], []]) (matrixAt 0 2) (matrixAt 1 0) 2 0
      ⟨rfl, rfl, by decide, rfl⟩ ⟨rfl, rfl, by decide, rfl⟩ (by decide)).2.2 rfl (by decide)).1,
    ((size_mismatch (heapOf [[1, 2, 3, 4], []]) (matrixAt 0 2) (matrixAt 1 0) 2 0
      ⟨rfl, rfl, by decide, rfl⟩ ⟨rfl, rfl, by decide, rfl⟩ (by decide)).2.2 rfl (by decide)).2⟩

/-- C7 as stated fails: with `A` of size 1 and an empty `B` the sizes differ,
yet both functions return a matrix of size 1 over the fresh block and report
no error. -/
theorem size_mismatch_counterexample :
    IsMatrix (heapOf [[7], []]) (matrixAt 0 1) 1 ∧
    IsMatrix (heapOf [[7], []]) (matrixAt 1 0) 0 ∧
    (matrixAt 0 1).size ≠ (matrixAt 1 0).size ∧
    (∃ R h', matrixMultiplyNaive (heapOf [[7], []]) (matrixAt 0 1) (matrixAt 1 0) = some (R, h') ∧
      R.size = 1 ∧ buffer h' R = [0]) ∧
    (∃ R h', matrixMultiplyCacheFriendly (heapOf [[7], []]) (matrixAt 0 1) (matrixAt 1 0)
        = some (R, h') ∧ R.size = 1 ∧ buffer h' R = [0]) :=
  ⟨⟨rfl, rfl, by decide, rfl⟩, ⟨rfl, rfl, by decide, rfl⟩, by decide,
    ⟨_, _, rfl, rfl, rfl⟩, ⟨_, _, rfl, rfl, rfl⟩⟩
/-! ## Size 65537: the value both products put at offset 65536 -/

/-- Size 65537: `transpose` leaves the cell at offset 65536 alone (it is swapped with itself). -/
theorem transposeT_65537_cell65536 (L : List Int) (hL : 131073 < L.length) :
    (transposeT 65537 L).getD 65536 0 = L.getD 65536 0 := by
  have e1 : transposeT 65537 L = iter (transposePass 65537) 65536 1 (transposePass 65537 0 L) :=
    iter_first (transposePass 65537) (by decide) 0 L
  have e2 : transposePass 65537 0 L
      = swapStep 65537 0 65536 (iter (swapStep 65537 0) 65536 0 L) := by
    unfold transposePass
    exact iter_last (swapStep 65537 0) (show 65537 - 0 = 65536 + 1 by decide) 0 L
  have e3 : ∀ M, swapStep 65537 0 65536 M = swapT M 65536 65536 := fun _ => rfl
  rw [e1, iter_transposePass_frame 65537 65536 65536 1 _
    (by
      intro i j a b c d
      rw [wrapU_65537 (show i < 65537 by omega), wrapU_65537 (show j < 65537 by omega)]
      split_ifs <;> omega),
    e2, e3, getD_swapT _ (by rw [iter_swapStep_length]; omega)
      (by rw [iter_swapStep_length]; omega), if_pos rfl]
  exact iter_swapStep_frame 65537 0 65536 65536 0 L
    (by
      intro j a b
      rw [wrapU_65537 (show j < 65537 by omega)]
      split_ifs <;> simp [wrapU] <;> omega)

/-- Size 65537: `transpose` puts into the cell at offset 131072, the place of
element `(1, 65535)`, what was at offset `65535 * 65537 + 1`, the place of
element `(65535, 1)`. -/
theorem transposeT_65537_cell131072 (L : List Int) (hL : 4294967296 < L.length) :
    (transposeT 65537 L).getD 131072 0 = L.getD 4294967296 0 := by
  have e1 : transposeT 65537 L
      = transposePass 65537 65536
          (iter (transposePass 65537) 65534 2
            (transposePass 65537 1 (transposePass 65537 0 L))) := by
    unfold transposeT
    rw [iter_last (transposePass 65537) (show 65537 = 65536 + 1 by decide) 0 L,
      iter_first (transposePass 65537) (show 65536 = 65535 + 1 by decide) 0 L,
      iter_first (transposePass 65537) (show 65535 = 65534 + 1 by decide) (0 + 1) _]
  have e2 : ∀ M, transposePass 65537 65536 M = swapT M 131072 131072 := fun _ => rfl
  have e3 : ∀ M, transposePass 65537 1 M
      = swapStep 65537 1 65536
          (swapStep 65537 1 65535 (iter (swapStep 65537 1) 65534 1 M)) := by
    intro M
    unfold transposePass
    rw [iter_last (swapStep 65537 1) (show 65537 - 1 = 65535 + 1 by decide) 1 M,
      iter_last (swapStep 65537 1) (show 65535 = 65534 + 1 by decide) 1 M]
  have e4 : ∀ M, swapStep 65537 1 65536 M = swapT M 131073 65537 := fun _ => rfl
  have e5 : ∀ M, swapStep 65537 1 65535 M = swapT M 131072 4294967296 := fun _ => rfl
  have len : ∀ M : List Int, (iter (swapStep 65537 1) 65534 1 (transposePass 65537 0 M)).length
      = M.length := by
    intro M
    rw [iter_swapStep_length, transposePass_length]
  rw [e1, e2, getD_swapT _
      (by rw [iter_transposePass_length, transposePass_length, transposePass_length]; omega)
      (by rw [iter_transposePass_length, transposePass_length, transposePass_length]; omega),
    if_pos rfl,
    iter_transposePass_frame 65537 65534 131072 2 _
      (by
        intro i j a b c d
        rw [wrapU_65537 (show i < 65537 by omega), wrapU_65537 (show j < 65537 by omega)]
        split_ifs <;> omega),
    e3, e4, getD_swapT_other _ _ _ _ (by decide) (by decide), e5,
    getD_swapT _ (by rw [len]; omega) (by rw [len]; omega), if_neg (by decide), if_pos rfl,
    iter_swapStep_frame 65537 1 65534 4294967296 1 _
      (by
        intro j a b
        rw [wrapU_65537 (show j < 65537 by omega)]
        split_ifs <;> simp [wrapU] <;> omega)]
  exact iter_swapStep_frame 65537 0 65537 4294967296 0 L
    (by
      intro j a b
      rw [wrapU_65537 (show j < 65537 by omega)]
      split_ifs <;> simp [wrapU] <;> omega)

/-- Size 65537: the last value `matrixMultiplyNaive` writes at offset 65536 is
cell 0 of the vector computed for column 65536. -/
theorem naiveT_65537_cell65536 (LA LB R : List Int) (hR : 65536 < R.length) :
    (naiveT 65537 LA LB R).getD 65536 0 = rowDot LA 0 (colT 65537 LB 65536) 0 65537 := by
  have e1 : naiveT 65537 LA LB R
      = naiveColT 65537 LA LB 65536 (iter (naiveColT 65537 LA LB) 65536 0 R) := by
    unfold naiveT
    exact iter_last (naiveColT 65537 LA LB) (show 65537 = 65536 + 1 by decide) 0 R
  have e2 : ∀ K, naiveColT 65537 LA LB 65536 K
      = iter (fun j M => M.set (wrapU (j * 65537) + 65536)
            ((mvT 65537 LA (colT 65537 LB 65536) 0).getD j 0)) 65536 1
          (K.set 65536 ((mvT 65537 LA (colT 65537 LB 65536) 0).getD 0 0)) := by
    intro K
    unfold naiveColT scatterT
    exact iter_first _ (show 65537 = 65536 + 1 by decide) 0 K
  rw [e1, e2, iter_set_frame (fun j => wrapU (j * 65537) + 65536) (fun j _ => _) 65536 65536 1 _
      (by
        intro j a b
        show 65536 ≠ wrapU (j * 65537) + 65536
        rw [wrapU_65537 (show j < 65537 by omega)]
        split_ifs <;> omega),
    getD_set, if_pos ⟨rfl, by
      rw [iter_length _ (fun _ _ => naiveColT_length _ _ _ _ _)]; exact hR⟩,
    getD_mvT _ _ _ _ (by decide)]
  rfl

/-- Size 65537: the last value the loop of `matrixMultiplyCacheFriendly` writes
at offset 65536 is cell 0 of the vector computed for row 65536, and the final
`transpose` leaves it there. -/
theorem cacheT_65537_cell65536 (LA LBt R : List Int) (hR : 131073 < R.length) :
    (cacheT 65537 LA LBt R).getD 65536 0 = rowDot LA 0 LBt 65536 65537 := by
  have e1 : iter (cacheRowT 65537 LA LBt) 65537 0 R
      = cacheRowT 65537 LA LBt 65536 (iter (cacheRowT 65537 LA LBt) 65536 0 R) :=
    iter_last (cacheRowT 65537 LA LBt) (show 65537 = 65536 + 1 by decide) 0 R
  have e2 : ∀ K, cacheRowT 65537 LA LBt 65536 K
      = iter (fun r M => M.set (65536 + r) ((mvT 65537 LA LBt 65536).getD r 0)) 65536 1
          (K.set 65536 ((mvT 65537 LA LBt 65536).getD 0 0)) := by
    intro K
    unfold cacheRowT copyT
    rw [show wrapU (65536 * 65537) = 65536 by decide]
    exact iter_first _ (show 65537 = 65536 + 1 by decide) 0 K
  have hlen : (iter (cacheRowT 65537 LA LBt) 65536 0 R).length = R.length :=
    iter_length _ (fun _ _ => cacheRowT_length _ _ _ _ _) _ _ _
  unfold cacheT
  rw [transposeT_65537_cell65536 _ (by
      rw [iter_length _ (fun _ _ => cacheRowT_length _ _ _ _ _)]; exact hR),
    e1, e2, iter_set_frame (fun r => 65536 + r) (fun r _ => _) 65536 65536 1 _
      (by intro j a b; show 65536 ≠ 65536 + j; omega),
    getD_set, if_pos ⟨rfl, by rw [hlen]; omega⟩, getD_mvT _ _ _ _ (by decide)]
  rfl

/-- A dot product with the row that is zero except for a one in cell 65536. -/
theorem rowDot_unit (V : List Int) (rv : Nat) :
    rowDot (bigZeros.set 65536 1) 0 V rv 65537 = wrapI (V.getD (rv + 65536) 0) := by
  unfold rowDot
  have s : ∑ k ∈ Finset.range 65537, (bigZeros.set 65536 1).getD (0 + k) 0 * V.getD (rv + k) 0
      = ∑ k ∈ Finset.range 65537, if k = 65536 then V.getD (rv + 65536) 0 else 0 := by
    apply Finset.sum_congr rfl
    intro k _
    rw [Nat.zero_add, getD_set, bigZeros_getD]
    by_cases c : k = 65536
    · subst c
      rw [if_pos rfl, if_pos ⟨rfl, by rw [bigZeros_length]; decide⟩, one_mul]
    · rw [if_neg c, if_neg (fun d => c d.1.symm), zero_mul]
  rw [s, Finset.sum_ite_eq' (Finset.range 65537) 65536 (fun _ => V.getD (rv + 65536) 0),
    if_pos (Finset.mem_range.mpr (by decide))]
theorem units_set_length (p : Nat) : (bigZeros.set p 1).length = 4295098369 := by
  rw [List.length_set, bigZeros_length]

/-- Size 65537, `A` zero except `A[0][65536] = 1`, `B` zero except
`B[1][65535] = 1`: `matrixMultiplyNaive` leaves `1` at offset 65536. -/
theorem naiveT_units (R : List Int) (hR : 65536 < R.length) :
    (naiveT 65537 (bigZeros.set 65536 1) (bigZeros.set 131072 1) R).getD 65536 0 = 1 := by
  rw [naiveT_65537_cell65536 _ _ _ hR, rowDot_unit, getD_colT _ _ _ (by decide),
    show wrapU (65536 * 65537) + 65536 = 131072 by decide, getD_set,
    if_pos ⟨rfl, by rw [bigZeros_length]; decide⟩]
  decide

/-- Size 65537, same matrices: `matrixMultiplyCacheFriendly` leaves `0` at offset 65536. -/
theorem cacheT_units (R : List Int) (hR : 131073 < R.length) :
    (cacheT 65537 (bigZeros.set 65536 1) (transposeT 65537 (bigZeros.set 131072 1)) R).getD
      65536 0 = 0 := by
  rw [cacheT_65537_cell65536 _ _ _ hR, rowDot_unit,
    transposeT_65537_cell131072 _ (by rw [units_set_length]; decide), getD_set,
    if_neg (fun d => absurd d.1 (by decide)), bigZeros_getD]
  decide

theorem heapUnits_block0 : heapUnits.blocks 0 = bigZeros.set 65536 1 := by
  unfold heapUnits; exact heapOf_blocks_zero _ _

theorem heapUnits_block1 : heapUnits.blocks 1 = bigZeros.set 131072 1 := by
  unfold heapUnits; exact heapOf_blocks_one _ _ _

theorem heapUnits_isMatrix0 : IsMatrix heapUnits (matrixAt 0 65537) 65537 :=
  isMatrix_at _ _ _ (by show 0 < 2; decide) (by rw [heapUnits_block0, units_set_length])

theorem heapUnits_isMatrix1 : IsMatrix heapUnits (matrixAt 1 65537) 65537 :=
  isMatrix_at _ _ _ (by show 1 < 2; decide) (by rw [heapUnits_block1, units_set_length])

theorem naive_units :
    matrixMultiplyNaive heapUnits (matrixAt 0 65537) (matrixAt 1 65537) =
      some (matrixAt heapUnits.next 65537,
        tempHeap (heapUnits.alloc (heapUnits.fresh (65537 * 65537))) heapUnits.next (2 * 65537)
          (naiveT 65537 (bigZeros.set 65536 1) (bigZeros.set 131072 1)
            (heapUnits.fresh (65537 * 65537)))) := by
  have e := naive_big heapUnits 0 1 (by show 0 < 2; decide) (by show 1 < 2; decide)
    (by rw [heapUnits_block0, units_set_length]) (by rw [heapUnits_block1, units_set_length])
  rw [heapUnits_block0, heapUnits_block1] at e
  exact e

theorem naive_units_entry :
    entry (tempHeap (heapUnits.alloc (heapUnits.fresh (65537 * 65537))) heapUnits.next (2 * 65537)
        (naiveT 65537 (bigZeros.set 65536 1) (bigZeros.set 131072 1)
          (heapUnits.fresh (65537 * 65537)))) (matrixAt heapUnits.next 65537) 0 65536 = some 1 := by
  rw [entry_at _ _ _ _ _ (by
      rw [tempHeap_blocks_rb, naiveT_length, fresh_length]
      decide),
    tempHeap_blocks_rb, show 0 * 65537 + 65536 = 65536 by decide,
    naiveT_units _ (by rw [fresh_length]; decide)]

/-- C1 as stated fails at size 65537. With `A` zero except `A[0][65536] = 1` and
`B` zero except `B[1][65535] = 1`, element `(0, 65536)` of the product is `0`,
but `matrixMultiplyNaive` returns `1` there: for column 65536 the offset
`65536 * 65537` of row 65536 of `B` wraps to `65536`, so `B[1][65535]` is read
in place of `B[65536][65536]`. -/
theorem matrixMultiplyNaive_counterexample :
    IsMatrix heapUnits (matrixAt 0 65537) 65537 ∧
    IsMatrix heapUnits (matrixAt 1 65537) 65537 ∧
    ∃ R h', matrixMultiplyNaive heapUnits (matrixAt 0 65537) (matrixAt 1 65537) = some (R, h') ∧
      entry h' R 0 65536 = some 1 ∧
      wrapI (∑ k ∈ Finset.range 65537,
        cell heapUnits (matrixAt 0 65537) 0 k * cell heapUnits (matrixAt 1 65537) k 65536) = 0 := by
  refine ⟨heapUnits_isMatrix0, heapUnits_isMatrix1, _, _, naive_units, naive_units_entry, ?_⟩
  rw [Finset.sum_eq_zero, wrapI_zero]
  intro k hk
  have hk2 : k < 65537 := Finset.mem_range.mp hk
  rw [cell_eq _ _ _ heapUnits_isMatrix0 0 k (by decide) hk2,
    cell_eq _ _ _ heapUnits_isMatrix1 k 65536 hk2 (by decide)]
  show (heapUnits.blocks 0).getD (0 * 65537 + k) 0 * (heapUnits.blocks 1).getD (k * 65537 + 65536) 0
    = 0
  have h2 : (bigZeros.set 131072 1).getD (k * 65537 + 65536) 0 = 0 := by
    rw [getD_set, if_neg (fun d => by omega), bigZeros_getD]
  rw [heapUnits_block0, heapUnits_block1, h2, mul_zero]

/-- C2 as stated fails at size 65537. With `A` zero except `A[0][65536] = 1` and
`B` zero except `B[1][65535] = 1`, and fresh blocks full of zeros, the two
functions disagree on element `(0, 65536)` of the result:
`matrixMultiplyNaive` returns `1` and `matrixMultiplyCacheFriendly` returns `0`. -/
theorem multiply_agree_counterexample :
    IsMatrix heapUnits (matrixAt 0 65537) 65537 ∧
    IsMatrix heapUnits (matrixAt 1 65537) 65537 ∧
    ∃ R1 h1 R2 h2,
      matrixMultiplyNaive heapUnits (matrixAt 0 65537) (matrixAt 1 65537) = some (R1, h1) ∧
      matrixMultiplyCacheFriendly heapUnits (matrixAt 0 65537) (matrixAt 1 65537) = some (R2, h2) ∧
      entry h1 R1 0 65536 = some 1 ∧ entry h2 R2 0 65536 = some 0 := by
  have e2 := cache_big heapUnits 0 1 (by show 0 < 2; decide) (by show 1 < 2; decide)
    (by rw [heapUnits_block0, units_set_length]) (by rw [heapUnits_block1, units_set_length])
  refine ⟨heapUnits_isMatrix0, heapUnits_isMatrix1, _, _, _, _, naive_units, e2,
    naive_units_entry, ?_⟩
  have hne : heapUnits.next ≠ 1 := by show 2 ≠ 1; decide
  rw [entry_at _ _ _ _ _ (by
      rw [setBlock_blocks_ne _ _ hne, tempHeap_blocks_rb, cacheT_length, fresh_length]
      decide),
    setBlock_blocks_ne _ _ hne, tempHeap_blocks_rb,
    setBlock_blocks_ne _ _ (show (0 : Nat) ≠ 1 by decide),
    alloc_blocks_lt _ _ (show 0 < heapUnits.next by show 0 < 2; decide),
    heapUnits_block0, heapUnits_block1, show 0 * 65537 + 65536 = 65536 by decide,
    cacheT_units _ (by rw [fresh_length]; decide)]
theorem naiveT_two (J : List Int) (hJ : J.length = 4) :
    naiveT 2 [1, 2, 3, 4] [5, 6, 7, 8] J = [19, 22, 43, 50] := by
  match J, hJ with
  | [a, b, c, d], _ => rfl

/-- C12: for matrices `A` and `B` of size 0, `matrixMultiplyNaive(A, B)` and
`matrixMultiplyCacheFriendly(A, B)` both return (no failure, no out-of-range
access) a matrix of size 0 over an empty buffer, and `transpose` of a size-0
matrix returns with the memory exactly as it was. -/
theorem size_zero (h : Heap) (A B : Matrix) (hA : A.size = 0) (hB : B.size = 0) :
    (∃ R h', matrixMultiplyNaive h A B = some (R, h') ∧ R.size = 0 ∧ buffer h' R = []) ∧
    (∃ R h', matrixMultiplyCacheFriendly h A B = some (R, h') ∧ R.size = 0 ∧
      buffer h' R = []) ∧
    transpose h A = some h := by
  obtain ⟨pa, sa⟩ := A
  obtain ⟨pb, sb⟩ := B
  simp only at hA hB
  subst hA hB
  have hb : (h.alloc (h.fresh 0)).blocks h.next = [] := by
    rw [alloc_blocks_same]; rfl
  refine ⟨⟨_, _, rfl, rfl, ?_⟩, ⟨_, _, rfl, rfl, ?_⟩, rfl⟩
  · unfold buffer
    simp only [malloc_eq]
    exact hb
  · unfold buffer
    simp only [malloc_eq]
    exact hb

theorem size_zero_witness :
    (∃ R h', matrixMultiplyNaive (heapOf [[], []]) (matrixAt 0 0) (matrixAt 1 0) = some (R, h') ∧
      R.size = 0 ∧ buffer h' R = []) ∧
    (∃ R h', matrixMultiplyCacheFriendly (heapOf [[], []]) (matrixAt 0 0) (matrixAt 1 0)
        = some (R, h') ∧ R.size = 0 ∧ buffer h' R = []) ∧
    transpose (heapOf [[], []]) (matrixAt 0 0) = some (heapOf [[], []]) :=
  size_zero (heapOf [[], []]) (matrixAt 0 0) (matrixAt 1 0) rfl rfl
theorem cacheT_two (J : List Int) (hJ : J.length = 4) :
    cacheT 2 [1, 2, 3, 4] (transposeT 2 [5, 6, 7, 8]) J = [19, 22, 43, 50] := by
  match J, hJ with
  | [a, b, c, d], _ => rfl

/-- C13: for `A = [[1,2],[3,4]]` and `B = [[5,6],[7,8]]`, stored row-major in
buffers `[1,2,3,4]` and `[5,6,7,8]` anywhere in memory, `matrixMultiplyNaive(A, B)`
and `matrixMultiplyCacheFriendly(A, B)` both return a matrix of size 2 whose
buffer is `[19,22,43,50]`, that is `[[19,22],[43,50]]`. -/
theorem product_two_by_two (h : Heap) (A B : Matrix) (hA : IsMatrix h A 2) (hB : IsMatrix h B 2)
    (bA : buffer h A = [1, 2, 3, 4]) (bB : buffer h B = [5, 6, 7, 8]) :
    (∃ R h', matrixMultiplyNaive h A B = some (R, h') ∧ R.size = 2 ∧
      buffer h' R = [19, 22, 43, 50]) ∧
    (∃ R h', matrixMultiplyCacheFriendly h A B = some (R, h') ∧ R.size = 2 ∧
      buffer h' R = [19, 22, 43, 50]) := by
  obtain ⟨hAs, hAo, hAb, hAl⟩ := hA
  obtain ⟨hBs, hBo, hBb, hBl⟩ := hB
  unfold buffer at bA bB
  have hd : A.matrix.blk ≠ B.matrix.blk := by
    intro e
    rw [e, bB] at bA
    exact absurd bA (by decide)
  have hin : InB 2 4 := InB_small (by decide)
  have e1 := matrixMultiplyNaive_eq h A.matrix.blk B.matrix.blk 2 (by decide) hAb hBb
    (by rw [hAl]; exact hin) (by rw [hBl]; exact hin) hin
  have e2 := matrixMultiplyCacheFriendly_eq h A.matrix.blk B.matrix.blk 2 (by decide) hAb hBb
    (by rw [hAl]; exact hin) (by rw [hBl]; exact hin) hin
  rw [← matrix_eq_matrixAt A 2 hAs hAo, ← matrix_eq_matrixAt B 2 hBs hBo] at e1 e2
  refine ⟨⟨_, _, e1, rfl, ?_⟩, ⟨_, _, e2, rfl, ?_⟩⟩
  · rw [buffer_matrixAt, tempHeap_blocks_rb, bA, bB]
    exact naiveT_two _ (fresh_length _ _)
  · rw [buffer_matrixAt, setBlock_blocks_ne _ _ (show h.next ≠ B.matrix.blk by omega),
      tempHeap_blocks_rb, setBlock_blocks_ne _ _ hd, alloc_blocks_lt _ _ hAb, bA, bB]
    exact cacheT_two _ (fresh_length _ _)

theorem product_two_by_two_witness :
    IsMatrix (heapOf [[1, 2, 3, 4], [5, 6, 7, 8]]) (matrixAt 0 2) 2 ∧
    IsMatrix (heapOf [[1, 2, 3, 4], [5, 6, 7, 8]]) (matrixAt 1 2) 2 ∧
    (∃ R h', matrixMultiplyNaive (heapOf [[1, 2, 3, 4], [5, 6, 7, 8]]) (matrixAt 0 2) (matrixAt 1 2)
        = some (R, h') ∧ R.size = 2 ∧ buffer h' R = [19, 22, 43, 50]) ∧
    (∃ R h', matrixMultiplyCacheFriendly (heapOf [[1, 2, 3, 4], [5, 6, 7, 8]]) (matrixAt 0 2)
        (matrixAt 1 2) = some (R, h') ∧ R.size = 2 ∧ buffer h' R = [19, 22, 43, 50]) :=
  ⟨⟨rfl, rfl, by decide, rfl⟩, ⟨rfl, rfl, by decide, rfl⟩,
    product_two_by_two (heapOf [[1, 2, 3, 4], [5, 6, 7, 8]]) (matrixAt 0 2) (matrixAt 1 2)
      ⟨rfl, rfl, by decide, rfl⟩ ⟨rfl, rfl, by decide, rfl⟩ rfl rfl⟩
/-- Function `matrixMultiplyCacheFriendly` with one buffer passed as both
arguments: `A` is read after `transpose(&B)` has transposed the shared buffer,
so element `(r, c)` of the result is the sum over `k` of `M[k][r] * M[k][c]`. -/
theorem cache_aliased (h : Heap) (M : Matrix) (n : Nat) (hn : n ≤ 65536) (hM : IsMatrix h M n) :
    ∃ R h', matrixMultiplyCacheFriendly h M M = some (R, h') ∧ IsMatrix h' R n ∧
      ∀ r c, r < n → c < n →
        entry h' R r c = some (wrapI (∑ k ∈ Finset.range n, cell h M k r * cell h M k c)) := by
  have hM2 := hM
  obtain ⟨hs, ho, hb, hl⟩ := hM
  have e := matrixMultiplyCacheFriendly_eq h M.matrix.blk M.matrix.blk n (by omega) hb hb
    (by rw [hl]; exact InB_small hn) (by rw [hl]; exact InB_small hn) (InB_small hn)
  rw [← matrix_eq_matrixAt M n hs ho, setBlock_blocks_same] at e
  have hne : h.next ≠ M.matrix.blk := by omega
  have hR : IsMatrix
      ((tempHeap ((h.alloc (h.fresh (n * n))).setBlock M.matrix.blk
          (transposeT n (h.blocks M.matrix.blk))) h.next n
        (cacheT n (transposeT n (h.blocks M.matrix.blk)) (transposeT n (h.blocks M.matrix.blk))
          (h.fresh (n * n)))).setBlock M.matrix.blk
        (transposeT n (transposeT n (h.blocks M.matrix.blk))))
      (matrixAt h.next n) n :=
    isMatrix_at _ _ _ (by rw [setBlock_next, tempHeap_next, setBlock_next, alloc_next]; omega)
      (by rw [setBlock_blocks_ne _ _ hne, tempHeap_blocks_rb, cacheT_length, fresh_length])
  refine ⟨_, _, e, hR, ?_⟩
  intro r c hr hc
  rw [entry_eq _ _ n hR r c hr hc]
  show some (((tempHeap _ h.next _ _).setBlock M.matrix.blk _).blocks h.next |>.getD (r * n + c) 0)
    = _
  rw [setBlock_blocks_ne _ _ hne, tempHeap_blocks_rb,
    cacheT_exact hn _ _ _ (fresh_length _ _) r c hr hc]
  congr 2
  apply Finset.sum_congr rfl
  intro k hk
  have hk2 : k < n := Finset.mem_range.mp hk
  rw [transposeT_exact hn _ hl r k hr hk2, transposeT_exact hn _ hl c k hc hk2,
    cell_eq h M n hM2 k r hk2 hr, cell_eq h M n hM2 k c hk2 hc]

/-- C16 fails on the code: with `M = [[1,2],[3,4]]` passed as both arguments,
`matrixMultiplyCacheFriendly(M, M)` returns `[[10,14],[14,20]]`, the product of
the transpose of `M` with `M`, whereas `matrixMultiplyNaive(M, M)` returns
`M x M = [[7,10],[15,22]]`. -/
theorem aliased_product :
    (∃ R h', matrixMultiplyCacheFriendly (heapOf [[1, 2, 3, 4]]) (matrixAt 0 2) (matrixAt 0 2)
        = some (R, h') ∧ R.size = 2 ∧ buffer h' R = [10, 14, 14, 20]) ∧
    (∃ R h', matrixMultiplyNaive (heapOf [[1, 2, 3, 4]]) (matrixAt 0 2) (matrixAt 0 2)
        = some (R, h') ∧ R.size = 2 ∧ buffer h' R = [7, 10, 15, 22]) :=
  ⟨⟨_, _, rfl, rfl, rfl⟩, ⟨_, _, rfl, rfl, rfl⟩⟩
/-- When the cell count `SIZE * SIZE` (as `unsigned int`) does not exceed `2^31`,
`createRandMatrix` succeeds and fills the fresh buffer with `randT`. -/
theorem createRandMatrix_eq (rand : Nat → Int) (h : Heap) (n : Nat)
    (hc : wrapU (n * n) ≤ 2147483648) :
    createRandMatrix rand h n =
      some (matrixAt h.next n, h.alloc (randT rand (wrapU (n * n)))) := by
  unfold createRandMatrix randT
  simp only [malloc_eq]
  rw [wrapSz_mul4 (by omega)]
  have key := forLoop_sim
    (fun i hi => store hi (Ptr.add { blk := h.next, off := 0 } (asInt i)) (Int.tmod (rand i) 10))
    (fun i (L : List Int) => L.set i (Int.tmod (rand i) 10))
    (fun _ L => h.alloc L) (fun _ L => L.length = wrapU (n * n)) (wrapU (n * n)) 0
    (h.fresh (wrapU (n * n))) (fresh_length _ _)
    (by
      intro i K _ hi hK
      dsimp only
      rw [asInt_of_lt (by omega), ptr_add_nat, store_alloc h K _ (by rw [hK]; omega)]
      exact ⟨rfl, by rw [List.length_set]; exact hK⟩)
  dsimp only at key
  rw [key.1, iter_set_eq_map _ _ _ (fresh_length _ _)]
  rfl

/-- When the cell count `SIZE * SIZE` (as `unsigned int`) exceeds `2^31`, the
counter `int i` of `createRandMatrix` passes `INT_MAX` and the write at offset
`-2^31` leaves the block. -/
theorem createRandMatrix_none (rand : Nat → Int) (h : Heap) (n : Nat)
    (hc : 2147483648 < wrapU (n * n)) : createRandMatrix rand h n = none := by
  unfold createRandMatrix
  simp only [malloc_eq]
  rw [forLoop_eq_none _ _ 0 _ 2147483648 (by omega) (by omega)]
  · rfl
  · intro t
    have e : asInt 2147483648 = -2147483648 := by decide
    rw [e]
    simp [store, writeAt, Ptr.add]

theorem getD_randT (rand : Nat → Int) (count : Nat) {p : Nat} (hp : p < count) :
    (randT rand count).getD p 0 = Int.tmod (rand p) 10 := by
  simp [randT, List.getD_eq_getElem?_getD, List.getElem?_map, List.getElem?_range hp]

theorem randT_length (rand : Nat → Int) (count : Nat) : (randT rand count).length = count := by
  simp [randT]

theorem sq_46340 {n : Nat} (hn : n ≤ 46340) : wrapU (n * n) = n * n ∧ n * n ≤ 2147483648 := by
  have h1 : n * n ≤ 46340 * 46340 := Nat.mul_le_mul hn hn
  exact ⟨wrapU_of_lt (by omega), by omega⟩
/-- For a non-negative `int`, the C remainder `x % 10` lies in `[0, 10)`. -/
theorem tmod_range (x : Int) (hx : 0 ≤ x) : 0 ≤ Int.tmod x 10 ∧ Int.tmod x 10 < 10 := by
  rw [Int.tmod_eq_emod hx (by decide)]
  omega

/-- C14, amended: for every size `n ≤ 46340` (so that `n * n` does not exceed
`2^31`) and every sequence of non-negative values returned by the
pseudo-random source, `createRandMatrix(n)` returns a matrix of size `n` over a
fresh buffer of `n * n` cells in which element `(r, c)` is `rand() % 10` of the
value of call `r * n + c`, and so satisfies `0 <= v < 10`. -/
theorem createRandMatrix_range (rand : Nat → Int) (h : Heap) (n : Nat) (hn : n ≤ 46340)
    (hrand : ∀ i, 0 ≤ rand i) :
    ∃ M h', createRandMatrix rand h n = some (M, h') ∧ M.size = n ∧ IsMatrix h' M n ∧
      ∀ r c, r < n → c < n →
        ∃ v, entry h' M r c = some v ∧ v = Int.tmod (rand (r * n + c)) 10 ∧ 0 ≤ v ∧ v < 10 := by
  obtain ⟨e1, e2⟩ := sq_46340 hn
  have e := createRandMatrix_eq rand h n (by rw [e1]; exact e2)
  rw [e1] at e
  have hM : IsMatrix (h.alloc (randT rand (n * n))) (matrixAt h.next n) n :=
    isMatrix_at _ _ _ (by rw [alloc_next]; omega) (by rw [alloc_blocks_same, randT_length])
  refine ⟨_, _, e, rfl, hM, ?_⟩
  intro r c hr hc
  refine ⟨_, entry_eq _ _ n hM r c hr hc, ?_, ?_, ?_⟩
  · show ((h.alloc (randT rand (n * n))).blocks h.next).getD (r * n + c) 0 = _
    rw [alloc_blocks_same, getD_randT _ _ (idx_lt hr hc)]
  · show 0 ≤ ((h.alloc (randT rand (n * n))).blocks h.next).getD (r * n + c) 0
    rw [alloc_blocks_same, getD_randT _ _ (idx_lt hr hc)]
    exact (tmod_range _ (hrand _)).1
  · show ((h.alloc (randT rand (n * n))).blocks h.next).getD (r * n + c) 0 < 10
    rw [alloc_blocks_same, getD_randT _ _ (idx_lt hr hc)]
    exact (tmod_range _ (hrand _)).2

theorem createRandMatrix_range_witness :
    (∀ i : Nat, (0 : Int) ≤ (fun k => (17 * k + 3 : Int)) i) ∧
    ∃ M h', createRandMatrix (fun k => (17 * k + 3 : Int)) (heapOf []) 2 = some (M, h') ∧
      M.size = 2 ∧ IsMatrix h' M 2 ∧
      ∀ r c, r < 2 → c < 2 →
        ∃ v, entry h' M r c = some v ∧
          v = Int.tmod ((fun k => (17 * k + 3 : Int)) (r * 2 + c)) 10 ∧ 0 ≤ v ∧ v < 10 :=
  ⟨fun i => by show (0 : Int) ≤ 17 * (i : Int) + 3; omega,
    createRandMatrix_range (fun k => (17 * k + 3 : Int)) (heapOf []) 2 (by decide)
      (fun i => by show (0 : Int) ≤ 17 * (i : Int) + 3; omega)⟩

/-- C14 as stated fails: with a pseudo-random source that only returns
non-negative values, `createRandMatrix(46341)` returns no matrix (the counter
`int i` overflows before `46341 * 46341` cells are written), and
`createRandMatrix(65536)` returns a matrix of size 65536 that has no element
`(0, 0)`: its buffer was allocated with `65536 * 65536 = 0` bytes. -/
theorem createRandMatrix_counterexample :
    (∀ i : Nat, (0 : Int) ≤ (fun _ => (3 : Int)) i) ∧
    createRandMatrix (fun _ => 3) (heapOf []) 46341 = none ∧
    ∃ M h', createRandMatrix (fun _ => 3) (heapOf []) 65536 = some (M, h') ∧
      M.size = 65536 ∧ entry h' M 0 0 = none := by
  refine ⟨fun _ => by show (0 : Int) ≤ 3; decide, createRandMatrix_none _ _ _ (by decide), ?_⟩
  have e := createRandMatrix_eq (fun _ => 3) (heapOf []) 65536 (by decide)
  rw [show wrapU (65536 * 65536) = 0 by decide] at e
  exact ⟨_, _, e, rfl, rfl⟩
/-- C11, amended: the invariant "the buffer holds exactly `size * size` cells"
holds for the matrix that `createRandMatrix(n)` returns when `n ≤ 46340`, for
the matrix that `createIdentityMatrix(n)` returns when `n ≤ 65535`, and for the
matrices that `matrixMultiplyNaive` and `matrixMultiplyCacheFriendly` return on
inputs of equal size `n < 2^31` that satisfy it; `transpose` succeeds on and
preserves it for every matrix of a size representable as `unsigned int`. -/
theorem buffer_invariant (rand : Nat → Int) (h : Heap) (A B : Matrix) (n : Nat) :
    (n ≤ 46340 → ∃ M h', createRandMatrix rand h n = some (M, h') ∧ IsMatrix h' M n) ∧
    (n ≤ 65535 → ∃ M h', createIdentityMatrix h n = some (M, h') ∧ IsMatrix h' M n) ∧
    (n < 2147483648 → IsMatrix h A n → IsMatrix h B n →
      (∃ R h', matrixMultiplyNaive h A B = some (R, h') ∧ IsMatrix h' R n) ∧
      (∃ R h', matrixMultiplyCacheFriendly h A B = some (R, h') ∧ IsMatrix h' R n)) ∧
    (n < 4294967296 → IsMatrix h A n → ∃ h', transpose h A = some h' ∧ IsMatrix h' A n) := by
  refine ⟨?_, ?_, ?_, ?_⟩
  · intro hn
    obtain ⟨e1, e2⟩ := sq_46340 hn
    have e := createRandMatrix_eq rand h n (by rw [e1]; exact e2)
    rw [e1] at e
    exact ⟨_, _, e, isMatrix_at _ _ _ (by rw [alloc_next]; omega)
      (by rw [alloc_blocks_same, randT_length])⟩
  · intro hn
    exact ⟨_, _, createIdentityMatrix_eq h n (by omega) (identity_inB hn),
      isMatrix_at _ _ _ (by rw [alloc_next]; omega)
        (by rw [alloc_blocks_same]; exact (identityT_spec hn).1)⟩
  · intro hn hA hB
    obtain ⟨hAs, hAo, hAb, hAl⟩ := hA
    obtain ⟨hBs, hBo, hBb, hBl⟩ := hB
    have e1 := matrixMultiplyNaive_eq h A.matrix.blk B.matrix.blk n hn hAb hBb
      (by rw [hAl]; exact InB_sq n) (by rw [hBl]; exact InB_sq n) (InB_sq n)
    have e2 := matrixMultiplyCacheFriendly_eq h A.matrix.blk B.matrix.blk n hn hAb hBb
      (by rw [hAl]; exact InB_sq n) (by rw [hBl]; exact InB_sq n) (InB_sq n)
    rw [← matrix_eq_matrixAt A n hAs hAo, ← matrix_eq_matrixAt B n hBs hBo] at e1 e2
    refine ⟨⟨_, _, e1, ?_⟩, ⟨_, _, e2, ?_⟩⟩
    · exact isMatrix_at _ _ _ (by rw [tempHeap_next, alloc_next]; omega)
        (by rw [tempHeap_blocks_rb, naiveT_length, fresh_length])
    · exact isMatrix_at _ _ _
        (by rw [setBlock_next, tempHeap_next, setBlock_next, alloc_next]; omega)
        (by rw [setBlock_blocks_ne _ _ (show h.next ≠ B.matrix.blk by omega), tempHeap_blocks_rb,
          cacheT_length, fresh_length])
  · intro _ hA
    have hA2 := hA
    obtain ⟨hs, ho, hb, hl⟩ := hA
    refine ⟨_, transpose_eq h A ho (by rw [hs, hl]; exact InB_sq n), ?_⟩
    exact isMatrix_setBlock h A n hA2 _ (by rw [hs, transposeT_length, hl])

theorem buffer_invariant_witness :
    (∃ M h', createRandMatrix (fun _ => 7) (heapOf [[1, 2, 3, 4], [5, 6, 7, 8]]) 2 = some (M, h') ∧
      IsMatrix h' M 2) ∧
    (∃ M h', createIdentityMatrix (heapOf [[1, 2, 3, 4], [5, 6, 7, 8]]) 2 = some (M, h') ∧
      IsMatrix h' M 2) ∧
    ((∃ R h', matrixMultiplyNaive (heapOf [[1, 2, 3, 4], [5, 6, 7, 8]]) (matrixAt 0 2)
        (matrixAt 1 2) = some (R, h') ∧ IsMatrix h' R 2) ∧
      (∃ R h', matrixMultiplyCacheFriendly (heapOf [[1, 2, 3, 4], [5, 6, 7, 8]]) (matrixAt 0 2)
        (matrixAt 1 2) = some (R, h') ∧ IsMatrix h' R 2)) ∧
    (∃ h', transpose (heapOf [[1, 2, 3, 4], [5, 6, 7, 8]]) (matrixAt 0 2) = some h' ∧
      IsMatrix h' (matrixAt 0 2) 2) :=
  ⟨(buffer_invariant (fun _ => 7) (heapOf [[1, 2, 3, 4], [5, 6, 7, 8]]) (matrixAt 0 2)
      (matrixAt 1 2) 2).1 (by decide),
    (buffer_invariant (fun _ => 7) (heapOf [[1, 2, 3, 4], [5, 6, 7, 8]]) (matrixAt 0 2)
      (matrixAt 1 2) 2).2.1 (by decide),
    (buffer_invariant (fun _ => 7) (heapOf [[1, 2, 3, 4], [5, 6, 7, 8]]) (matrixAt 0 2)
      (matrixAt 1 2) 2).2.2.1 (by decide) ⟨rfl, rfl, by decide, rfl⟩ ⟨rfl, rfl, by decide, rfl⟩,
    (buffer_invariant (fun _ => 7) (heapOf [[1, 2, 3, 4], [5, 6, 7, 8]]) (matrixAt 0 2)
      (matrixAt 1 2) 2).2.2.2 (by decide) ⟨rfl, rfl, by decide, rfl⟩⟩

/-- C11 as stated fails: `createRandMatrix(65536)` returns a matrix of size
65536 whose buffer holds no cell at all (`SIZE * SIZE` is `0` as `unsigned int`),
`createIdentityMatrix(65536)` returns no matrix, and `createRandMatrix(46341)`
returns no matrix either. -/
theorem buffer_invariant_counterexample :
    (∃ M h', createRandMatrix (fun _ => 7) (heapOf []) 65536 = some (M, h') ∧
      M.size = 65536 ∧ buffer h' M = [] ∧ ¬ IsMatrix h' M 65536) ∧
    createIdentityMatrix (heapOf []) 65536 = none ∧
    createRandMatrix (fun _ => 7) (heapOf []) 46341 = none := by
  refine ⟨?_, createIdentityMatrix_65536 _, createRandMatrix_none _ _ _ (by decide)⟩
  have e := createRandMatrix_eq (fun _ => 7) (heapOf []) 65536 (by decide)
  rw [show wrapU (65536 * 65536) = 0 by decide] at e
  refine ⟨_, _, e, rfl, rfl, ?_⟩
  intro hM
  exact absurd hM.2.2.2 (by decide)
/-- Products of values in `[0, 10)` add up to at most `81` per term. -/
theorem sum_range_bounds (x y : Nat → Int) (m : Nat)
    (hx : ∀ i, i < m → 0 ≤ x i ∧ x i < 10) (hy : ∀ i, i < m → 0 ≤ y i ∧ y i < 10) :
    0 ≤ ∑ i ∈ Finset.range m, x i * y i ∧ ∑ i ∈ Finset.range m, x i * y i ≤ 81 * (m : Int) := by
  induction m with
  | zero => simp
  | succ m ih =>
    obtain ⟨i1, i2⟩ := ih (fun i hi => hx i (by omega)) (fun i hi => hy i (by omega))
    obtain ⟨x1, x2⟩ := hx m (by omega)
    obtain ⟨y1, y2⟩ := hy m (by omega)
    have p1 : 0 ≤ x m * y m := mul_nonneg x1 y1
    have p2 : x m * y m ≤ 9 * 9 := mul_le_mul (by omega) (by omega) y1 (by decide)
    rw [Finset.sum_range_succ]
    push_cast
    constructor <;> omega

theorem mem_range_of_isMatrix (h : Heap) (M : Matrix) (n : Nat) (hM : IsMatrix h M n)
    (hrange : ∀ x ∈ buffer h M, 0 ≤ x ∧ x < 10) (r c : Nat) (hr : r < n) (hc : c < n) :
    0 ≤ cell h M r c ∧ cell h M r c < 10 := by
  rw [cell_eq h M n hM r c hr hc]
  have hl : r * n + c < (h.blocks M.matrix.blk).length := by
    rw [hM.2.2.2]; exact idx_lt hr hc
  rw [List.getD_eq_getElem _ _ hl]
  exact hrange _ (List.getElem_mem hl)

/-- C17, amended: for square matrices `A` and `B` of equal size `n ≤ 65536`
whose elements all lie in `[0, 10)`, every element of `matrixMultiplyNaive(A, B)`
equals the exact, unbounded-integer sum over `k` of `A[r][k] * B[k][c]` and lies
in `[0, 81 * n]`; and for arrays of any length `len ≤ 26512143` with elements in
`[0, 10)`, no accumulation in `dotProduct` overflows: every running sum lies in
`[0, 81 * m]`, inside the range of `int`, and the value returned is the exact sum. -/
theorem no_overflow (h : Heap) (A B : Matrix) (n : Nat) (hn : n ≤ 65536)
    (hA : IsMatrix h A n) (hB : IsMatrix h B n)
    (rA : ∀ x ∈ buffer h A, 0 ≤ x ∧ x < 10) (rB : ∀ x ∈ buffer h B, 0 ≤ x ∧ x < 10) :
    (∃ R h', matrixMultiplyNaive h A B = some (R, h') ∧ R.size = n ∧
      ∀ r c, r < n → c < n →
        entry h' R r c = some (∑ k ∈ Finset.range n, cell h A r k * cell h B k c) ∧
        0 ≤ ∑ k ∈ Finset.range n, cell h A r k * cell h B k c ∧
        ∑ k ∈ Finset.range n, cell h A r k * cell h B k c ≤ 81 * (n : Int)) ∧
    (∀ (a b : Ptr) (len : Nat) (x y : Nat → Int), len ≤ 26512143 →
      (∀ i, i < len → load h (a.add (i : Int)) = some (x i) ∧ 0 ≤ x i ∧ x i < 10) →
      (∀ i, i < len → load h (b.add (i : Int)) = some (y i) ∧ 0 ≤ y i ∧ y i < 10) →
      dotProduct h a b len = some (∑ i ∈ Finset.range len, x i * y i) ∧
      ∀ m, m ≤ len → 0 ≤ ∑ i ∈ Finset.range m, x i * y i ∧
        ∑ i ∈ Finset.range m, x i * y i ≤ 81 * (m : Int) ∧
        IsInt (∑ i ∈ Finset.range m, x i * y i)) := by
  constructor
  · obtain ⟨R, h1, e, hR, hv, _⟩ := naive_entries h A B n hn hA hB
    refine ⟨R, h1, e, hR.1, ?_⟩
    intro r c hr hc
    obtain ⟨s1, s2⟩ := sum_range_bounds (fun k => cell h A r k) (fun k => cell h B k c) n
      (fun k hk => mem_range_of_isMatrix h A n hA rA r k hr hk)
      (fun k hk => mem_range_of_isMatrix h B n hB rB k c hk hc)
    refine ⟨?_, s1, s2⟩
    rw [hv r c hr hc, wrapI_of_isInt]
    unfold IsInt
    constructor <;> omega
  · intro a b len x y hlen ha hb
    have bounds : ∀ m, m ≤ len → 0 ≤ ∑ i ∈ Finset.range m, x i * y i ∧
        ∑ i ∈ Finset.range m, x i * y i ≤ 81 * (m : Int) ∧
        IsInt (∑ i ∈ Finset.range m, x i * y i) := by
      intro m hm
      obtain ⟨s1, s2⟩ := sum_range_bounds x y m (fun i hi => (ha i (by omega)).2)
        (fun i hi => (hb i (by omega)).2)
      refine ⟨s1, s2, ?_⟩
      unfold IsInt
      constructor <;> omega
    refine ⟨?_, bounds⟩
    rw [dotProduct_eq h a b len x y (by omega) (fun i hi => (ha i hi).1) (fun i hi => (hb i hi).1),
      wrapI_of_isInt (bounds len (le_refl _)).2.2]
theorem no_overflow_witness :
    (∃ R h', matrixMultiplyNaive (heapOf [[1, 2, 3, 4], [5, 6, 7, 8]]) (matrixAt 0 2)
        (matrixAt 1 2) = some (R, h') ∧ R.size = 2 ∧
      ∀ r c, r < 2 → c < 2 →
        entry h' R r c = some (∑ k ∈ Finset.range 2,
          cell (heapOf [[1, 2, 3, 4], [5, 6, 7, 8]]) (matrixAt 0 2) r k *
            cell (heapOf [[1, 2, 3, 4], [5, 6, 7, 8]]) (matrixAt 1 2) k c) ∧
        0 ≤ ∑ k ∈ Finset.range 2,
          cell (heapOf [[1, 2, 3, 4], [5, 6, 7, 8]]) (matrixAt 0 2) r k *
            cell (heapOf [[1, 2, 3, 4], [5, 6, 7, 8]]) (matrixAt 1 2) k c ∧
        ∑ k ∈ Finset.range 2,
          cell (heapOf [[1, 2, 3, 4], [5, 6, 7, 8]]) (matrixAt 0 2) r k *
            cell (heapOf [[1, 2, 3, 4], [5, 6, 7, 8]]) (matrixAt 1 2) k c
              ≤ 81 * ((2 : Nat) : Int)) ∧
    (dotProduct (heapOf [[1, 2, 3, 4], [5, 6, 7, 8]]) ⟨0, 0⟩ ⟨1, 0⟩ 4 =
        some (∑ i ∈ Finset.range 4,
          ([1, 2, 3, 4] : List Int).getD i 0 * ([5, 6, 7, 8] : List Int).getD i 0) ∧
      ∀ m, m ≤ 4 →
        0 ≤ ∑ i ∈ Finset.range m,
          ([1, 2, 3, 4] : List Int).getD i 0 * ([5, 6, 7, 8] : List Int).getD i 0 ∧
        ∑ i ∈ Finset.range m,
          ([1, 2, 3, 4] : List Int).getD i 0 * ([5, 6, 7, 8] : List Int).getD i 0
            ≤ 81 * (m : Int) ∧
        IsInt (∑ i ∈ Finset.range m,
          ([1, 2, 3, 4] : List Int).getD i 0 * ([5, 6, 7, 8] : List Int).getD i 0)) :=
  ⟨(no_overflow (heapOf [[1, 2, 3, 4], [5, 6, 7, 8]]) (matrixAt 0 2) (matrixAt 1 2) 2 (by decide)
      ⟨rfl, rfl, by decide, rfl⟩ ⟨rfl, rfl, by decide, rfl⟩ (by decide) (by decide)).1,
    (no_overflow (heapOf [[1, 2, 3, 4], [5, 6, 7, 8]]) (matrixAt 0 2) (matrixAt 1 2) 2 (by decide)
      ⟨rfl, rfl, by decide, rfl⟩ ⟨rfl, rfl, by decide, rfl⟩ (by decide) (by decide)).2
      ⟨0, 0⟩ ⟨1, 0⟩ 4 (fun i => [1, 2, 3, 4].getD i 0) (fun i => [5, 6, 7, 8].getD i 0)
      (by decide) (by decide) (by decide)⟩

theorem units_in_range (p : Nat) : ∀ x ∈ bigZeros.set p 1, (0 : Int) ≤ x ∧ x < 10 := by
  intro x hx
  rcases List.mem_or_eq_of_mem_set hx with h1 | h1
  · have : x = 0 := List.eq_of_mem_replicate h1
    subst this
    decide
  · subst h1
    decide

theorem units_sum_zero :
    ∑ k ∈ Finset.range 65537,
      cell heapUnits (matrixAt 0 65537) 0 k * cell heapUnits (matrixAt 1 65537) k 65536 = 0 := by
  apply Finset.sum_eq_zero
  intro k hk
  have hk2 : k < 65537 := Finset.mem_range.mp hk
  rw [cell_eq _ _ _ heapUnits_isMatrix0 0 k (by decide) hk2,
    cell_eq _ _ _ heapUnits_isMatrix1 k 65536 hk2 (by decide)]
  show (heapUnits.blocks 0).getD (0 * 65537 + k) 0 * (heapUnits.blocks 1).getD (k * 65537 + 65536) 0
    = 0
  have h2 : (bigZeros.set 131072 1).getD (k * 65537 + 65536) 0 = 0 := by
    rw [getD_set, if_neg (fun d => by omega), bigZeros_getD]
  rw [heapUnits_block0, heapUnits_block1, h2, mul_zero]

/-- C17 as stated fails at size `65537 ≤ 26512143`. With `A` zero except
`A[0][65536] = 1` and `B` zero except `B[1][65535] = 1`, all elements lie in
`[0, 10)` and the exact sum for element `(0, 65536)` is `0`, but
`matrixMultiplyNaive` returns `1` there: the offset `65536 * 65537` wraps
around as `unsigned int`. -/
theorem no_overflow_counterexample :
    (65537 : Nat) ≤ 26512143 ∧
    IsMatrix heapUnits (matrixAt 0 65537) 65537 ∧
    IsMatrix heapUnits (matrixAt 1 65537) 65537 ∧
    (∀ x ∈ buffer heapUnits (matrixAt 0 65537), 0 ≤ x ∧ x < 10) ∧
    (∀ x ∈ buffer heapUnits (matrixAt 1 65537), 0 ≤ x ∧ x < 10) ∧
    ∃ R h', matrixMultiplyNaive heapUnits (matrixAt 0 65537) (matrixAt 1 65537) = some (R, h') ∧
      entry h' R 0 65536 = some 1 ∧
      ∑ k ∈ Finset.range 65537,
        cell heapUnits (matrixAt 0 65537) 0 k * cell heapUnits (matrixAt 1 65537) k 65536 = 0 := by
  refine ⟨by decide, heapUnits_isMatrix0, heapUnits_isMatrix1, ?_, ?_, _, _, naive_units,
    naive_units_entry, units_sum_zero⟩
  · rw [buffer_matrixAt, heapUnits_block0]
    exact units_in_range _
  · rw [buffer_matrixAt, heapUnits_block1]
    exact units_in_range _
/-- The rows that the loop of `matrixMultiplyCacheFriendly` writes: below the
wrap-around threshold, cell `(a, b)` holds the dot product of row `b` of `A`
and row `a` of the transposed `B`. -/
theorem cacheRows_exact {n : Nat} (hn : n ≤ 65536) (LA LBt R : List Int) (hR : R.length = n * n)
    (a b : Nat) (ha : a < n) (hb : b < n) :
    (iter (cacheRowT n LA LBt) n 0 R).getD (a * n + b) 0 =
      wrapI (∑ k ∈ Finset.range n, LA.getD (b * n + k) 0 * LBt.getD (a * n + k) 0) := by
  have hl : (iter (cacheRowT n LA LBt) n 0 R).length = n * n := by
    rw [iter_length _ (fun _ _ => cacheRowT_length _ _ _ _ _) n 0 R]; exact hR
  rw [← transposeT_involutive hn _ hl,
    transposeT_exact hn _ (by rw [transposeT_length]; exact hl) a b ha hb]
  exact cacheT_exact hn LA LBt R hR b a hb ha

/-- Function `matrixMultiplyCacheFriendly` is `cacheFriendlyRows` followed by
`transpose(&result)` and `transpose(&B)`. -/
theorem matrixMultiplyCacheFriendly_split (h : Heap) (A B : Matrix) :
    matrixMultiplyCacheFriendly h A B =
      (cacheFriendlyRows h A B).bind (fun p =>
        (transpose p.2 p.1).bind (fun h4 =>
          (transpose h4 B).bind (fun h5 => some (p.1, h5)))) := by
  unfold matrixMultiplyCacheFriendly cacheFriendlyRows
  dsimp only
  cases transpose (malloc h (wrapSz (4 * A.size * A.size))).2 B with
  | none => rfl
  | some h2 =>
    simp only [Option.some_bind]
    cases forLoop (cacheRow A B (malloc h (wrapSz (4 * A.size * A.size))).1) B.size 0 h2 with
    | none => rfl
    | some h3 => rfl

/-- When no access leaves its block, the statements of
`matrixMultiplyCacheFriendly` before `transpose(&result)` succeed: `B` is
transposed in place and the result block holds the rows written by the loop. -/
theorem cacheFriendlyRows_eq (h : Heap) (ba bb n : Nat) (hn : n < 2147483648)
    (hba : ba < h.next) (hbb : bb < h.next)
    (hinA : InB n (h.blocks ba).length) (hinB : InB n (h.blocks bb).length)
    (hinR : InB n (n * n)) :
    cacheFriendlyRows h (matrixAt ba n) (matrixAt bb n) =
      some (matrixAt h.next n,
        tempHeap ((h.alloc (h.fresh (n * n))).setBlock bb (transposeT n (h.blocks bb))) h.next n
          (iter (cacheRowT n
            (((h.alloc (h.fresh (n * n))).setBlock bb (transposeT n (h.blocks bb))).blocks ba)
            (transposeT n (h.blocks bb))) n 0 (h.fresh (n * n)))) := by
  have hB1 : (h.alloc (h.fresh (n * n))).blocks bb = h.blocks bb := alloc_blocks_lt _ _ hbb
  have t1 := transpose_eq_at (h.alloc (h.fresh (n * n))) bb n (by rw [hB1]; exact hinB)
  rw [hB1] at t1
  have hA2 : InB n
      (((h.alloc (h.fresh (n * n))).setBlock bb (transposeT n (h.blocks bb))).blocks ba).length := by
    by_cases e : ba = bb
    · subst e
      rw [setBlock_blocks_same, transposeT_length]; exact hinB
    · rw [setBlock_blocks_ne _ _ e, alloc_blocks_lt _ _ hba]; exact hinA
  have hR2 : ((h.alloc (h.fresh (n * n))).setBlock bb (transposeT n (h.blocks bb))).blocks h.next
      = h.fresh (n * n) := by
    rw [setBlock_blocks_ne _ _ (show h.next ≠ bb by omega), alloc_blocks_same]
  have key := forLoop_sim
    (cacheRow (matrixAt ba n) (matrixAt bb n) { blk := h.next, off := 0 })
    (cacheRowT n
      (((h.alloc (h.fresh (n * n))).setBlock bb (transposeT n (h.blocks bb))).blocks ba)
      (transposeT n (h.blocks bb)))
    (fun j K => tempHeap ((h.alloc (h.fresh (n * n))).setBlock bb (transposeT n (h.blocks bb)))
      h.next j K)
    (fun _ K => K.length = n * n) n 0 (h.fresh (n * n)) (fresh_length h _)
    (by
      intro j K _ hj hK
      have hj2 : j < n := by omega
      have := cacheRow_eq ((h.alloc (h.fresh (n * n))).setBlock bb (transposeT n (h.blocks bb)))
        ba bb h.next n j j K hn hj2
        (by rw [setBlock_next, alloc_next]; omega) (by rw [setBlock_next, alloc_next]; omega)
        (by rw [setBlock_next, alloc_next]; omega)
        (by omega) (by omega) hA2
        (by rw [setBlock_blocks_same, transposeT_length]; exact hinB)
        (by rw [hK]; exact hinR)
      rw [setBlock_blocks_same] at this
      exact ⟨this, by dsimp only; rw [cacheRowT_length]; exact hK⟩)
  dsimp only at key
  have e0 : tempHeap ((h.alloc (h.fresh (n * n))).setBlock bb (transposeT n (h.blocks bb)))
      h.next 0 (h.fresh (n * n))
      = (h.alloc (h.fresh (n * n))).setBlock bb (transposeT n (h.blocks bb)) := by
    have := tempHeap_zero ((h.alloc (h.fresh (n * n))).setBlock bb (transposeT n (h.blocks bb)))
      h.next
    rw [hR2] at this
    exact this
  rw [e0, Nat.zero_add] at key
  unfold cacheFriendlyRows
  simp only [malloc_eq]
  rw [show (matrixAt ba n).size = n from rfl, wrapSz_sq hn, t1]
  simp only [Option.some_bind]
  rw [show (matrixAt bb n).size = n from rfl, key.1]
  rfl
/-- C15, amended: for `A` and `B` of equal size `n ≤ 65536` in distinct buffers
of `n * n` cells, the statements of `matrixMultiplyCacheFriendly` before the
final transpose of the result succeed, and then row `i` of the result buffer
holds column `i` of the product: `result[i][r]` is the sum over `k` of
`A[r][k] * B[k][i]` in wrap-around `int` arithmetic. `transpose(&result)` then
makes element `(r, c)` the sum over `k` of `A[r][k] * B[k][c]`, and after
`transpose(&B)` that result is what the function returns. -/
theorem cacheFriendly_rows (h : Heap) (A B : Matrix) (n : Nat) (hn : n ≤ 65536)
    (hA : IsMatrix h A n) (hB : IsMatrix h B n) (hd : A.matrix.blk ≠ B.matrix.blk) :
    ∃ R h3, cacheFriendlyRows h A B = some (R, h3) ∧ IsMatrix h3 R n ∧
      (∀ i r, i < n → r < n →
        entry h3 R i r = some (wrapI (∑ k ∈ Finset.range n, cell h A r k * cell h B k i))) ∧
      ∃ h4 h5, transpose h3 R = some h4 ∧ transpose h4 B = some h5 ∧
        matrixMultiplyCacheFriendly h A B = some (R, h5) ∧
        ∀ r c, r < n → c < n →
          entry h4 R r c = some (wrapI (∑ k ∈ Finset.range n, cell h A r k * cell h B k c)) := by
  have hA2 := hA
  have hB2 := hB
  obtain ⟨hAs, hAo, hAb, hAl⟩ := hA
  obtain ⟨hBs, hBo, hBb, hBl⟩ := hB
  have e := cacheFriendlyRows_eq h A.matrix.blk B.matrix.blk n (by omega) hAb hBb
    (by rw [hAl]; exact InB_small hn) (by rw [hBl]; exact InB_small hn) (InB_small hn)
  rw [← matrix_eq_matrixAt A n hAs hAo, ← matrix_eq_matrixAt B n hBs hBo,
    setBlock_blocks_ne _ _ hd, alloc_blocks_lt _ _ hAb] at e
  have hne : h.next ≠ B.matrix.blk := by omega
  have hl : (iter (cacheRowT n (h.blocks A.matrix.blk) (transposeT n (h.blocks B.matrix.blk))) n 0
      (h.fresh (n * n))).length = n * n := by
    rw [iter_length _ (fun _ _ => cacheRowT_length _ _ _ _ _) n 0, fresh_length]
  have hR : IsMatrix
      (tempHeap ((h.alloc (h.fresh (n * n))).setBlock B.matrix.blk
          (transposeT n (h.blocks B.matrix.blk))) h.next n
        (iter (cacheRowT n (h.blocks A.matrix.blk) (transposeT n (h.blocks B.matrix.blk))) n 0
          (h.fresh (n * n))))
      (matrixAt h.next n) n :=
    isMatrix_at _ _ _ (by rw [tempHeap_next, setBlock_next, alloc_next]; omega)
      (by rw [tempHeap_blocks_rb]; exact hl)
  have t3 := transpose_eq_at _ h.next n (show InB n ((tempHeap
      ((h.alloc (h.fresh (n * n))).setBlock B.matrix.blk (transposeT n (h.blocks B.matrix.blk)))
      h.next n (iter (cacheRowT n (h.blocks A.matrix.blk)
        (transposeT n (h.blocks B.matrix.blk))) n 0 (h.fresh (n * n)))).blocks h.next).length by
    rw [tempHeap_blocks_rb, hl]; exact InB_small hn)
  rw [tempHeap_blocks_rb, tempHeap_setBlock] at t3
  have hR4 : IsMatrix
      (tempHeap ((h.alloc (h.fresh (n * n))).setBlock B.matrix.blk
          (transposeT n (h.blocks B.matrix.blk))) h.next n
        (transposeT n (iter (cacheRowT n (h.blocks A.matrix.blk)
          (transposeT n (h.blocks B.matrix.blk))) n 0 (h.fresh (n * n)))))
      (matrixAt h.next n) n :=
    isMatrix_at _ _ _ (by rw [tempHeap_next, setBlock_next, alloc_next]; omega)
      (by rw [tempHeap_blocks_rb, transposeT_length]; exact hl)
  have t4 := transpose_eq_at
    (tempHeap ((h.alloc (h.fresh (n * n))).setBlock B.matrix.blk
        (transposeT n (h.blocks B.matrix.blk))) h.next n
      (transposeT n (iter (cacheRowT n (h.blocks A.matrix.blk)
        (transposeT n (h.blocks B.matrix.blk))) n 0 (h.fresh (n * n)))))
    B.matrix.blk n
    (by
      rw [tempHeap_blocks_old _ _ _ _ (by rw [setBlock_next, alloc_next]; omega) (by omega),
        setBlock_blocks_same, transposeT_length, hBl]
      exact InB_small hn)
  rw [← matrix_eq_matrixAt B n hBs hBo] at t4
  refine ⟨_, _, e, hR, ?_, _, _, t3, t4, ?_, ?_⟩
  · intro i r hi hr
    rw [entry_eq _ _ n hR i r hi hr]
    show some ((tempHeap _ h.next _ _).blocks h.next |>.getD (i * n + r) 0) = _
    rw [tempHeap_blocks_rb, cacheRows_exact hn _ _ _ (fresh_length _ _) i r hi hr]
    congr 2
    apply Finset.sum_congr rfl
    intro k hk
    have hk2 : k < n := Finset.mem_range.mp hk
    rw [transposeT_exact hn _ hBl i k hi hk2, cell_eq h A n hA2 r k hr hk2,
      cell_eq h B n hB2 k i hk2 hi]
  · rw [matrixMultiplyCacheFriendly_split, e]
    simp only [Option.some_bind]
    rw [t3]
    simp only [Option.some_bind]
    rw [t4]
    rfl
  · intro r c hr hc
    rw [entry_eq _ _ n hR4 r c hr hc]
    show some ((tempHeap _ h.next _ _).blocks h.next |>.getD (r * n + c) 0) = _
    rw [tempHeap_blocks_rb]
    have := cacheT_exact hn (h.blocks A.matrix.blk) (transposeT n (h.blocks B.matrix.blk))
      (h.fresh (n * n)) (fresh_length _ _) r c hr hc
    unfold cacheT at this
    rw [this]
    congr 2
    apply Finset.sum_congr rfl
    intro k hk
    have hk2 : k < n := Finset.mem_range.mp hk
    rw [transposeT_exact hn _ hBl c k hc hk2, cell_eq h A n hA2 r k hr hk2,
      cell_eq h B n hB2 k c hk2 hc]

theorem cacheFriendly_rows_witness :
    IsMatrix (heapOf [[1, 2, 3, 4], [5, 6, 7, 8]]) (matrixAt 0 2) 2 ∧
    IsMatrix (heapOf [[1, 2, 3, 4], [5, 6, 7, 8]]) (matrixAt 1 2) 2 ∧
    ∃ R h3, cacheFriendlyRows (heapOf [[1, 2, 3, 4], [5, 6, 7, 8]]) (matrixAt 0 2) (matrixAt 1 2)
        = some (R, h3) ∧ IsMatrix h3 R 2 ∧
      (∀ i r, i < 2 → r < 2 →
        entry h3 R i r = some (wrapI (∑ k ∈ Finset.range 2,
          cell (heapOf [[1, 2, 3, 4], [5, 6, 7, 8]]) (matrixAt 0 2) r k *
            cell (heapOf [[1, 2, 3, 4], [5, 6, 7, 8]]) (matrixAt 1 2) k i))) ∧
      ∃ h4 h5, transpose h3 R = some h4 ∧ transpose h4 (matrixAt 1 2) = some h5 ∧
        matrixMultiplyCacheFriendly (heapOf [[1, 2, 3, 4], [5, 6, 7, 8]]) (matrixAt 0 2)
          (matrixAt 1 2) = some (R, h5) ∧
        ∀ r c, r < 2 → c < 2 →
          entry h4 R r c = some (wrapI (∑ k ∈ Finset.range 2,
            cell (heapOf [[1, 2, 3, 4], [5, 6, 7, 8]]) (matrixAt 0 2) r k *
              cell (heapOf [[1, 2, 3, 4], [5, 6, 7, 8]]) (matrixAt 1 2) k c)) :=
  ⟨⟨rfl, rfl, by decide, rfl⟩, ⟨rfl, rfl, by decide, rfl⟩,
    cacheFriendly_rows (heapOf [[1, 2, 3, 4], [5, 6, 7, 8]]) (matrixAt 0 2) (matrixAt 1 2) 2
      (by decide) ⟨rfl, rfl, by decide, rfl⟩ ⟨rfl, rfl, by decide, rfl⟩ (by decide)⟩
/-- Size 65537: the last value the loop of `matrixMultiplyCacheFriendly` writes
at offset 65536 is cell 0 of the vector computed for row 65536. -/
theorem cacheRows_65537_cell65536 (LA LBt R : List Int) (hR : 131073 < R.length) :
    (iter (cacheRowT 65537 LA LBt) 65537 0 R).getD 65536 0 = rowDot LA 0 LBt 65536 65537 := by
  have e1 : iter (cacheRowT 65537 LA LBt) 65537 0 R
      = cacheRowT 65537 LA LBt 65536 (iter (cacheRowT 65537 LA LBt) 65536 0 R) :=
    iter_last (cacheRowT 65537 LA LBt) (show 65537 = 65536 + 1 by decide) 0 R
  have e2 : ∀ K, cacheRowT 65537 LA LBt 65536 K
      = iter (fun r M => M.set (65536 + r) ((mvT 65537 LA LBt 65536).getD r 0)) 65536 1
          (K.set 65536 ((mvT 65537 LA LBt 65536).getD 0 0)) := by
    intro K
    unfold cacheRowT copyT
    rw [show wrapU (65536 * 65537) = 65536 by decide]
    exact iter_first _ (show 65537 = 65536 + 1 by decide) 0 K
  have hlen : (iter (cacheRowT 65537 LA LBt) 65536 0 R).length = R.length :=
    iter_length _ (fun _ _ => cacheRowT_length _ _ _ _ _) _ _ _
  rw [e1, e2, iter_set_frame (fun r => 65536 + r) (fun r _ => _) 65536 65536 1 _
      (by intro j a b; show 65536 ≠ 65536 + j; omega),
    getD_set, if_pos ⟨rfl, by rw [hlen]; omega⟩, getD_mvT _ _ _ _ (by decide)]
  rfl

/-- A dot product with the row that is zero except for a one in cell `q`. -/
theorem rowDot_unit_at (q : Nat) (hq : q < 65537) (V : List Int) (rv : Nat) :
    rowDot (bigZeros.set q 1) 0 V rv 65537 = wrapI (V.getD (rv + q) 0) := by
  unfold rowDot
  have s : ∑ k ∈ Finset.range 65537, (bigZeros.set q 1).getD (0 + k) 0 * V.getD (rv + k) 0
      = ∑ k ∈ Finset.range 65537, if k = q then V.getD (rv + q) 0 else 0 := by
    apply Finset.sum_congr rfl
    intro k _
    rw [Nat.zero_add, getD_set, bigZeros_getD]
    by_cases c : k = q
    · subst c
      rw [if_pos rfl, if_pos ⟨rfl, by rw [bigZeros_length]; omega⟩, one_mul]
    · rw [if_neg c, if_neg (fun d => c d.1.symm), zero_mul]
  rw [s, Finset.sum_ite_eq' (Finset.range 65537) q (fun _ => V.getD (rv + q) 0),
    if_pos (Finset.mem_range.mpr hq)]

theorem heapCorner_block0 : heapCorner.blocks 0 = bigZeros.set 0 1 := by
  unfold heapCorner; exact heapOf_blocks_zero _ _

theorem heapCorner_block1 : heapCorner.blocks 1 = bigZeros.set 65536 1 := by
  unfold heapCorner; exact heapOf_blocks_one _ _ _

theorem heapCorner_isMatrix0 : IsMatrix heapCorner (matrixAt 0 65537) 65537 :=
  isMatrix_at _ _ _ (by show 0 < 2; decide) (by rw [heapCorner_block0, units_set_length])

theorem heapCorner_isMatrix1 : IsMatrix heapCorner (matrixAt 1 65537) 65537 :=
  isMatrix_at _ _ _ (by show 1 < 2; decide) (by rw [heapCorner_block1, units_set_length])

/-- C15 as stated fails at size 65537. With `A` zero except `A[0][0] = 1` and
`B` zero except `B[0][65536] = 1`, the sum over `k` of `A[65536][k] * B[k][0]`
is `0`, but before the final transpose of the result `result[0][65536]` holds
`1`: the offset `65536 * 65537` of row 65536 wraps to `65536`, so the last
write to that cell is the dot product of row 0 of `A` with the cells of the
transposed `B` from offset 65536. -/
theorem cacheFriendly_rows_counterexample :
    IsMatrix heapCorner (matrixAt 0 65537) 65537 ∧
    IsMatrix heapCorner (matrixAt 1 65537) 65537 ∧
    ∃ R h3, cacheFriendlyRows heapCorner (matrixAt 0 65537) (matrixAt 1 65537) = some (R, h3) ∧
      entry h3 R 0 65536 = some 1 ∧
      wrapI (∑ k ∈ Finset.range 65537,
        cell heapCorner (matrixAt 0 65537) 65536 k * cell heapCorner (matrixAt 1 65537) k 0) = 0 := by
  have e := cacheFriendlyRows_eq heapCorner 0 1 65537 (by decide) (by show 0 < 2; decide)
    (by show 1 < 2; decide)
    (by rw [heapCorner_block0, units_set_length]; exact InB_65537 (by omega))
    (by rw [heapCorner_block1, units_set_length]; exact InB_65537 (by omega))
    (InB_65537 (by decide))
  refine ⟨heapCorner_isMatrix0, heapCorner_isMatrix1, _, _, e, ?_, ?_⟩
  · have hlen : (iter (cacheRowT 65537
        (((heapCorner.alloc (heapCorner.fresh (65537 * 65537))).setBlock 1
          (transposeT 65537 (heapCorner.blocks 1))).blocks 0)
        (transposeT 65537 (heapCorner.blocks 1))) 65537 0
        (heapCorner.fresh (65537 * 65537))).length = 65537 * 65537 := by
      rw [iter_length _ (fun _ _ => cacheRowT_length _ _ _ _ _), fresh_length]
    rw [entry_at _ _ _ _ _ (by rw [tempHeap_blocks_rb, hlen]; decide),
      tempHeap_blocks_rb, show 0 * 65537 + 65536 = 65536 by decide,
      cacheRows_65537_cell65536 _ _ _ (by rw [fresh_length]; decide),
      setBlock_blocks_ne _ _ (show (0 : Nat) ≠ 1 by decide),
      alloc_blocks_lt _ _ (show 0 < heapCorner.next by show 0 < 2; decide),
      heapCorner_block0, heapCorner_block1, rowDot_unit_at 0 (by decide),
      transposeT_65537_cell65536 _ (by rw [units_set_length]; decide), getD_set,
      if_pos ⟨rfl, by rw [bigZeros_length]; decide⟩]
    decide
  · rw [Finset.sum_eq_zero, wrapI_zero]
    intro k hk
    have hk2 : k < 65537 := Finset.mem_range.mp hk
    rw [cell_eq _ _ _ heapCorner_isMatrix0 65536 k (by decide) hk2]
    show (heapCorner.blocks 0).getD (65536 * 65537 + k) 0 * _ = 0
    rw [heapCorner_block0, getD_set, if_neg (fun d => by omega), bigZeros_getD, zero_mul]
/-! ## Size 65537: row 0 after `transpose` -/

/-- Size 65537: `transpose` leaves the cell at offset 0 alone. -/
theorem transposeT_65537_cell0 (L : List Int) (hL : 131073 < L.length) :
    (transposeT 65537 L).getD 0 0 = L.getD 0 0 := by
  have e1 : transposeT 65537 L = iter (transposePass 65537) 65536 1 (transposePass 65537 0 L) :=
    iter_first (transposePass 65537) (by decide) 0 L
  have e2 : transposePass 65537 0 L = iter (swapStep 65537 0) 65536 1 (swapStep 65537 0 0 L) := by
    unfold transposePass
    exact iter_first (swapStep 65537 0) (show 65537 - 0 = 65536 + 1 by decide) 0 L
  have e3 : swapStep 65537 0 0 L = swapT L 0 0 := rfl
  rw [e1, iter_transposePass_frame 65537 65536 0 1 _
    (by
      intro i j a b c d
      rw [wrapU_65537 (show i < 65537 by omega), wrapU_65537 (show j < 65537 by omega)]
      split_ifs <;> omega), e2,
    iter_swapStep_frame 65537 0 65536 0 1 _ (by
      intro j a b
      rw [wrapU_65537 (show j < 65537 by omega)]
      split_ifs <;> simp [wrapU] <;> omega),
    e3, getD_swapT _ (by omega) (by omega), if_pos rfl]

/-- Size 65537: for `1 ≤ k ≤ 65535` the cell at offset `k`, the place of element
`(0, k)`, receives what was at offset `k * 65537`, the place of element `(k, 0)`. -/
theorem transposeT_65537_row0 (L : List Int) (hL : 4295098369 ≤ L.length) (k : Nat)
    (hk1 : 1 ≤ k) (hk : k ≤ 65535) :
    (transposeT 65537 L).getD k 0 = L.getD (k * 65537) 0 := by
  have e1 : transposeT 65537 L = iter (transposePass 65537) 65536 1 (transposePass 65537 0 L) :=
    iter_first (transposePass 65537) (by decide) 0 L
  have e2 : transposePass 65537 0 L
      = iter (swapStep 65537 0) (65536 - k) (k + 1)
          (swapStep 65537 0 k (iter (swapStep 65537 0) k 0 L)) := by
    unfold transposePass
    rw [show 65537 - 0 = k + (65537 - k) by omega, iter_add,
      iter_first (swapStep 65537 0) (show 65537 - k = (65536 - k) + 1 by omega), Nat.zero_add]
  have e3 : ∀ M, swapStep 65537 0 k M = swapT M k (k * 65537) := by
    intro M
    unfold swapStep
    rw [wrapU_65537 (show 0 < 65537 by decide), wrapU_65537 (show k < 65537 by omega),
      if_neg (by decide), if_neg (by omega), Nat.zero_mul, Nat.zero_add, Nat.add_zero]
  have hk2 : k * 65537 ≤ 65535 * 65537 := Nat.mul_le_mul_right _ hk
  rw [e1, iter_transposePass_frame 65537 65536 k 1 _
    (by
      intro i j a b c d
      rw [wrapU_65537 (show i < 65537 by omega), wrapU_65537 (show j < 65537 by omega)]
      split_ifs <;> omega), e2,
    iter_swapStep_frame 65537 0 (65536 - k) k (k + 1) _ (by
      intro j a b
      rw [wrapU_65537 (show j < 65537 by omega)]
      split_ifs <;> simp [wrapU] <;> omega),
    e3, getD_swapT _ (by rw [iter_swapStep_length]; omega) (by rw [iter_swapStep_length]; omega),
    if_neg (by omega), if_pos rfl]
  exact iter_swapStep_frame 65537 0 k (k * 65537) 0 L (by
      intro j a b
      rw [wrapU_65537 (show j < 65537 by omega)]
      split_ifs <;> simp [wrapU] <;> omega)

/-- Size 65537, `B` zero except `B[1][65535] = 1`: after `transpose`, the first
65537 cells of the buffer are all zero. -/
theorem transposeT_unit_row0 (k : Nat) (hk : k < 65537) :
    (transposeT 65537 (bigZeros.set 131072 1)).getD k 0 = 0 := by
  by_cases c0 : k = 0
  · subst c0
    rw [transposeT_65537_cell0 _ (by rw [units_set_length]; decide), getD_set,
      if_neg (fun d => absurd d.1 (by decide)), bigZeros_getD]
  · by_cases c1 : k = 65536
    · subst c1
      rw [transposeT_65537_cell65536 _ (by rw [units_set_length]; decide), getD_set,
        if_neg (fun d => absurd d.1 (by decide)), bigZeros_getD]
    · rw [transposeT_65537_row0 _ (by rw [units_set_length]) k (by omega) (by omega), getD_set,
        if_neg (fun d => by omega), bigZeros_getD]

/-- A dot product whose first row is all zero is zero. -/
theorem rowDot_zero_row (LA V : List Int) (rv n : Nat) (hz : ∀ k, k < n → LA.getD k 0 = 0) :
    rowDot LA 0 V rv n = 0 := by
  unfold rowDot
  rw [Finset.sum_eq_zero, wrapI_zero]
  intro k hk
  rw [Nat.zero_add, hz k (Finset.mem_range.mp hk), zero_mul]
/-- C18, amended: for square matrices `A` and `B` of equal size `n ≤ 65536`, in
distinct buffers or sharing one buffer, transposing `matrixMultiplyNaive(A, B)`
in place gives, element for element, the matrix that `matrixMultiplyNaive(B, A)`
returns after the buffers of `B` and `A` have each been transposed in place
once (a shared buffer is transposed once), wrap-around of the `int` sums
included. -/
theorem transpose_product (h : Heap) (A B : Matrix) (n : Nat) (hn : n ≤ 65536)
    (hA : IsMatrix h A n) (hB : IsMatrix h B n) :
    ∃ R h1 h2 g1 g2 R2 g3,
      matrixMultiplyNaive h A B = some (R, h1) ∧ transpose h1 R = some h2 ∧
      transpose h B = some g1 ∧
      (A.matrix.blk ≠ B.matrix.blk → transpose g1 A = some g2) ∧
      (A.matrix.blk = B.matrix.blk → g2 = g1) ∧
      matrixMultiplyNaive g2 B A = some (R2, g3) ∧ R.size = n ∧ R2.size = n ∧
      ∀ r c, r < n → c < n → ∃ v, entry h2 R r c = some v ∧ entry g3 R2 r c = some v := by
  obtain ⟨R, h1, e1, hR, hv, _⟩ := naive_entries h A B n hn hA hB
  obtain ⟨h2, e2, _, tv⟩ := transpose_entries h1 R n hn hR
  have hA2 := hA
  have hB2 := hB
  obtain ⟨hAs, hAo, hAb, hAl⟩ := hA
  obtain ⟨hBs, hBo, hBb, hBl⟩ := hB
  have e3 := transpose_eq h B hBo (by rw [hBs, hBl]; exact InB_small hn)
  rw [hBs] at e3
  by_cases hd : A.matrix.blk = B.matrix.blk
  · have kB : IsMatrix (h.setBlock B.matrix.blk (transposeT n (h.blocks B.matrix.blk))) B n :=
      ⟨hBs, hBo, hBb, by rw [setBlock_blocks_same, transposeT_length]; exact hBl⟩
    have kA : IsMatrix (h.setBlock B.matrix.blk (transposeT n (h.blocks B.matrix.blk))) A n :=
      ⟨hAs, hAo, hAb, by rw [hd, setBlock_blocks_same, transposeT_length]; exact hBl⟩
    obtain ⟨R2, g3, e5, hR2, hv2, _⟩ := naive_entries _ B A n hn kB kA
    refine ⟨R, h1, h2, _, _, R2, g3, e1, e2, e3, fun c => absurd hd c, fun _ => rfl, e5, hR.1,
      hR2.1, ?_⟩
    intro r c hr hc
    obtain ⟨v, v1, v2⟩ := tv r c hr hc
    refine ⟨v, v2, ?_⟩
    rw [hv c r hc hr] at v1
    rw [hv2 r c hr hc, ← v1]
    congr 2
    apply Finset.sum_congr rfl
    intro k hk
    have hk2 : k < n := Finset.mem_range.mp hk
    rw [cell_eq _ B n kB r k hr hk2, cell_eq _ A n kA k c hk2 hc, cell_eq h A n hA2 c k hc hk2,
      cell_eq h B n hB2 k r hk2 hr, hd, setBlock_blocks_same,
      transposeT_exact hn _ hBl r k hr hk2, transposeT_exact hn _ hBl k c hk2 hc]
    exact mul_comm _ _
  · have gA : (h.setBlock B.matrix.blk (transposeT n (h.blocks B.matrix.blk))).blocks A.matrix.blk
        = h.blocks A.matrix.blk := setBlock_blocks_ne _ _ hd
    have e4 := transpose_eq (h.setBlock B.matrix.blk (transposeT n (h.blocks B.matrix.blk))) A hAo
      (by rw [gA, hAs, hAl]; exact InB_small hn)
    rw [hAs, gA] at e4
    have kA : IsMatrix ((h.setBlock B.matrix.blk (transposeT n (h.blocks B.matrix.blk))).setBlock
        A.matrix.blk (transposeT n (h.blocks A.matrix.blk))) A n :=
      ⟨hAs, hAo, hAb, by rw [setBlock_blocks_same, transposeT_length]; exact hAl⟩
    have kB : IsMatrix ((h.setBlock B.matrix.blk (transposeT n (h.blocks B.matrix.blk))).setBlock
        A.matrix.blk (transposeT n (h.blocks A.matrix.blk))) B n :=
      ⟨hBs, hBo, hBb, by
        rw [setBlock_blocks_ne _ _ (fun d => hd d.symm), setBlock_blocks_same, transposeT_length]
        exact hBl⟩
    obtain ⟨R2, g3, e5, hR2, hv2, _⟩ := naive_entries _ B A n hn kB kA
    refine ⟨R, h1, h2, _, _, R2, g3, e1, e2, e3, fun _ => e4, fun c => absurd c hd, e5, hR.1,
      hR2.1, ?_⟩
    intro r c hr hc
    obtain ⟨v, v1, v2⟩ := tv r c hr hc
    refine ⟨v, v2, ?_⟩
    rw [hv c r hc hr] at v1
    rw [hv2 r c hr hc, ← v1]
    congr 2
    apply Finset.sum_congr rfl
    intro k hk
    have hk2 : k < n := Finset.mem_range.mp hk
    rw [cell_eq _ B n kB r k hr hk2, cell_eq _ A n kA k c hk2 hc, cell_eq h A n hA2 c k hc hk2,
      cell_eq h B n hB2 k r hk2 hr, setBlock_blocks_same,
      setBlock_blocks_ne _ _ (fun d => hd d.symm), setBlock_blocks_same,
      transposeT_exact hn _ hBl r k hr hk2, transposeT_exact hn _ hAl k c hk2 hc]
    exact mul_comm _ _

theorem transpose_product_witness :
    (IsMatrix (heapOf [[1, 2, 3, 4], [5, 6, 7, 8]]) (matrixAt 0 2) 2 ∧
      IsMatrix (heapOf [[1, 2, 3, 4], [5, 6, 7, 8]]) (matrixAt 1 2) 2 ∧
      ∃ R h1 h2 g1 g2 R2 g3,
        matrixMultiplyNaive (heapOf [[1, 2, 3, 4], [5, 6, 7, 8]]) (matrixAt 0 2) (matrixAt 1 2)
          = some (R, h1) ∧ transpose h1 R = some h2 ∧
        transpose (heapOf [[1, 2, 3, 4], [5, 6, 7, 8]]) (matrixAt 1 2) = some g1 ∧
        ((matrixAt 0 2).matrix.blk ≠ (matrixAt 1 2).matrix.blk →
          transpose g1 (matrixAt 0 2) = some g2) ∧
        ((matrixAt 0 2).matrix.blk = (matrixAt 1 2).matrix.blk → g2 = g1) ∧
        matrixMultiplyNaive g2 (matrixAt 1 2) (matrixAt 0 2) = some (R2, g3) ∧
        R.size = 2 ∧ R2.size = 2 ∧
        ∀ r c, r < 2 → c < 2 → ∃ v, entry h2 R r c = some v ∧ entry g3 R2 r c = some v) ∧
    (IsMatrix (heapOf [[1, 2, 3, 4]]) (matrixAt 0 2) 2 ∧
      ∃ R h1 h2 g1 g2 R2 g3,
        matrixMultiplyNaive (heapOf [[1, 2, 3, 4]]) (matrixAt 0 2) (matrixAt 0 2)
          = some (R, h1) ∧ transpose h1 R = some h2 ∧
        transpose (heapOf [[1, 2, 3, 4]]) (matrixAt 0 2) = some g1 ∧
        ((matrixAt 0 2).matrix.blk ≠ (matrixAt 0 2).matrix.blk →
          transpose g1 (matrixAt 0 2) = some g2) ∧
        ((matrixAt 0 2).matrix.blk = (matrixAt 0 2).matrix.blk → g2 = g1) ∧
        matrixMultiplyNaive g2 (matrixAt 0 2) (matrixAt 0 2) = some (R2, g3) ∧
        R.size = 2 ∧ R2.size = 2 ∧
        ∀ r c, r < 2 → c < 2 → ∃ v, entry h2 R r c = some v ∧ entry g3 R2 r c = some v) :=
  ⟨⟨⟨rfl, rfl, by decide, rfl⟩, ⟨rfl, rfl, by decide, rfl⟩,
      transpose_product (heapOf [[1, 2, 3, 4], [5, 6, 7, 8]]) (matrixAt 0 2) (matrixAt 1 2) 2
        (by decide) ⟨rfl, rfl, by decide, rfl⟩ ⟨rfl, rfl, by decide, rfl⟩⟩,
    ⟨⟨rfl, rfl, by decide, rfl⟩,
      transpose_product (heapOf [[1, 2, 3, 4]]) (matrixAt 0 2) (matrixAt 0 2) 2
        (by decide) ⟨rfl, rfl, by decide, rfl⟩ ⟨rfl, rfl, by decide, rfl⟩⟩⟩

/-- C18 as stated fails at size 65537. With `A` zero except `A[0][65536] = 1` and
`B` zero except `B[1][65535] = 1`, element `(0, 65536)` of the transposed
`matrixMultiplyNaive(A, B)` is `1`, while `matrixMultiplyNaive` applied to the
transposed `B` and the transposed `A` returns `0` there: at that size
`transpose` and the products read and write cells at wrapped offsets. -/
theorem transpose_product_counterexample :
    IsMatrix heapUnits (matrixAt 0 65537) 65537 ∧
    IsMatrix heapUnits (matrixAt 1 65537) 65537 ∧
    ∃ R h1 h2 g1 g2 R2 g3,
      matrixMultiplyNaive heapUnits (matrixAt 0 65537) (matrixAt 1 65537) = some (R, h1) ∧
      transpose h1 R = some h2 ∧
      transpose heapUnits (matrixAt 1 65537) = some g1 ∧
      transpose g1 (matrixAt 0 65537) = some g2 ∧
      matrixMultiplyNaive g2 (matrixAt 1 65537) (matrixAt 0 65537) = some (R2, g3) ∧
      entry h2 R 0 65536 = some 1 ∧ entry g3 R2 0 65536 = some 0 := by
  have hne : (0 : Nat) ≠ 1 := by decide
  have hne2 : (1 : Nat) ≠ 0 := by decide
  have e2 := transpose_eq_at
    (tempHeap (heapUnits.alloc (heapUnits.fresh (65537 * 65537))) heapUnits.next (2 * 65537)
      (naiveT 65537 (bigZeros.set 65536 1) (bigZeros.set 131072 1)
        (heapUnits.fresh (65537 * 65537)))) heapUnits.next 65537
    (by rw [tempHeap_blocks_rb, naiveT_length, fresh_length]; exact InB_65537 (by decide))
  have e3 := transpose_eq_at heapUnits 1 65537
    (by rw [heapUnits_block1, units_set_length]; exact InB_65537 (by omega))
  have b0 : (heapUnits.setBlock 1 (transposeT 65537 (heapUnits.blocks 1))).blocks 0
      = bigZeros.set 65536 1 := by
    rw [setBlock_blocks_ne _ _ hne, heapUnits_block0]
  have e4 := transpose_eq_at (heapUnits.setBlock 1 (transposeT 65537 (heapUnits.blocks 1))) 0 65537
    (by rw [b0, units_set_length]; exact InB_65537 (by omega))
  have c1 : (((heapUnits.setBlock 1 (transposeT 65537 (heapUnits.blocks 1))).setBlock 0
      (transposeT 65537
        ((heapUnits.setBlock 1 (transposeT 65537 (heapUnits.blocks 1))).blocks 0))).blocks 1)
      = transposeT 65537 (bigZeros.set 131072 1) := by
    rw [setBlock_blocks_ne _ _ hne2, setBlock_blocks_same, heapUnits_block1]
  have e5 := naive_big
    ((heapUnits.setBlock 1 (transposeT 65537 (heapUnits.blocks 1))).setBlock 0
      (transposeT 65537
        ((heapUnits.setBlock 1 (transposeT 65537 (heapUnits.blocks 1))).blocks 0))) 1 0
    (by show 1 < 2; decide) (by show 0 < 2; decide)
    (by rw [c1, transposeT_length, units_set_length])
    (by rw [setBlock_blocks_same, transposeT_length, b0, units_set_length])
  refine ⟨heapUnits_isMatrix0, heapUnits_isMatrix1, _, _, _, _, _, _, _, naive_units, e2, e3, e4,
    e5, ?_, ?_⟩
  · rw [entry_at _ _ _ _ _ (by
        rw [setBlock_blocks_same, transposeT_length, tempHeap_blocks_rb, naiveT_length,
          fresh_length]
        decide),
      setBlock_blocks_same, tempHeap_blocks_rb, show 0 * 65537 + 65536 = 65536 by decide,
      transposeT_65537_cell65536 _ (by rw [naiveT_length, fresh_length]; decide),
      naiveT_units _ (by rw [fresh_length]; decide)]
  · rw [entry_at _ _ _ _ _ (by
        rw [tempHeap_blocks_rb, naiveT_length, fresh_length]
        decide),
      tempHeap_blocks_rb, show 0 * 65537 + 65536 = 65536 by decide,
      naiveT_65537_cell65536 _ _ _ (by rw [fresh_length]; decide), c1,
      rowDot_zero_row _ _ _ _ transposeT_unit_row0]

end MatMul
